import Mathlib

/-!
# Two-player session coordinator: game units, sessions (Room) and directory (Hub)

A shallow embedding of `backend/internal/game` (rps.go, mines.go),
`backend/internal/ws` (room.go, hub.go) and `backend/internal/service`
(telegram_auth.go with the signing helper of telegram_auth_test.go), followed
by theorems about it.

Conventions of the embedding

* A Go `map[K]V` is an association list with at most one entry per key
  (`GoMap`); `set` overwrites in place or appends, `del` removes, `len` counts.
* `interface{}` payloads are the sum type `Data`.
* `int64` user ids are `Int`; amounts are `Int` and the one product taken on
  them (`BetAmount * 2`) is reduced with `wrap64`, as Go arithmetic does.
* `math/rand` is a stream of raw draws (`Rand`); `Intn n` takes the next draw
  modulo `n`, so every value of `[0, n)` can come out and nothing else.
* The mutexes only delimit critical sections; every function below is one
  sequential run of its Go body.
* Round numbers, timer generations and the session counter are event counts
  and are not reduced to a machine width.
* In the init-data part a Go string is the list of its bytes (`Bytes`), and
  the standard library (SHA-256, HMAC, hex, query escaping, sorting,
  `ParseInt`) is written out so that every digest can be evaluated.
-/

set_option autoImplicit false

namespace Coordinator

/-! ## Go maps -/

/-- A Go map, as an association list holding at most one entry per key. -/
abbrev GoMap (K V : Type) := List (K × V)

namespace GoMap

variable {K V : Type} [DecidableEq K]

/-- The comma-ok lookup `v, ok := m[k]`. -/
def get? (m : GoMap K V) (k : K) : Option V :=
  match m with
  | [] => none
  | (k', v) :: t => if k' = k then some v else get? t k

/-- The key test `_, ok := m[k]`. -/
def has (m : GoMap K V) (k : K) : Bool := (m.get? k).isSome

/-- The plain lookup `m[k]`, giving the zero value `d` for a missing key. -/
def getD (m : GoMap K V) (k : K) (d : V) : V := (m.get? k).getD d

/-- The assignment `m[k] = v`. -/
def set (m : GoMap K V) (k : K) (v : V) : GoMap K V :=
  match m with
  | [] => [(k, v)]
  | (k', v') :: t => if k' = k then (k, v) :: t else (k', v') :: set t k v

/-- The builtin `delete(m, k)`. -/
def del (m : GoMap K V) (k : K) : GoMap K V :=
  m.filter (fun e => decide (e.1 ≠ k))

/-- The builtin `len(m)`. -/
def len (m : GoMap K V) : Nat := m.length

/-- The keys of the map. -/
def keys (m : GoMap K V) : List K := m.map Prod.fst

end GoMap

/-! ## Payloads and the random source -/

/-- A dynamically typed payload (`interface{}`): `nil`, a `string`, an `int`,
an `[]int`, or a value of any other dynamic type (`float64`, `bool`, ...). -/
inductive Data where
  | nil
  | str (s : String)
  | int (n : Int)
  | ints (xs : List Int)
  | other
  deriving DecidableEq

/-- The random source: the stream of raw draws still to come. -/
abbrev Rand := Nat → Nat

/-- `rand.Intn(n)`: the next draw reduced into `[0, n)`, and the rest of the stream. -/
def Intn (rng : Rand) (n : Nat) : Nat × Rand :=
  (rng 0 % n, fun i => rng (i + 1))

/-- Two's complement reduction of an integer to the `int64` range. -/
def wrap64 (x : Int) : Int :=
  (x + 2 ^ 63) % 2 ^ 64 - 2 ^ 63

/-! ## Game results (game.go) -/

/-- One recorded cell choice of the mines game (`MoveResult`). -/
structure MoveResult where
  Cell : Int
  HitMine : Bool
  Round : Int
  deriving DecidableEq

/-- A value stored in `GameResult.Details` (`map[string]interface{}`). -/
inductive Detail where
  | moves (m : GoMap Int String)
  | str (s : String)
  | int (n : Int)
  | history (h : GoMap Int (List MoveResult))
  deriving DecidableEq

/-- The terminal result of a game (`GameResult`); `WinnerID = none` is the nil pointer. -/
structure GameResult where
  WinnerID : Option Int
  Reason : String
  Details : GoMap String Detail
  deriving DecidableEq

/-! ## Rock-paper-scissors (rps.go) -/

/-- The state of `RPSGame`. A nil `lastMoves` map reads like the empty one. -/
structure RPSGame where
  id : String
  players : Int × Int
  moves : GoMap Int String
  lastMoves : GoMap Int String
  round : Int
  result : Option GameResult
  deriving DecidableEq

namespace RPSGame

/-- `NewRPSGame`. -/
def new (id : String) (players : Int × Int) : RPSGame :=
  { id := id, players := players, moves := [], lastMoves := [], round := 0, result := none }

/-- `RPSGame.SetSecondPlayer`. -/
def SetSecondPlayer (g : RPSGame) (playerID : Int) : RPSGame :=
  { g with players := (g.players.1, playerID) }

/-- `RPSGame.IsSetupComplete`: there is no setup phase. -/
def IsSetupComplete (_g : RPSGame) : Bool := true

/-- `RPSGame.HandleMove`: the returned option is the error (`none` is a nil error). -/
def HandleMove (g : RPSGame) (playerID : Int) (data : Data) (rng : Rand) :
    Option String × RPSGame × Rand :=
  if g.moves.has playerID then
    if data = Data.nil then (none, g, rng)
    else (some "уже сделан ход", g, rng)
  else
    let pick : String × Rand :=
      match data with
      | Data.str s => (s, rng)
      | _ =>
        let d := Intn rng 3
        (["rock", "paper", "scissors"].getD d.1 "", d.2)
    if pick.1 ≠ "rock" ∧ pick.1 ≠ "paper" ∧ pick.1 ≠ "scissors" then
      (some "неверное значение хода", g, pick.2)
    else
      (none, { g with moves := g.moves.set playerID pick.1 }, pick.2)

/-- `RPSGame.IsRoundComplete`. -/
def IsRoundComplete (g : RPSGame) : Bool := g.moves.len == 2

/-- The helper `decide` of rps.go: the outcome of one round seen from `moveA`. -/
def decideRound (moveA moveB : String) : String :=
  if moveA = moveB then "draw"
  else if moveA = "rock" then (if moveB = "scissors" then "win" else "lose")
  else if moveA = "paper" then (if moveB = "rock" then "win" else "lose")
  else if moveA = "scissors" then (if moveB = "paper" then "win" else "lose")
  else "lose"

/-- `RPSGame.CheckResult`: the returned option is the `*GameResult` (`none` is nil). -/
def CheckResult (g : RPSGame) : Option GameResult × RPSGame :=
  if g.moves.len < 2 then (none, g)
  else
    let round := g.round + 1
    let p1 := g.players.1
    let p2 := g.players.2
    let move1 := g.moves.getD p1 ""
    let move2 := g.moves.getD p2 ""
    let outcome := decideRound move1 move2
    if outcome = "win" then
      let res : GameResult :=
        { WinnerID := some p1, Reason := "game_complete",
          Details := [("moves", Detail.moves g.moves), ("yourMove", Detail.str move1),
                      ("opponentMove", Detail.str move2)] }
      (some res, { g with round := round, result := some res })
    else if outcome = "lose" then
      let res : GameResult :=
        { WinnerID := some p2, Reason := "game_complete",
          Details := [("moves", Detail.moves g.moves), ("yourMove", Detail.str move2),
                      ("opponentMove", Detail.str move1)] }
      (some res, { g with round := round, result := some res })
    else if round ≥ 5 then
      let res : GameResult :=
        { WinnerID := none, Reason := "draw_after_5_rounds",
          Details := [("rounds", Detail.int round)] }
      (some res, { g with round := round, result := some res })
    else
      (none, { g with round := round,
                      lastMoves := g.moves.foldl (fun acc e => acc.set e.1 e.2) [],
                      moves := [] })

/-- `RPSGame.IsFinished`. -/
def IsFinished (g : RPSGame) : Bool := g.result.isSome

end RPSGame

/-! ## Mine-sweep duel (mines.go) -/

/-- The board of one player (`Board`): the array `mines [12]bool`. -/
structure Board where
  mines : Mathlib.Vector Bool 12
  deriving DecidableEq

namespace Board

/-- The zero value `Board{}`: no mine anywhere. -/
def empty : Board := ⟨Mathlib.Vector.replicate 12 false⟩

/-- The indexing `board.mines[i]`; `none` is the out-of-range panic. -/
def at? (b : Board) (i : Int) : Option Bool :=
  if h : 0 ≤ i ∧ i < 12 then some (b.mines.get ⟨i.toNat, by omega⟩) else none

/-- The guarded store `if pos >= 1 && pos <= 12 { board.mines[pos-1] = true }`. -/
def mark (b : Board) (pos : Int) : Board :=
  if h : 1 ≤ pos ∧ pos ≤ 12 then ⟨b.mines.set ⟨(pos - 1).toNat, by omega⟩ true⟩ else b

/-- The inner loop of `isSetupCompleteUnlocked`: some cell holds a mine. -/
def hasMine (b : Board) : Bool := b.mines.toList.any (fun m => m)

end Board

/-- The result of the last round (`RoundResult`). -/
structure RoundResult where
  Round : Int
  PlayerMoves : GoMap Int MoveResult
  deriving DecidableEq

/-- The state of `MinesGame`. The boards stored in the map are never nil, and a
history slice is stored non-nil, so a nil test on either is a missing key. -/
structure MinesGame where
  id : String
  players : Int × Int
  boards : GoMap Int Board
  moves : GoMap Int Int
  round : Int
  result : Option GameResult
  moveHistory : GoMap Int (List MoveResult)
  lastRoundResult : Option RoundResult
  deriving DecidableEq

namespace MinesGame

/-- `NewMinesGame`. -/
def new (id : String) (players : Int × Int) : MinesGame :=
  { id := id, players := players, boards := [], moves := [], round := 0, result := none,
    moveHistory := (GoMap.set (GoMap.set [] players.1 []) players.2 []),
    lastRoundResult := none }

/-- `MinesGame.SetSecondPlayer`. -/
def SetSecondPlayer (g : MinesGame) (playerID : Int) : MinesGame :=
  let g1 := { g with players := (g.players.1, playerID) }
  if g1.moveHistory.has playerID then g1
  else { g1 with moveHistory := g1.moveHistory.set playerID [] }

/-- `MinesGame.isSetupCompleteUnlocked`. -/
def isSetupCompleteUnlocked (g : MinesGame) : Bool :=
  if g.boards.len < 2 then false
  else g.boards.all (fun e => e.2.hasMine)

/-- `MinesGame.IsSetupComplete`. -/
def IsSetupComplete (g : MinesGame) : Bool := g.isSetupCompleteUnlocked

/-- The bot placement loop of `HandleMove`:
`for len(positions) < 4 { pos := rand.Intn(12) + 1; if !used[pos] { ... } }`.
Each iteration spends one unit of `fuel`; `none` means the loop was still
running when the fuel ran out. -/
def botPositions : Nat → Rand → List Int → GoMap Int Bool → Option (List Int × Rand)
  | fuel, rng, positions, used =>
    if positions.length < 4 then
      match fuel with
      | 0 => none
      | fuel + 1 =>
        let d := Intn rng 12
        let pos : Int := (d.1 : Int) + 1
        if used.getD pos false then botPositions fuel d.2 positions used
        else botPositions fuel d.2 (positions ++ [pos]) (used.set pos true)
    else some (positions, rng)

/-- `MinesGame.HandleMove`, for setup and for play. The inner option is the
error (`none` is a nil error); the outer `none` means the bot placement loop
did not finish within `fuel` iterations. -/
def HandleMove (fuel : Nat) (g : MinesGame) (playerID : Int) (data : Data) (rng : Rand) :
    Option (Option String × MinesGame × Rand) :=
  if ¬ g.isSetupCompleteUnlocked then
    if g.boards.has playerID ∧ data = Data.nil then some (none, g, rng)
    else
      let chosen : Option (List Int × Rand) :=
        match data with
        | Data.ints xs => if xs.length ≠ 4 then botPositions fuel rng [] [] else some (xs, rng)
        | _ => botPositions fuel rng [] []
      match chosen with
      | none => none
      | some (positions, rng1) =>
        let board := positions.foldl (fun b pos => b.mark pos) Board.empty
        some (none, { g with boards := g.boards.set playerID board }, rng1)
  else if g.moves.has playerID ∧ data = Data.nil then some (none, g, rng)
  else
    let pick : Int × Rand :=
      match data with
      | Data.int n =>
        if n < 1 ∨ n > 12 then
          let d := Intn rng 12
          ((d.1 : Int) + 1, d.2)
        else (n, rng)
      | _ =>
        let d := Intn rng 12
        ((d.1 : Int) + 1, d.2)
    some (none, { g with moves := g.moves.set playerID pick.1 }, pick.2)

/-- `MinesGame.HandleSetup`: the same as `HandleMove`. -/
def HandleSetup (fuel : Nat) (g : MinesGame) (playerID : Int) (data : Data) (rng : Rand) :
    Option (Option String × MinesGame × Rand) :=
  HandleMove fuel g playerID data rng

/-- `MinesGame.IsRoundComplete`. -/
def IsRoundComplete (g : MinesGame) : Bool := g.moves.len == 2

/-- `MinesGame.getResultDetails`. -/
def getResultDetails (g : MinesGame) : GoMap String Detail :=
  [("rounds", Detail.int g.round), ("moveHistory", Detail.history g.moveHistory)]

/-- The lookup `g.boards[p].mines[cell-1]`; `none` is the panic of a nil board
or of an index outside the array. -/
def hitAt (g : MinesGame) (p : Int) (cell : Int) : Option Bool :=
  match g.boards.get? p with
  | none => none
  | some b => b.at? (cell - 1)

/-- `MinesGame.CheckResult`. The inner option is the `*GameResult` (`none` is
nil); the outer `none` is a run-time panic in one of the two board lookups. -/
def CheckResult (g : MinesGame) : Option (Option GameResult × MinesGame) :=
  if g.moves.len < 2 then some (none, g)
  else
    let g1 := { g with round := g.round + 1 }
    let p1 := g1.players.1
    let p2 := g1.players.2
    match g1.hitAt p2 (g1.moves.getD p1 0), g1.hitAt p1 (g1.moves.getD p2 0) with
    | some hit1, some hit2 =>
      let move1 : MoveResult := { Cell := g1.moves.getD p1 0, HitMine := hit1, Round := g1.round }
      let move2 : MoveResult := { Cell := g1.moves.getD p2 0, HitMine := hit2, Round := g1.round }
      let h1 := g1.moveHistory.set p1 (g1.moveHistory.getD p1 [] ++ [move1])
      let h2 := h1.set p2 (h1.getD p2 [] ++ [move2])
      let g2 := { g1 with
        moveHistory := h2,
        lastRoundResult :=
          some { Round := g1.round, PlayerMoves := GoMap.set (GoMap.set [] p1 move1) p2 move2 } }
      if hit1 ∧ ¬ hit2 then
        let res : GameResult :=
          { WinnerID := some p2, Reason := "opponent_hit_mine", Details := g2.getResultDetails }
        some (some res, { g2 with result := some res })
      else if hit2 ∧ ¬ hit1 then
        let res : GameResult :=
          { WinnerID := some p1, Reason := "opponent_hit_mine", Details := g2.getResultDetails }
        some (some res, { g2 with result := some res })
      else if g2.round ≥ 5 then
        let res : GameResult :=
          { WinnerID := none, Reason := "draw", Details := g2.getResultDetails }
        some (some res, { g2 with result := some res })
      else some (none, { g2 with moves := [] })
    | _, _ => none

/-- `MinesGame.IsFinished`. -/
def IsFinished (g : MinesGame) : Bool := g.result.isSome

end MinesGame

/-! ## The game interface (game.go) -/

/-- The interface `Game` with its two implementations. -/
inductive Game where
  | rps (g : RPSGame)
  | mines (g : MinesGame)
  deriving DecidableEq

namespace Game

/-- `Game.Type` (a reserved word here, hence the name of its result type):
`TypeRPS = "rps"`, `TypeMines = "mines"`. -/
def GameType : Game → String
  | rps _ => "rps"
  | mines _ => "mines"

/-- `Game.Players`. -/
def Players : Game → Int × Int
  | rps g => g.players
  | mines g => g.players

/-- `Game.SetSecondPlayer`. -/
def SetSecondPlayer : Game → Int → Game
  | rps g, playerID => rps (g.SetSecondPlayer playerID)
  | mines g, playerID => mines (g.SetSecondPlayer playerID)

/-- `Game.SetupTimeout`, in seconds (ten for both games). -/
def SetupTimeout : Game → Nat
  | rps _ => 10
  | mines _ => 10

/-- `Game.TurnTimeout`, in seconds. -/
def TurnTimeout : Game → Nat
  | rps _ => 20
  | mines _ => 15

/-- `Game.IsSetupComplete`. -/
def IsSetupComplete : Game → Bool
  | rps g => g.IsSetupComplete
  | mines g => g.IsSetupComplete

/-- `Game.HandleMove`; see `MinesGame.HandleMove` for the two options. -/
def HandleMove (fuel : Nat) (gm : Game) (playerID : Int) (data : Data) (rng : Rand) :
    Option (Option String × Game × Rand) :=
  match gm with
  | rps g =>
    let r := g.HandleMove playerID data rng
    some (r.1, rps r.2.1, r.2.2)
  | mines g =>
    match g.HandleMove fuel playerID data rng with
    | none => none
    | some r => some (r.1, mines r.2.1, r.2.2)

/-- `Game.HandleSetup`: a no-op for rock-paper-scissors, `HandleMove` for mines. -/
def HandleSetup (fuel : Nat) (gm : Game) (playerID : Int) (data : Data) (rng : Rand) :
    Option (Option String × Game × Rand) :=
  match gm with
  | rps g => some (none, rps g, rng)
  | mines g =>
    match g.HandleSetup fuel playerID data rng with
    | none => none
    | some r => some (r.1, mines r.2.1, r.2.2)

/-- `Game.IsRoundComplete`. -/
def IsRoundComplete : Game → Bool
  | rps g => g.IsRoundComplete
  | mines g => g.IsRoundComplete

/-- `Game.CheckResult`; the outer `none` is a run-time panic (mines only). -/
def CheckResult : Game → Option (Option GameResult × Game)
  | rps g => some ((g.CheckResult).1, rps (g.CheckResult).2)
  | mines g =>
    match g.CheckResult with
    | none => none
    | some r => some (r.1, mines r.2)

/-- `Game.IsFinished`. -/
def IsFinished : Game → Bool
  | rps g => g.IsFinished
  | mines g => g.IsFinished

/-- The move recorded for a player in the current round, as a payload. -/
def recordedMove : Game → Int → Option Data
  | rps g, p => (g.moves.get? p).map Data.str
  | mines g, p => (g.moves.get? p).map Data.int

end Game

/-! ## Connection workers, messages and effects (client.go, room.go) -/

/-- A connection worker (`Client`): the fields fixed at construction. `Conn`
identifies the connection, and with it the worker object. -/
structure Client where
  Conn : Nat
  UserID : Int
  GameType : String
  BetAmount : Int
  Currency : String
  deriving DecidableEq

/-- A value in a message payload. `now` is a reading of the clock
(`time.Now().UnixMilli()`), kept symbolic. -/
inductive PVal where
  | str (s : String)
  | int (n : Int)
  | bool (b : Bool)
  | now
  | details (d : GoMap String Detail)
  | history (h : List MoveResult)
  deriving DecidableEq

/-- The envelope `Message{Type, Payload}`. -/
structure Message where
  MsgType : String
  Payload : GoMap String PVal
  deriving DecidableEq

/-- What a session does to the outside: ledger calls, history records and
pushes on a worker's outbound queue. A push that times out is logged and
dropped by the code, so `send` stands for the attempt. -/
inductive Effect where
  | UpdateCoins (userID : Int) (amount : Int)
  | UpdateGems (userID : Int) (amount : Int)
  | send (c : Client) (msg : Message)
  | gameCreate (roomID : String) (playerA playerB : Int) (winner : Option Int)
  | historyCreate (userID : Int) (gameType : String) (opponentID : Int) (roomID : String)
      (result : String) (betAmount winAmount : Int) (currency : String)
      (details : GoMap String Detail)
  deriving DecidableEq

namespace Effect

/-- A call on the balance ledger. -/
def isLedger : Effect → Bool
  | UpdateCoins _ _ => true
  | UpdateGems _ _ => true
  | _ => false

end Effect

/-- The constant `winnerPayoutMultiplier`. -/
def winnerPayoutMultiplier : Int := 2

/-- The wire value of `domain.CurrencyCoins`. -/
def CurrencyCoins : String := "coins"

/-- The state of a session (`Room`). `Register` and `Disconnect` are the two
channels of capacity 2, oldest entry first. `timer` is the generation the
last armed round timer was tagged with, `none` when it is nil or stopped.
`setupDoneChan` is `none` while the channel is nil, otherwise it tells whether
the channel has been closed. `hub`, `GameRepo`, `GameHistoryRepo` and
`UserRepo` record whether the pointer is non-nil; the directory itself is
passed to the functions that need it. -/
structure Room where
  ID : String
  Clients : GoMap Int Client
  Register : List Client
  Disconnect : List Client
  timer : Option Int
  timerRound : Int
  createdAt : Int
  roundStarted : Bool
  setupCompleted : Bool
  roundChecking : Bool
  setupDoneChan : Option Bool
  game : Game
  GameRepo : Bool
  GameHistoryRepo : Bool
  hub : Bool
  BetAmount : Int
  Currency : String
  UserRepo : Bool
  betPaid : Bool
  deriving DecidableEq

/-- The matchmaking key (`WaitingKey`). -/
structure WaitingKey where
  GameType : String
  BetAmount : Int
  Currency : String
  deriving DecidableEq

/-- The state of the directory (`Hub`). `Rooms` holds the sessions themselves:
the Go map holds pointers, and the state a pointer leads to is kept in place. -/
structure Hub where
  Rooms : GoMap String Room
  UserRoom : GoMap Int String
  roomSeq : Int
  WaitingByKey : GoMap WaitingKey Client
  WaitingByGame : GoMap String Client
  GameRepo : Bool
  GameHistoryRepo : Bool
  UserRepo : Bool
  deriving DecidableEq

namespace Room

/-- `Room.payoutWinner`: the ledger calls it makes. -/
def payoutWinner (r : Room) (winnerID : Option Int) (p1 p2 : Int) : List Effect :=
  if ¬ r.UserRepo ∨ r.BetAmount = 0 then []
  else
    let totalPot := wrap64 (r.BetAmount * 2)
    match winnerID with
    | none =>
      if r.Currency = CurrencyCoins then
        [Effect.UpdateCoins p1 r.BetAmount, Effect.UpdateCoins p2 r.BetAmount]
      else
        [Effect.UpdateGems p1 r.BetAmount, Effect.UpdateGems p2 r.BetAmount]
    | some w =>
      if r.Currency = CurrencyCoins then [Effect.UpdateCoins w totalPot]
      else [Effect.UpdateGems w totalPot]

/-- `Room.refundBet`: the ledger call it makes. -/
def refundBet (r : Room) (userID : Int) : List Effect :=
  if ¬ r.UserRepo ∨ r.BetAmount = 0 then []
  else if r.Currency = CurrencyCoins then [Effect.UpdateCoins userID r.BetAmount]
  else [Effect.UpdateGems userID r.BetAmount]

/-- `Room.getClientsUnlocked`: a copy of the participant map. -/
def getClientsUnlocked (r : Room) : GoMap Int Client := r.Clients

/-- `Room.broadcastToClients`: one push per entry, in the order of the list
(Go leaves the order of a map range unspecified). -/
def broadcastToClients (clients : GoMap Int Client) (msg : Message) : List Effect :=
  clients.map (fun e => Effect.send e.2 msg)

/-- `Room.send`: a push to the worker attached for `userID`, if there is one. -/
def send (r : Room) (userID : Int) (msg : Message) : List Effect :=
  match r.Clients.get? userID with
  | some c => [Effect.send c msg]
  | none => []

/-- `Room.startRound`. -/
def startRound (r : Room) : Room × List Effect :=
  if r.roundStarted then (r, [])
  else
    let clients := r.getClientsUnlocked
    let currentRound := r.timerRound + 1
    ({ r with roundStarted := true, timerRound := currentRound, timer := some currentRound },
     broadcastToClients clients
       { MsgType := "start", Payload := [("type", PVal.str "start"), ("timestamp", PVal.now)] })

/-- `Room.cleanup`: stops the timer and releases the directory bookkeeping. -/
def cleanup (r : Room) (h : Hub) : Room × Hub :=
  let r1 := { r with timer := none }
  let players := r.game.Players
  let gameType := r.game.GameType
  let clientIDs := r.Clients.keys
  if r.hub then
    let rooms := h.Rooms.del r.ID
    let ur1 := [players.1, players.2].foldl
      (fun ur uid => if uid ≠ 0 then GoMap.del ur uid else ur) h.UserRoom
    let ur2 := clientIDs.foldl (fun ur uid => GoMap.del ur uid) ur1
    let wbg :=
      match h.WaitingByGame.get? gameType with
      | some waiting =>
        if waiting.UserID = players.1 ∨ waiting.UserID = players.2 then
          h.WaitingByGame.del gameType
        else h.WaitingByGame
      | none => h.WaitingByGame
    (r1, { h with Rooms := rooms, UserRoom := ur2, WaitingByGame := wbg })
  else (r1, h)

/-- The payload of one `round_result` message of `sendMinesRoundResult`. -/
def roundResultPayload (rr : RoundResult) (nextRound : Int) (me opp : Int)
    (history : List MoveResult) : GoMap String PVal :=
  let zero : MoveResult := { Cell := 0, HitMine := false, Round := 0 }
  let myMove := rr.PlayerMoves.getD me zero
  let oppMove := rr.PlayerMoves.getD opp zero
  [("round", PVal.int rr.Round), ("next_round", PVal.int nextRound),
   ("your_move", PVal.int myMove.Cell), ("your_hit", PVal.bool myMove.HitMine),
   ("opponent_move", PVal.int oppMove.Cell), ("opponent_hit", PVal.bool oppMove.HitMine),
   ("history", PVal.history history), ("timestamp", PVal.now)]

/-- `Room.sendMinesRoundResult`. -/
def sendMinesRoundResult (r : Room) : List Effect :=
  match r.game with
  | Game.rps _ => []
  | Game.mines g =>
    match g.lastRoundResult with
    | none => []
    | some rr =>
      let p1 := g.players.1
      let p2 := g.players.2
      let nextRound := g.round + 1
      (if r.Clients.has p1 then
        r.send p1 { MsgType := "round_result",
                    Payload := roundResultPayload rr nextRound p1 p2 (g.moveHistory.getD p1 []) }
       else []) ++
      (if r.Clients.has p2 then
        r.send p2 { MsgType := "round_result",
                    Payload := roundResultPayload rr nextRound p2 p1 (g.moveHistory.getD p2 []) }
       else [])

/-- The two outcome labels of `broadcastResult`, for players[0] and players[1]. -/
def resultLabels (winnerID : Option Int) (p1 : Int) : String × String :=
  match winnerID with
  | none => ("draw", "draw")
  | some w => if w = p1 then ("win", "lose") else ("lose", "win")

/-- The two `details` maps of `broadcastResult`, for players[0] and players[1]:
personalised when the game is rock-paper-scissors and the result carries the
moves map, the shared `result.Details` otherwise. -/
def resultDetails (gameType : String) (result : GameResult) (p1 p2 : Int) :
    GoMap String Detail × GoMap String Detail :=
  if gameType = "rps" then
    match result.Details.get? "moves" with
    | some (Detail.moves moves) =>
      let move1 := moves.getD p1 ""
      let move2 := moves.getD p2 ""
      ([("moves", Detail.moves moves), ("yourMove", Detail.str move1),
        ("opponentMove", Detail.str move2)],
       [("moves", Detail.moves moves), ("yourMove", Detail.str move2),
        ("opponentMove", Detail.str move1)])
    | _ => (result.Details, result.Details)
  else (result.Details, result.Details)

/-- The `result` message of `broadcastResult` for one participant. -/
def resultMessage (you : String) (reason : String) (details : GoMap String Detail) : Message :=
  { MsgType := "result",
    Payload := [("you", PVal.str you), ("reason", PVal.str reason),
                ("details", PVal.details details)] }

/-- `Room.broadcastResult`. -/
def broadcastResult (r : Room) (result : GameResult) : List Effect :=
  let p1 := r.game.Players.1
  let p2 := r.game.Players.2
  let labels := resultLabels result.WinnerID p1
  let details := resultDetails r.game.GameType result p1 p2
  (match r.Clients.get? p1 with
   | some c1 => [Effect.send c1 (resultMessage labels.1 result.Reason details.1)]
   | none => []) ++
  (match r.Clients.get? p2 with
   | some c2 => [Effect.send c2 (resultMessage labels.2 result.Reason details.2)]
   | none => [])

/-- One `round_draw` notice of `checkRound` for rock-paper-scissors: the
message for the worker `c` attached under `uid`, with its own view of the
last moves. -/
def roundDrawNotice (g : RPSGame) (uid : Int) (c : Client) : Effect :=
  Effect.send c
    { MsgType := "round_draw",
      Payload := [("message", PVal.str "Round ended in draw, starting next round"),
                  ("round", PVal.int g.round),
                  ("your_move", PVal.str
                    (if uid = g.players.1 then g.lastMoves.getD g.players.1 ""
                     else g.lastMoves.getD g.players.2 "")),
                  ("opponent_move", PVal.str
                    (if uid = g.players.1 then g.lastMoves.getD g.players.2 ""
                     else g.lastMoves.getD g.players.1 ""))] }

/-- The `round_draw` notices of `checkRound`, one per attached worker. -/
def roundDrawNotices (r : Room) (g : RPSGame) : List Effect :=
  List.map (fun e => roundDrawNotice g e.1 e.2) r.Clients

/-- `Room.checkRound`. `none` is a panic inside `CheckResult`. The guard flag
`roundChecking` is set on entry and reset by the deferred function on exit. -/
def checkRound (r : Room) : Option (Room × List Effect) :=
  if r.roundChecking then some (r, [])
  else if ¬ r.game.IsRoundComplete then some (r, [])
  else
    match r.game.CheckResult with
    | none => none
    | some (none, g1) =>
      let r1 := { r with game := g1 }
      if ¬ g1.IsFinished then
        let e1 := r1.sendMinesRoundResult
        let e2 :=
          match g1 with
          | Game.rps g => roundDrawNotices r1 g
          | Game.mines _ => []
        let s := ({ r1 with roundStarted := false }).startRound
        some (s.1, e1 ++ e2 ++ s.2)
      else some (r1, [])
    | some (some result, g1) =>
      let r1 := { r with game := g1 }
      let e1 := r1.sendMinesRoundResult
      let e2 := r1.broadcastResult result
      if g1.IsFinished then some (r1, e1 ++ e2)
      else
        let s := ({ r1 with roundStarted := false }).startRound
        some (s.1, e1 ++ e2 ++ s.2)

/-- The loop of `handleRoundTimeout`: a fallback `HandleMove(playerID, nil)`
for players[0] and then players[1], errors ignored. -/
def fallbackMoves (fuel : Nat) (gm : Game) (rng : Rand) : Option (Game × Rand) :=
  match gm.HandleMove fuel gm.Players.1 Data.nil rng with
  | none => none
  | some a =>
    match a.2.1.HandleMove fuel gm.Players.2 Data.nil a.2.2 with
    | none => none
    | some b => some (b.2.1, b.2.2)

/-- `Room.handleRoundTimeout`. -/
def handleRoundTimeout (fuel : Nat) (r : Room) (forRound : Int) (rng : Rand) :
    Option (Room × List Effect × Rand) :=
  if forRound ≠ r.timerRound then some (r, [], rng)
  else
    match fallbackMoves fuel r.game rng with
    | none => none
    | some (g1, rng1) =>
      let r1 := { r with game := g1 }
      if g1.IsRoundComplete then
        match r1.checkRound with
        | none => none
        | some c => some (c.1, c.2, rng1)
      else some (r1, [], rng1)

/-- Modelled from the spec: the result constants `domain.GameResultWin`,
`domain.GameResultLose` and `domain.GameResultDraw` are declared outside the
sources at hand; the spec has history "recorded per participant with their
individual result", and the labels win, lose and draw are used for it. -/
def historyResults (winnerID : Option Int) (p1 : Int) : String × String :=
  match winnerID with
  | none => ("draw", "draw")
  | some w => if w = p1 then ("win", "lose") else ("lose", "win")

/-- The second half of `saveResult`: the record for the old games table and
the two history records, each written when its repository is attached. -/
def saveRecords (r : Room) (g1 : Game) (result : GameResult) : List Effect :=
  let p1 := g1.Players.1
  let p2 := g1.Players.2
  let winAmount1 : Int :=
    match result.WinnerID with
    | some w => if w = p1 then wrap64 (r.BetAmount * winnerPayoutMultiplier) else 0
    | none => r.BetAmount
  let winAmount2 : Int :=
    match result.WinnerID with
    | some w => if w = p1 then 0 else wrap64 (r.BetAmount * winnerPayoutMultiplier)
    | none => r.BetAmount
  let labels := historyResults result.WinnerID p1
  (if r.GameRepo then [Effect.gameCreate r.ID p1 p2 result.WinnerID] else []) ++
  (if r.GameHistoryRepo then
    [Effect.historyCreate p1 g1.GameType p2 r.ID labels.1 r.BetAmount winAmount1
       r.Currency result.Details,
     Effect.historyCreate p2 g1.GameType p1 r.ID labels.2 r.BetAmount winAmount2
       r.Currency result.Details]
   else [])

/-- `Room.saveResult`. `none` is a panic inside `CheckResult`. -/
def saveResult (r : Room) : Option (Room × List Effect) :=
  match r.game.CheckResult with
  | none => none
  | some (none, g1) => some ({ r with game := g1 }, [])
  | some (some result, g1) =>
    let r1 : Room := { r with game := g1 }
    let p1 := g1.Players.1
    let p2 := g1.Players.2
    let shouldPay : Bool := decide ((0 : Int) < r1.BetAmount ∧ r1.betPaid = false)
    let r2 := if shouldPay then { r1 with betPaid := true } else r1
    let pay := if shouldPay then r2.payoutWinner result.WinnerID p1 p2 else []
    some (r2, pay ++ r2.saveRecords g1 result)

/-- The forfeit notice of `handleDisconnect`. -/
def forfeitMessage (r : Room) : Message :=
  { MsgType := "result",
    Payload := [("you", PVal.str "win"), ("reason", PVal.str "opponent_left"),
                ("win_amount", PVal.int (wrap64 (r.BetAmount * 2))),
                ("currency", PVal.str r.Currency)] }

/-- `Room.handleDisconnect`; the Boolean is its return value (the session
terminates). The workers stored in `Clients` are never nil, so the remaining
worker exists exactly when one entry is left. -/
def handleDisconnect (r : Room) (h : Hub) (c : Client) : Room × Hub × List Effect × Bool :=
  let r1 := { r with Clients := r.Clients.del c.UserID }
  let shouldNotifyWinner : Bool := decide (r1.Clients.len = 1)
  let hadTwoPlayers : Bool := decide (r1.game.Players.2 ≠ 0)
  let remaining : Option (Int × Client) := if shouldNotifyWinner then r1.Clients.head? else none
  let clientsLeft := r1.Clients.len
  let shouldPayWinner : Bool :=
    decide ((0 : Int) < r1.BetAmount ∧ r1.betPaid = false ∧ hadTwoPlayers = true ∧
      shouldNotifyWinner = true)
  let shouldRefundDisconnecting : Bool :=
    decide ((0 : Int) < r1.BetAmount ∧ r1.betPaid = false ∧ hadTwoPlayers = false)
  let r2 := if shouldPayWinner = true ∨ shouldRefundDisconnecting = true then { r1 with betPaid := true } else r1
  let pay :=
    match shouldPayWinner, remaining with
    | true, some rem => r2.payoutWinner (some rem.1) rem.1 c.UserID
    | _, _ => if shouldRefundDisconnecting then r2.refundBet c.UserID else []
  match shouldNotifyWinner, remaining with
  | true, some rem =>
    let cl := r2.cleanup h
    (cl.1, cl.2, pay ++ [Effect.send rem.2 r2.forfeitMessage], true)
  | _, _ =>
    if clientsLeft = 0 then
      let cl := r2.cleanup h
      (cl.1, cl.2, pay, true)
    else (r2, h, pay, false)

/-- The cancellation notice of `cancelGameNoOpponent`. -/
def cancelMessage (r : Room) : Message :=
  { MsgType := "result",
    Payload := [("you", PVal.str "cancelled"), ("reason", PVal.str "no_opponent"),
                ("refunded", PVal.int r.BetAmount), ("currency", PVal.str r.Currency)] }

/-- `Room.cancelGameNoOpponent`. -/
def cancelGameNoOpponent (r : Room) (h : Hub) : Room × Hub × List Effect :=
  let playerID := r.game.Players.1
  let client := r.Clients.get? playerID
  let shouldRefund : Bool := decide ((0 : Int) < r.BetAmount ∧ r.betPaid = false)
  let r1 := if shouldRefund then { r with betPaid := true } else r
  let pay := if shouldRefund then r1.refundBet playerID else []
  let note :=
    match client with
    | some cl => [Effect.send cl r1.cancelMessage]
    | none => []
  let cl := r1.cleanup h
  (cl.1, cl.2, pay ++ note)

/-- One step of the loop of `completeSetup`:
`if !r.game.IsSetupComplete() { r.game.HandleMove(playerID, nil) }`, the error
ignored. -/
def setupFallback (fuel : Nat) (gm : Game) (playerID : Int) (rng : Rand) :
    Option (Game × Rand) :=
  if gm.IsSetupComplete then some (gm, rng)
  else
    match gm.HandleMove fuel playerID Data.nil rng with
    | none => none
    | some out => some (out.2.1, out.2.2)

/-- `Room.completeSetup`. `none` means a bot placement loop did not finish
within `fuel` iterations. -/
def completeSetup (fuel : Nat) (r : Room) (rng : Rand) : Option (Room × List Effect × Rand) :=
  if r.setupCompleted then some (r, [], rng)
  else
    let r1 : Room := { r with setupCompleted := true }
    match setupFallback fuel r1.game r1.game.Players.1 rng with
    | none => none
    | some a =>
      match setupFallback fuel a.1 r1.game.Players.2 a.2 with
      | none => none
      | some b =>
        some ({ r1 with game := b.1 },
          broadcastToClients r1.getClientsUnlocked { MsgType := "setup_complete", Payload := [] },
          b.2)

end Room

/-- The `value` of an inbound message after JSON decoding: null, a boolean, a
number, a string, an array or an object. A number is given by the integer
that `int(num)` makes of it; an array by its elements, `some n` for a number
and `none` for anything else. -/
inductive JVal where
  | null
  | bool (b : Bool)
  | num (n : Int)
  | str (s : String)
  | arr (xs : List (Option Int))
  | obj
  deriving DecidableEq

namespace Room

/-- The payload `HandleMessage` hands to the game: the decoded value itself,
except that for mines an array becomes an `[]int` (zero for an element that
is no number) and a number becomes an `int`. -/
def moveValue (gameType : String) (v : JVal) : Data :=
  let raw : Data :=
    match v with
    | JVal.null => Data.nil
    | JVal.str s => Data.str s
    | _ => Data.other
  if gameType = "mines" then
    match v with
    | JVal.arr xs => Data.ints (xs.map (fun x => x.getD 0))
    | JVal.num n => Data.int n
    | _ => raw
  else raw

/-- The `error` message of `HandleMessage`. -/
def errorMessage (err : String) : Message :=
  { MsgType := "error", Payload := [("message", PVal.str err)] }

/-- `Room.HandleMessage` for the worker `c`; `msg` is the decoded message
(its type and its value), `none` when the bytes do not decode. The outer
`none` of the result is a panic in `CheckResult` or a bot placement loop out
of fuel. -/
def HandleMessage (fuel : Nat) (r : Room) (c : Client) (msg : Option (String × JVal))
    (rng : Rand) : Option (Room × List Effect × Rand) :=
  match msg with
  | none => some (r, [], rng)
  | some m =>
    match r.game.HandleMove fuel c.UserID (moveValue r.game.GameType m.2) rng with
    | none => none
    | some (some err, g1, rng1) =>
      some ({ r with game := g1 }, Room.send { r with game := g1 } c.UserID (errorMessage err),
        rng1)
    | some (none, g1, rng1) =>
      let r1 : Room := { r with game := g1 }
      if r1.setupCompleted = false ∧ g1.IsSetupComplete = true then
        match r1.completeSetup fuel rng1 with
        | none => none
        | some cs =>
          let r2 : Room :=
            { cs.1 with setupDoneChan := cs.1.setupDoneChan.map (fun _ => true),
                        roundStarted := false }
          let st := r2.startRound
          some (st.1, cs.2.1 ++ st.2, cs.2.2)
      else if g1.IsRoundComplete then
        match Room.checkRound { r1 with timer := none } with
        | none => none
        | some cr => some (cr.1, cr.2, rng1)
      else some (r1, [], rng1)

end Room

/-! ## The matchmaking directory (hub.go) -/

/-- The outbound queues of the workers (`Client.Send`), by connection: the
messages buffered and not yet written. A worker that has no entry has an
empty queue. -/
abbrev Sends := GoMap Nat (List String)

/-- The capacity of `Client.Send` (`make(chan []byte, 1024)`). -/
def sendCap : Nat := 1024

/-- The liveness probe `select { case c.Send <- msg: ...; default: ... }`:
the queues after the push, or `none` when the push would block. -/
def trySend (sends : Sends) (c : Client) (msg : String) : Option Sends :=
  if (sends.getD c.Conn []).length < sendCap then
    some (sends.set c.Conn (sends.getD c.Conn [] ++ [msg]))
  else none

/-- The probe message of the directory. -/
def pingMsg : String := "\x7b\"type\":\"ping\"\x7d"

/-- The capacity of `Room.Register` and of `Room.Disconnect`. -/
def roomChanCap : Nat := 2

/-- Modelled from the spec: `game.NewFactory().CreateGame` is declared outside
the sources at hand. A session is created with its game unit, one of the two
variants (rock-paper-scissors, mine-sweep duel), for the players given; any
other game kind is an error (`none`). -/
def CreateGame (gameType : String) (id : String) (players : Int × Int) : Option Game :=
  if gameType = "rps" then some (Game.rps (RPSGame.new id players))
  else if gameType = "mines" then some (Game.mines (MinesGame.new id players))
  else none

namespace Hub

/-- `NewHub` and `NewHubWithUserRepo`: the empty directory. -/
def new (gameRepo gameHistoryRepo userRepo : Bool) : Hub :=
  { Rooms := [], UserRoom := [], roomSeq := 0, WaitingByKey := [], WaitingByGame := [],
    GameRepo := gameRepo, GameHistoryRepo := gameHistoryRepo, UserRepo := userRepo }

/-- The game kind `AssignClient` uses for a declared one: anything other than
the two known kinds counts as rock-paper-scissors. -/
def gameTypeOf (declared : String) : String :=
  if declared ≠ "rps" ∧ declared ≠ "mines" then "rps" else declared

/-- The matchmaking key `AssignClient` computes for a worker. -/
def waitingKeyOf (c : Client) : WaitingKey :=
  { GameType := gameTypeOf c.GameType, BetAmount := c.BetAmount, Currency := c.Currency }

/-- `Hub.newRoomWithBet`, with `NewRoomWithRepo` and `NewRoom` inlined; `now`
is the reading of the clock, in seconds. The session is stored under its id;
`none` when the game cannot be created. -/
def newRoomWithBet (h : Hub) (now : Int) (gameType : String) (players : Int × Int)
    (betAmount : Int) (currency : String) : Hub × Option Room :=
  let h1 := { h with roomSeq := h.roomSeq + 1 }
  let id := toString h1.roomSeq
  match CreateGame gameType id players with
  | none => (h1, none)
  | some g =>
    let room : Room :=
      { ID := id, Clients := [], Register := [], Disconnect := [], timer := none,
        timerRound := 0, createdAt := now, roundStarted := false, setupCompleted := false,
        roundChecking := false, setupDoneChan := none, game := g, GameRepo := h.GameRepo,
        GameHistoryRepo := h.GameHistoryRepo, hub := true, BetAmount := betAmount,
        Currency := currency, UserRepo := h.UserRepo, betPaid := false }
    ({ h1 with Rooms := h1.Rooms.set id room }, some room)

/-- The keys of the waiting entries that belong to a user. -/
def waitingKeysOfUser (h : Hub) (userID : Int) : List WaitingKey :=
  GoMap.keys (h.WaitingByKey.filter (fun e => decide (e.2.UserID = userID)))

/-- The first block of `AssignClient`: bookkeeping left over for this user. -/
def clearStale (h : Hub) (c : Client) (gameType : String) : Hub :=
  if h.UserRoom.has c.UserID then
    { h with
      UserRoom := h.UserRoom.del c.UserID,
      WaitingByKey := (h.waitingKeysOfUser c.UserID).foldl (fun m k => GoMap.del m k)
        h.WaitingByKey,
      WaitingByGame :=
        match h.WaitingByGame.get? gameType with
        | some waiting =>
          if waiting.UserID = c.UserID then h.WaitingByGame.del gameType else h.WaitingByGame
        | none => h.WaitingByGame }
  else h

/-- What `AssignClient` returns besides the new state: `room` is the id of the
session returned (`none` is the nil return), and `joined` is the waiting
worker when the call attached the new worker to that worker's session. -/
structure Assigned where
  room : Option String
  joined : Option Client
  deriving DecidableEq

/-- The last block of `AssignClient`: a new session with the worker as its
sole participant and as the waiting entry of its key. A push on `Register`
that would block ends in the timeout branch. -/
def createAndWait (h : Hub) (now : Int) (c : Client) (gameType : String)
    (waitingKey : WaitingKey) : Hub × Assigned :=
  match h.newRoomWithBet now gameType (c.UserID, 0) c.BetAmount c.Currency with
  | (h1, none) => (h1, { room := none, joined := none })
  | (h1, some room) =>
    let room1 := { room with Clients := room.Clients.set c.UserID c }
    let h2 := { h1 with
      Rooms := h1.Rooms.set room.ID room1,
      UserRoom := h1.UserRoom.set c.UserID room.ID,
      WaitingByKey := h1.WaitingByKey.set waitingKey c }
    if room1.Register.length < roomChanCap then
      ({ h2 with Rooms := h2.Rooms.set room.ID { room1 with Register := room1.Register ++ [c] } },
       { room := some room.ID, joined := none })
    else (h2, { room := none, joined := none })

/-- `Hub.AssignClient`. -/
def AssignClient (h : Hub) (sends : Sends) (now : Int) (c : Client) :
    Hub × Sends × Assigned :=
  let gameType := gameTypeOf c.GameType
  let waitingKey : WaitingKey :=
    { GameType := gameType, BetAmount := c.BetAmount, Currency := c.Currency }
  let h1 := h.clearStale c gameType
  let dropped := { h1 with WaitingByKey := h1.WaitingByKey.del waitingKey }
  match h1.WaitingByKey.get? waitingKey with
  | none =>
    let r := h1.createAndWait now c gameType waitingKey
    (r.1, sends, r.2)
  | some waiting =>
    if waiting.UserID ≠ c.UserID then
      match trySend sends waiting pingMsg with
      | none =>
        let r := dropped.createAndWait now c gameType waitingKey
        (r.1, sends, r.2)
      | some sends1 =>
        match h1.UserRoom.get? waiting.UserID with
        | none =>
          let r := dropped.createAndWait now c gameType waitingKey
          (r.1, sends1, r.2)
        | some roomID =>
          match h1.Rooms.get? roomID with
          | none =>
            let r := dropped.createAndWait now c gameType waitingKey
            (r.1, sends1, r.2)
          | some foundRoom =>
            if foundRoom.Clients.has waiting.UserID then
              let room1 := { foundRoom with
                game := foundRoom.game.SetSecondPlayer c.UserID,
                Clients := foundRoom.Clients.set c.UserID c }
              let h2 := { h1 with
                Rooms := h1.Rooms.set roomID room1,
                UserRoom := h1.UserRoom.set c.UserID foundRoom.ID,
                WaitingByKey := h1.WaitingByKey.del waitingKey }
              if room1.Register.length < roomChanCap then
                ({ h2 with
                    Rooms := h2.Rooms.set roomID { room1 with Register := room1.Register ++ [c] } },
                 sends1, { room := some roomID, joined := some waiting })
              else (h2, sends1, { room := none, joined := some waiting })
            else
              let r := dropped.createAndWait now c gameType waitingKey
              (r.1, sends1, r.2)
    else
      let r := dropped.createAndWait now c gameType waitingKey
      (r.1, sends, r.2)

/-- `Hub.OnDisconnect`. A push on `Disconnect` that would block is dropped. -/
def OnDisconnect (h : Hub) (c : Client) : Hub :=
  let wbk := (h.waitingKeysOfUser c.UserID).foldl (fun m k => GoMap.del m k) h.WaitingByKey
  let gameTypesToDelete :=
    GoMap.keys (h.WaitingByGame.filter (fun e => decide (e.2.UserID = c.UserID)))
  let wbg := gameTypesToDelete.foldl (fun m k => GoMap.del m k) h.WaitingByGame
  let h1 := { h with WaitingByKey := wbk, WaitingByGame := wbg }
  match h1.UserRoom.get? c.UserID with
  | none => h1
  | some roomID =>
    match h1.Rooms.get? roomID with
    | none => h1
    | some room =>
      if room.Disconnect.length < roomChanCap then
        { h1 with Rooms := h1.Rooms.set roomID { room with Disconnect := room.Disconnect ++ [c] } }
      else h1

/-- The first pass of `cleanupStaleWaiting` over one waiting map: every entry
is probed in turn, and the entries whose worker cannot take the push are
collected with their user id. -/
def probeAll {K : Type} (entries : GoMap K Client) (sends : Sends) : List (K × Int) × Sends :=
  entries.foldl
    (fun acc e =>
      match trySend acc.2 e.2 pingMsg with
      | some sends1 => (acc.1, sends1)
      | none => (acc.1 ++ [(e.1, e.2.UserID)], acc.2))
    ([], sends)

/-- The second pass of `cleanupStaleWaiting` for one stale user: the user is
detached from the session `UserRoom` names, the session is dropped when that
leaves it empty, and the `UserRoom` entry is deleted. -/
def dropStaleUser (h : Hub) (userID : Int) : Hub :=
  match h.UserRoom.get? userID with
  | none => h
  | some roomID =>
    let h1 :=
      match h.Rooms.get? roomID with
      | none => h
      | some room =>
        let room1 := { room with Clients := room.Clients.del userID }
        if room1.Clients.len = 0 then { h with Rooms := h.Rooms.del roomID }
        else { h with Rooms := h.Rooms.set roomID room1 }
    { h1 with UserRoom := h1.UserRoom.del userID }

/-- `Hub.cleanupStaleWaiting`. -/
def cleanupStaleWaiting (h : Hub) (sends : Sends) : Hub × Sends :=
  let p1 := probeAll h.WaitingByKey sends
  let h1 := p1.1.foldl
    (fun acc e => dropStaleUser { acc with WaitingByKey := acc.WaitingByKey.del e.1 } e.2) h
  let p2 := probeAll h1.WaitingByGame p1.2
  let h2 := p2.1.foldl
    (fun acc e => dropStaleUser { acc with WaitingByGame := acc.WaitingByGame.del e.1 } e.2) h1
  (h2, p2.2)

/-- `Hub.cleanupStaleRooms`; `now` and `createdAt` are in seconds, an hour is 3600. -/
def cleanupStaleRooms (h : Hub) (now : Int) : Hub :=
  h.Rooms.foldl
    (fun acc e =>
      if e.2.Clients.len = 0 ∧ now - e.2.createdAt > 3600 then
        { acc with
          Rooms := acc.Rooms.del e.1,
          UserRoom := acc.UserRoom.filter (fun u => decide (u.2 ≠ e.1)) }
      else acc)
    h

/-- One step of the directory: a call of one of its operations, the cleanup of
a session, or a session changing its own state. -/
inductive Step : Hub → Hub → Prop where
  | assign (h : Hub) (sends : Sends) (now : Int) (c : Client) :
      Step h (h.AssignClient sends now c).1
  | disconnect (h : Hub) (c : Client) : Step h (h.OnDisconnect c)
  | staleWaiting (h : Hub) (sends : Sends) : Step h (h.cleanupStaleWaiting sends).1
  | staleRooms (h : Hub) (now : Int) : Step h (h.cleanupStaleRooms now)
  | roomCleanup (h : Hub) (r : Room) : Step h (r.cleanup h).2
  | roomRun (h : Hub) (rooms : GoMap String Room) : Step h { h with Rooms := rooms }

/-- The directory states that can be reached from an empty directory. -/
inductive Reachable : Hub → Prop where
  | init (gameRepo gameHistoryRepo userRepo : Bool) :
      Reachable (Hub.new gameRepo gameHistoryRepo userRepo)
  | step {h h' : Hub} : Reachable h → Step h h' → Reachable h'

/-- Every waiting entry is filed under the key of its worker. -/
def WaitingKeysOk (h : Hub) : Prop :=
  ∀ e ∈ h.WaitingByKey, waitingKeyOf e.2 = e.1

end Hub

/-! ## Notions used to state the properties -/

/-- A well-formed rock-paper-scissors move. -/
def validMove (m : String) : Prop := m = "rock" ∨ m = "paper" ∨ m = "scissors"

instance (m : String) : Decidable (validMove m) := by unfold validMove; infer_instance

/-- The rule of the game: rock beats scissors, scissors beats paper, paper beats rock. -/
def beats (a b : String) : Prop :=
  (a = "rock" ∧ b = "scissors") ∨ (a = "scissors" ∧ b = "paper") ∨ (a = "paper" ∧ b = "rock")

instance (a b : String) : Decidable (beats a b) := by unfold beats; infer_instance

/-- The move recorded for a player is a well-formed one: one of the three
tokens for rock-paper-scissors, a cell in 1..12 for mines. -/
def Game.validRecorded (gm : Game) (p : Int) : Prop :=
  match gm.recordedMove p with
  | some (Data.str s) => validMove s
  | some (Data.int n) => 1 ≤ n ∧ n ≤ 12
  | _ => False

/-- One tied round of rock-paper-scissors: both players record the move `m`,
then the result is checked. -/
def RPSGame.tiedRound (g : RPSGame) (m : String) (rng : Rand) : Option GameResult × RPSGame :=
  let a := g.HandleMove g.players.1 (Data.str m) rng
  let b := a.2.1.HandleMove g.players.2 (Data.str m) a.2.2
  b.2.1.CheckResult

/-- The state of a rock-paper-scissors game right after its `k`-th round was
tied on the move `m` and the game goes on. -/
def RPSGame.afterTie (id : String) (p1 p2 : Int) (k : Int) (m : String) : RPSGame :=
  { id := id, players := (p1, p2), moves := [], lastMoves := [(p1, m), (p2, m)], round := k,
    result := none }

/-- The result of a rock-paper-scissors game drawn after five rounds. -/
def RPSGame.drawResult : GameResult :=
  { WinnerID := none, Reason := "draw_after_5_rounds", Details := [("rounds", Detail.int 5)] }

/-- The state of a rock-paper-scissors game right after its fifth round was
tied on the move `m`. -/
def RPSGame.afterDraw (id : String) (p1 p2 : Int) (lm : GoMap Int String) (m : String) :
    RPSGame :=
  { id := id, players := (p1, p2), moves := [(p1, m), (p2, m)], lastMoves := lm, round := 5,
    result := some RPSGame.drawResult }

/-- A session used in examples: rock-paper-scissors between users 1 and 2,
wager `bet` in coins, a ledger attached, nobody connected. -/
def exampleRoom (bet : Int) : Room :=
  { ID := "1", Clients := [], Register := [], Disconnect := [], timer := none, timerRound := 0,
    createdAt := 0, roundStarted := false, setupCompleted := false, roundChecking := false,
    setupDoneChan := none, game := Game.rps (RPSGame.new "1" (1, 2)), GameRepo := false,
    GameHistoryRepo := false,
    hub := true, BetAmount := bet, Currency := "coins", UserRepo := true, betPaid := false }

/-- The string stored under a key of a `details` map, if it is a string. -/
def detailStr (d : GoMap String Detail) (k : String) : Option String :=
  match d.get? k with
  | some (Detail.str s) => some s
  | _ => none

/-- The worker of user `uid` used in examples (connection `uid`, wager 100 coins). -/
def exampleClient (conn : Nat) (uid : Int) (gameType : String) : Client :=
  { Conn := conn, UserID := uid, GameType := gameType, BetAmount := 100, Currency := "coins" }

/-- The example session with both workers attached and its game in state `g`. -/
def exampleRoomWith (g : RPSGame) : Room :=
  { exampleRoom 100 with
    Clients := [(1, exampleClient 1 1 "rps"), (2, exampleClient 2 2 "rps")],
    game := Game.rps g }

/-- The example game after five rounds tied on rock. -/
def fiveRocks : Option GameResult × RPSGame :=
  (((((RPSGame.new "1" (1, 2)).tiedRound "rock" (fun _ => 0)).2.tiedRound "rock"
    (fun _ => 0)).2.tiedRound "rock" (fun _ => 0)).2.tiedRound "rock"
    (fun _ => 0)).2.tiedRound "rock" (fun _ => 0)

/-- One invocation of a function that may settle the wager of a session. -/
inductive SettleCall where
  | saveResult
  | handleDisconnect (c : Client)
  | cancelGameNoOpponent
  deriving DecidableEq

/-- The invocation run on a session and the directory: the states after it
and its effects; `none` when it panics. -/
def settleStep (r : Room) (h : Hub) : SettleCall → Option (Room × Hub × List Effect)
  | SettleCall.saveResult =>
    match r.saveResult with
    | none => none
    | some out => some (out.1, h, out.2)
  | SettleCall.handleDisconnect c =>
    let out := r.handleDisconnect h c
    some (out.1, out.2.1, out.2.2.1)
  | SettleCall.cancelGameNoOpponent =>
    let out := r.cancelGameNoOpponent h
    some (out.1, out.2.1, out.2.2)

/-- What one invocation did about settlement: the flag `betPaid` before and
after it, and the ledger calls it issued. -/
structure SettleRecord where
  paidBefore : Bool
  paidAfter : Bool
  ledger : List Effect
  deriving DecidableEq

/-- The records of a sequence of invocations on one session, in order; a
panic ends the run. -/
def settleTrace (r : Room) (h : Hub) : List SettleCall → List SettleRecord
  | [] => []
  | call :: rest =>
    match settleStep r h call with
    | none => []
    | some out =>
      { paidBefore := r.betPaid, paidAfter := out.1.betPaid,
        ledger := out.2.2.filter Effect.isLedger } :: settleTrace out.1 out.2.1 rest

/-- The invocation flipped the settlement flag from false to true. -/
def SettleRecord.flipped (e : SettleRecord) : Bool := !e.paidBefore && e.paidAfter

/-- The invocation issued ledger calls. -/
def SettleRecord.paid (e : SettleRecord) : Bool := !e.ledger.isEmpty

/-- Two states of a session agree on the wager, the currency and the ledger. -/
def Room.sameWager (r r' : Room) : Prop :=
  r'.BetAmount = r.BetAmount ∧ r'.Currency = r.Currency ∧ r'.UserRepo = r.UserRepo

/-- The outcome C6 describes: assigning `c1` and then `c2` in the directory
`h0` puts both in one and the same session, the only one of the directory. -/
def Hub.PairedInOneSession (h0 : Hub) (sends : Sends) (now1 now2 : Int) (c1 c2 : Client) :
    Prop :=
  let a1 := h0.AssignClient sends now1 c1
  let a2 := a1.1.AssignClient a1.2.1 now2 c2
  ∃ id,
    a1.2.2.room = some id ∧
    a2.2.2 = { room := some id, joined := some c1 } ∧
    GoMap.keys a2.1.Rooms = [id] ∧
    a2.1.UserRoom = [(c1.UserID, id), (c2.UserID, id)] ∧
    a2.1.WaitingByKey = [] ∧
    ∃ room,
      a2.1.Rooms.get? id = some room ∧
      room.ID = id ∧
      room.Clients = [(c1.UserID, c1), (c2.UserID, c2)] ∧
      room.Register = [c1, c2] ∧
      room.game.Players = (c1.UserID, c2.UserID) ∧
      room.BetAmount = c1.BetAmount ∧ room.Currency = c1.Currency ∧
      room.betPaid = false

/-- A mines game used in examples: users 1 and 2 have each placed a mine on
cell 3, and user 1 has chosen cell 5 in the current round. -/
def exampleMines : MinesGame :=
  { MinesGame.new "1" (1, 2) with
    boards := [(1, Board.empty.mark 3), (2, Board.empty.mark 3)],
    moves := [(1, 5)] }

/-- A mines game used in examples: users 1 and 2 have each placed a mine on
cell 3; in the current round user 1 has chosen cell 3 and user 2 cell 5. -/
def exampleMinesRound : MinesGame :=
  { MinesGame.new "1" (1, 2) with
    boards := [(1, Board.empty.mark 3), (2, Board.empty.mark 3)],
    moves := [(1, 3), (2, 5)] }

/-- The ledger call that credits `amount` to `userID` in the given currency:
coins for "coins", gems for anything else. -/
def Effect.credit (currency : String) (userID amount : Int) : Effect :=
  if currency = "coins" then Effect.UpdateCoins userID amount
  else Effect.UpdateGems userID amount

/-- A session used in examples: user 1 waits alone (players[1] is 0) for an
opponent at rock-paper-scissors, with the given wager in coins, the ledger
attached or not, and the given workers attached. -/
def exampleSoloRoom (bet : Int) (userRepo : Bool) (clients : GoMap Int Client) : Room :=
  { exampleRoom bet with
    Clients := clients, game := Game.rps (RPSGame.new "1" (1, 0)), UserRepo := userRepo }

/-- The directory after user 1 asked for rock-paper-scissors at 100 coins from
an empty directory, found no opponent, and the session was cancelled by
`cancelGameNoOpponent` at the setup timeout. -/
def hubAfterCancel : Hub :=
  let a := (Hub.new false false true).AssignClient [] 0 (exampleClient 1 1 "rps")
  match a.1.Rooms.get? "1" with
  | some room => (room.cancelGameNoOpponent a.1).2.1
  | none => a.1

/-- A second worker of user 1, on connection 3, asking for mines at 500 coins. -/
def exampleSecondWorker : Client :=
  { Conn := 3, UserID := 1, GameType := "mines", BetAmount := 500, Currency := "coins" }

/-- A directory in which user 1 waits alone for rock-paper-scissors with 100
coins at stake (session "1"). -/
def hubOneWaiting : Hub :=
  ((Hub.new false false true).AssignClient [] 0 (exampleClient 1 1 "rps")).1

/-- Outbound queues in which the queue of connection 1 is full. -/
def fullSends : Sends := [(1, List.replicate sendCap pingMsg)]

/-- The test of the slow sweep on one session: no worker attached at the time
of the sweep, and created more than an hour (3600 s) before it. -/
def Room.oldAndEmpty (now : Int) (r : Room) : Prop :=
  r.Clients.len = 0 ∧ now - r.createdAt > 3600

instance (now : Int) (r : Room) : Decidable (r.oldAndEmpty now) := by
  unfold Room.oldAndEmpty; infer_instance

/-- The ids of the stored sessions that test positive. -/
def staleIds (now : Int) (rooms : GoMap String Room) : List String :=
  GoMap.keys (rooms.filter (fun e => decide (e.2.oldAndEmpty now)))

/-- The directory `hubOneWaiting` once the worker of user 1 is detached from
session "1" (`delete(r.Clients, c.UserID)`, the first statement of
`handleDisconnect`) and before the session is cleaned up. -/
def hubOneIdle : Hub :=
  { hubOneWaiting with
    Rooms := hubOneWaiting.Rooms.map (fun e => (e.1, { e.2 with Clients := e.2.Clients.del 1 })) }

/-- `RPSGame.GetRound`. -/
def RPSGame.GetRound (g : RPSGame) : Int := g.round

/-- `MinesGame.GetRound`. -/
def MinesGame.GetRound (g : MinesGame) : Int := g.round

/-- `MinesGame.GetMoveHistory`; a missing key reads as the nil slice. -/
def MinesGame.GetMoveHistory (g : MinesGame) (playerID : Int) : List MoveResult :=
  g.moveHistory.getD playerID []

/-- The round counter of a game, whichever its variant. -/
def Game.GetRound : Game → Int
  | Game.rps g => g.GetRound
  | Game.mines g => g.GetRound

/-- The number of moves in the history recorded for a player; rock-paper-scissors
keeps no history. -/
def Game.historyLen : Game → Int → Nat
  | Game.rps _, _ => 0
  | Game.mines g, p => (g.GetMoveHistory p).length

/-- A rock-paper-scissors game in which user 1 has played rock and user 2
scissors, before the round is checked. -/
def exampleRpsRound : RPSGame :=
  { RPSGame.new "1" (1, 2) with moves := [(1, "rock"), (2, "scissors")] }

/-- The directory after users 1 and 2 were paired in session "1"
(rock-paper-scissors at 100 coins) and user 1 then opened a second connection
asking for mines at 500 coins, which gave session "2". -/
def hubRejoined : Hub :=
  let a := (Hub.new false false true).AssignClient [] 0 (exampleClient 1 1 "rps")
  let b := a.1.AssignClient a.2.1 1 (exampleClient 2 2 "rps")
  (b.1.AssignClient b.2.1 2 exampleSecondWorker).1

/-- An old worker of user 1, on connection 9. -/
def exampleOldWorker : Client :=
  { Conn := 9, UserID := 1, GameType := "rps", BetAmount := 100, Currency := "coins" }

/-- The directory with the registration queue of every session emptied: the
sessions have taken the workers pushed to them (the `Register` case of `Run`). -/
def Hub.registered (h : Hub) : Hub :=
  { h with Rooms := h.Rooms.map (fun e => (e.1, { e.2 with Register := [] })) }

/-- The directory after these calls, starting from `hubAfterCancel` (the
worker of user 1 is still the waiting entry for rock-paper-scissors at 100
coins, its session gone): user 2 asks for mines at 500 coins (session "2"),
user 1 asks for the same on a second connection and is paired with user 2,
session "2" takes both registrations, and user 2 asks for rock-paper-scissors
at 100 coins on a second connection. -/
def hubSelfPaired : Hub × Sends × Hub.Assigned :=
  let a := hubAfterCancel.AssignClient [] 10
    { Conn := 2, UserID := 2, GameType := "mines", BetAmount := 500, Currency := "coins" }
  let b := a.1.AssignClient a.2.1 11 exampleSecondWorker
  b.1.registered.AssignClient b.2.1 12 (exampleClient 4 2 "rps")

/-- The session of `hubOneWaiting` as `cancelGameNoOpponent` hands it to
`cleanup`: the settlement flag set. -/
def cancelledRoom : Room :=
  match hubOneWaiting.Rooms.get? "1" with
  | some room => { room with betPaid := true }
  | none => exampleRoom 100

/-- A mines session of users 1 and 2, both attached, before any setup. -/
def exampleMinesRoom : Room :=
  { exampleRoom 100 with
    Clients := [(1, exampleClient 1 1 "mines"), (2, exampleClient 2 2 "mines")],
    game := Game.mines (MinesGame.new "1" (1, 2)) }

/-- The session `exampleMinesRoom` after user 1 sent the setup message with
the four positions 0, 0, 0, 0, none of them a cell of the board. -/
def minesRoomAfterBadSetup : Option (Room × List Effect × Rand) :=
  exampleMinesRoom.HandleMessage 0 (exampleClient 1 1 "mines")
    (some ("setup", JVal.arr [some 0, some 0, some 0, some 0])) (fun i => i)

/-! ## The event loop of a session (`Room.Run`, `Room.handleRegister`) -/

namespace Room

/-- The `matched` message of `handleRegister`. The opponent is given by its id;
the first name and username read from the user store are left out. -/
def matchedMessage (r : Room) (opponent : Int) : Message :=
  { MsgType := "matched",
    Payload := [("room_id", PVal.str r.ID), ("opponent", PVal.int opponent)] }

/-- The `state` message of `handleRegister`. -/
def stateMessage (r : Room) : Message :=
  { MsgType := "state",
    Payload := [("room_id", PVal.str r.ID), ("players", PVal.int r.Clients.len),
                ("game_type", PVal.str r.game.GameType)] }

/-- The replay loop of `handleRegister`: `HandleMessage` on each pending
message of the worker, oldest first. -/
def replay (fuel : Nat) (c : Client) :
    List (Option (String × JVal)) → Room → Rand → Option (Room × List Effect × Rand)
  | [], r, rng => some (r, [], rng)
  | m :: rest, r, rng =>
    match r.HandleMessage fuel c m rng with
    | none => none
    | some a =>
      match replay fuel c rest a.1 a.2.2 with
      | none => none
      | some b => some (b.1, a.2.1 ++ b.2.1, b.2.2)

/-- The last loop of `handleRegister`: up to `n` calls of `checkRound`, left
as soon as the game is finished. -/
def checkRounds : Nat → Room → Option (Room × List Effect)
  | 0, r => some (r, [])
  | n + 1, r =>
    match r.checkRound with
    | none => none
    | some a =>
      if a.1.game.IsFinished then some a
      else
        match checkRounds n a.1 with
        | none => none
        | some b => some (b.1, a.2 ++ b.2)

/-- `Room.handleRegister` for the worker `c` with its pending messages. -/
def handleRegister (fuel : Nat) (r : Room) (c : Client)
    (pending : List (Option (String × JVal))) (rng : Rand) :
    Option (Room × List Effect × Rand) :=
  let r1 : Room := { r with Clients := r.Clients.set c.UserID c }
  let p1 := r1.game.Players.1
  let p2 := r1.game.Players.2
  let matched : List Effect :=
    if r1.Clients.len = 2 then
      (match r1.Clients.get? p1 with
       | some c1 => [Effect.send c1 (r1.matchedMessage p2)]
       | none => []) ++
      (match r1.Clients.get? p2 with
       | some c2 => [Effect.send c2 (r1.matchedMessage p1)]
       | none => [])
    else []
  let state := r1.send c.UserID r1.stateMessage
  match replay fuel c pending r1 rng with
  | none => none
  | some a =>
    match checkRounds 5 a.1 with
    | none => none
    | some b => some (b.1, matched ++ state ++ a.2.1 ++ b.2, a.2.2)

/-- The timer case of the goroutine `Run` starts for the setup phase. -/
def onSetupTimeout (fuel : Nat) (r : Room) (h : Hub) (rng : Rand) :
    Option (Room × Hub × List Effect × Rand) :=
  if r.game.Players.2 = 0 then
    let cn := r.cancelGameNoOpponent h
    some ({ cn.1 with setupDoneChan := cn.1.setupDoneChan.map (fun _ => true) }, cn.2.1,
      cn.2.2, rng)
  else if r.setupCompleted then
    some ({ r with setupDoneChan := r.setupDoneChan.map (fun _ => true) }, h, [], rng)
  else
    match r.completeSetup fuel rng with
    | none => none
    | some cs =>
      let st := ({ cs.1 with roundStarted := false } : Room).startRound
      some ({ st.1 with setupDoneChan := st.1.setupDoneChan.map (fun _ => true) }, h,
        cs.2.1 ++ st.2, cs.2.2)

/-- The `Register` case of the loop of `Run`. -/
def onRegister (fuel : Nat) (r : Room) (c : Client) (pending : List (Option (String × JVal)))
    (rng : Rand) : Option (Room × List Effect × Rand) :=
  match r.handleRegister fuel c pending rng with
  | none => none
  | some a =>
    if a.1.game.IsSetupComplete = true ∧ a.1.Clients.len = 2 then
      let st := ({ a.1 with setupCompleted := true } : Room).startRound
      some (st.1, a.2.1 ++ st.2, a.2.2)
    else some a

/-- The head of the loop of `Run`: a finished game is saved and the session
cleaned up. -/
def onFinished (r : Room) (h : Hub) : Option (Room × Hub × List Effect) :=
  if r.game.IsFinished then
    match r.saveResult with
    | none => none
    | some a =>
      let cl := a.1.cleanup h
      some (cl.1, cl.2, a.2)
  else some (r, h, [])

/-- What a session reacts to. -/
inductive Event where
  | start
  | register (c : Client) (pending : List (Option (String × JVal)))
  | disconnect (c : Client)
  | finished
  | setupTimeout
  | roundTimeout (forRound : Int)
  | message (c : Client) (msg : Option (String × JVal))

/-- One reaction of the session. `start` is the entry of `Run`, where the
channel `setupDone` is made. -/
def handle (fuel : Nat) (r : Room) (h : Hub) (ev : Event) (rng : Rand) :
    Option (Room × Hub × List Effect × Rand) :=
  match ev with
  | Event.start => some ({ r with setupDoneChan := some false }, h, [], rng)
  | Event.register c pending =>
    (r.onRegister fuel c pending rng).map (fun a => (a.1, h, a.2.1, a.2.2))
  | Event.disconnect c =>
    let d := r.handleDisconnect h c
    some (d.1, d.2.1, d.2.2.1, rng)
  | Event.finished => (r.onFinished h).map (fun a => (a.1, a.2.1, a.2.2, rng))
  | Event.setupTimeout => r.onSetupTimeout fuel h rng
  | Event.roundTimeout forRound =>
    (r.handleRoundTimeout fuel forRound rng).map (fun a => (a.1, h, a.2.1, a.2.2))
  | Event.message c msg =>
    (r.HandleMessage fuel c msg rng).map (fun a => (a.1, h, a.2.1, a.2.2))

/-- A sequence of reactions, with the effects of all of them in order. -/
def handleAll (fuel : Nat) :
    List Event → Room → Hub → Rand → Option (Room × Hub × List Effect × Rand)
  | [], r, h, rng => some (r, h, [], rng)
  | ev :: rest, r, h, rng =>
    match r.handle fuel h ev rng with
    | none => none
    | some a =>
      match handleAll fuel rest a.1 a.2.1 a.2.2.2 with
      | none => none
      | some b => some (b.1, b.2.1, a.2.2.1 ++ b.2.2.1, b.2.2.2)

/-- The notice broadcast by `completeSetup`. -/
def setupNotice : Message := { MsgType := "setup_complete", Payload := [] }

end Room

/-- A push of the `setup_complete` notice. -/
def Effect.isSetupNotice : Effect → Bool
  | Effect.send _ msg => decide (msg.MsgType = "setup_complete")
  | _ => false

/-- No push of the `setup_complete` notice among the effects. -/
def NoNotice (eff : List Effect) : Prop := eff.filter Effect.isSetupNotice = []

/-- A reaction that leaves the setup flag alone, does not lower the timer
generation, pushes no `setup_complete` notice and keeps the participant map
at one entry per user. -/
def Room.Quiet (r out : Room) (eff : List Effect) : Prop :=
  r.timerRound ≤ out.timerRound ∧ out.setupCompleted = r.setupCompleted ∧ NoNotice eff ∧
  ((GoMap.keys r.Clients).Nodup → (GoMap.keys out.Clients).Nodup)

/-- A reaction that does not lower the timer generation, keeps the
participant map at one entry per user, keeps a set setup flag set without any
`setup_complete` notice, and otherwise pushes either no notice or one
broadcast of it, over a participant map with one entry per user, setting the
flag. -/
def Room.Keeps (r out : Room) (eff : List Effect) : Prop :=
  r.timerRound ≤ out.timerRound ∧
  ((GoMap.keys r.Clients).Nodup → (GoMap.keys out.Clients).Nodup) ∧
  (r.setupCompleted = true → out.setupCompleted = true ∧ NoNotice eff) ∧
  (NoNotice eff ∨
    (out.setupCompleted = true ∧
      ∃ cl, ((GoMap.keys r.Clients).Nodup → (GoMap.keys cl).Nodup) ∧
        eff.filter Effect.isSetupNotice = Room.broadcastToClients cl Room.setupNotice))

/-- The states of a mines game of the players `p1` and `p2` in which only
these two have called `HandleSetup` and `HandleMove`, with any payload, and
`CheckResult` has been called any number of times. -/
inductive MinesGame.Played (p1 p2 : Int) : MinesGame → Prop where
  | new (id : String) : MinesGame.Played p1 p2 (MinesGame.new id (p1, p2))
  | move {g g2 : MinesGame} (fuel : Nat) (p : Int) (data : Data) (rng rng2 : Rand)
      (err : Option String) :
      MinesGame.Played p1 p2 g → (p = p1 ∨ p = p2) →
      g.HandleMove fuel p data rng = some (err, g2, rng2) → MinesGame.Played p1 p2 g2
  | setup {g g2 : MinesGame} (fuel : Nat) (p : Int) (data : Data) (rng rng2 : Rand)
      (err : Option String) :
      MinesGame.Played p1 p2 g → (p = p1 ∨ p = p2) →
      g.HandleSetup fuel p data rng = some (err, g2, rng2) → MinesGame.Played p1 p2 g2
  | check {g g2 : MinesGame} (res : Option GameResult) :
      MinesGame.Played p1 p2 g → g.CheckResult = some (res, g2) → MinesGame.Played p1 p2 g2

/-- The invariant of such a game: the players are fixed, only they have a
board or a move, every recorded cell lies in 1..12, and once a move is
recorded both have a board. -/
def MinesGame.Safe (p1 p2 : Int) (g : MinesGame) : Prop :=
  g.players = (p1, p2) ∧
  (GoMap.keys g.boards).Nodup ∧ (∀ k ∈ GoMap.keys g.boards, k = p1 ∨ k = p2) ∧
  (GoMap.keys g.moves).Nodup ∧
  (∀ e ∈ g.moves, (e.1 = p1 ∨ e.1 = p2) ∧ 1 ≤ e.2 ∧ e.2 ≤ 12) ∧
  (g.moves ≠ [] → g.boards.has p1 = true ∧ g.boards.has p2 = true)

/-- The outbound queue of the worker can take a non-blocking push. -/
def alive (sends : Sends) (c : Client) : Bool :=
  decide ((sends.getD c.Conn []).length < sendCap)

/-- The users of the waiting entries whose worker cannot take a push, in the
order of the entries. -/
def Hub.staleUsers (h : Hub) (sends : Sends) : List Int :=
  (h.WaitingByKey.filter (fun e => !alive sends e.2)).map (fun e => e.2.UserID)

/-- What the fast sweep leaves of a session from which it detaches the users
`gone`: the session itself when there is none to detach, nothing when no
worker is left, and otherwise the session without their workers. -/
def sweptRoom (room : Room) (gone : List Int) : Option Room :=
  if gone = [] then some room
  else if room.Clients.filter (fun e => decide (e.1 ∉ gone)) = [] then none
  else some { room with Clients := room.Clients.filter (fun e => decide (e.1 ∉ gone)) }

/-- The stale users that `UserRoom` maps to the session `rid`. -/
def Hub.goneFrom (h : Hub) (users : List Int) (rid : String) : List Int :=
  users.filter (fun u => decide (h.UserRoom.get? u = some rid))

/-- The bookkeeping of the second pass of the fast sweep after the stale
users `done` have been handled, in terms of the directory `h` it started on. -/
def Hub.SweptTo (h : Hub) (done : List Int) (acc : Hub) : Prop :=
  (∀ u, acc.UserRoom.get? u = if u ∈ done then none else h.UserRoom.get? u) ∧
  (∀ rid, acc.Rooms.get? rid
    = (h.Rooms.get? rid).bind (fun room => sweptRoom room (h.goneFrom done rid)))

/-- The directory `hubAfterCancel`, in which the worker of user 1 on
connection 1 is still the waiting entry for rock-paper-scissors at 100 coins,
after user 1 asked for mines at 500 coins on connection 3: session "2", with
that second worker as its waiting entry. -/
def hubTwoEntries : Hub := (hubAfterCancel.AssignClient [] 20 exampleSecondWorker).1

/-! ## Telegram init data (service/telegram_auth.go) and the signing helper of its test -/

/-- A Go string or byte slice, as the list of its bytes. -/
abbrev Bytes := List Nat

/-- The UTF-8 encoding of one character. -/
def utf8Char (c : Char) : Bytes :=
  let n := c.toNat
  if n < 128 then [n]
  else if n < 2048 then [192 + n / 64, 128 + n % 64]
  else if n < 65536 then [224 + n / 4096, 128 + n / 64 % 64, 128 + n % 64]
  else [240 + n / 262144, 128 + n / 4096 % 64, 128 + n / 64 % 64, 128 + n % 64]

/-- The bytes of a string literal. -/
def bytesOf (s : String) : Bytes := s.toList.flatMap utf8Char

/-! ### SHA-256 and HMAC (Go standard library: crypto/sha256, crypto/hmac) -/

namespace Sha256

/-- The round constants of SHA-256 (FIPS 180-4, 4.2.2). -/
def K : List Nat := [
  0x428a2f98, 0x71374491, 0xb5c0fbcf, 0xe9b5dba5, 0x3956c25b, 0x59f111f1, 0x923f82a4, 0xab1c5ed5,
  0xd807aa98, 0x12835b01, 0x243185be, 0x550c7dc3, 0x72be5d74, 0x80deb1fe, 0x9bdc06a7, 0xc19bf174,
  0xe49b69c1, 0xefbe4786, 0x0fc19dc6, 0x240ca1cc, 0x2de92c6f, 0x4a7484aa, 0x5cb0a9dc, 0x76f988da,
  0x983e5152, 0xa831c66d, 0xb00327c8, 0xbf597fc7, 0xc6e00bf3, 0xd5a79147, 0x06ca6351, 0x14292967,
  0x27b70a85, 0x2e1b2138, 0x4d2c6dfc, 0x53380d13, 0x650a7354, 0x766a0abb, 0x81c2c92e, 0x92722c85,
  0xa2bfe8a1, 0xa81a664b, 0xc24b8b70, 0xc76c51a3, 0xd192e819, 0xd6990624, 0xf40e3585, 0x106aa070,
  0x19a4c116, 0x1e376c08, 0x2748774c, 0x34b0bcb5, 0x391c0cb3, 0x4ed8aa4a, 0x5b9cca4f, 0x682e6ff3,
  0x748f82ee, 0x78a5636f, 0x84c87814, 0x8cc70208, 0x90befffa, 0xa4506ceb, 0xbef9a3f7, 0xc67178f2]

/-- The initial hash value (FIPS 180-4, 5.3.3). -/
def H0 : List Nat :=
  [0x6a09e667, 0xbb67ae85, 0x3c6ef372, 0xa54ff53a, 0x510e527f, 0x9b05688c, 0x1f83d9ab, 0x5be0cd19]

/-- Words are 32 bits wide. -/
def M32 : Nat := 4294967296

/-- Rotation of a 32-bit word to the right. -/
def rotr (x n : Nat) : Nat := ((x >>> n) ||| (x <<< (32 - n))) % M32

/-- The function sigma-0 of the message schedule. -/
def ssig0 (x : Nat) : Nat := (rotr x 7 ^^^ rotr x 18) ^^^ (x >>> 3)
/-- The function sigma-1 of the message schedule. -/
def ssig1 (x : Nat) : Nat := (rotr x 17 ^^^ rotr x 19) ^^^ (x >>> 10)
/-- The function Sigma-0 of the compression. -/
def bsig0 (x : Nat) : Nat := (rotr x 2 ^^^ rotr x 13) ^^^ rotr x 22
/-- The function Sigma-1 of the compression. -/
def bsig1 (x : Nat) : Nat := (rotr x 6 ^^^ rotr x 11) ^^^ rotr x 25
/-- The choice function. -/
def ch (x y z : Nat) : Nat := (x &&& y) ^^^ ((M32 - 1 - x) &&& z)
/-- The majority function. -/
def maj (x y z : Nat) : Nat := ((x &&& y) ^^^ (x &&& z)) ^^^ (y &&& z)

/-- The message schedule, newest word first: `n` more words on top of `w`. -/
def extend : Nat → List Nat → List Nat
  | 0, w => w
  | n + 1, w =>
    extend n (((ssig1 (w.getD 1 0) + w.getD 6 0 + ssig0 (w.getD 14 0) + w.getD 15 0) % M32) :: w)

/-- One round of the compression function on the eight working variables. -/
def round (st : List Nat) (kw : Nat) : List Nat :=
  match st with
  | [a, b, c, d, e, f, g, h] =>
    let t1 := (h + bsig1 e + ch e f g + kw) % M32
    let t2 := (bsig0 a + maj a b c) % M32
    [(t1 + t2) % M32, a, b, c, (d + t1) % M32, e, f, g]
  | _ => st

/-- The compression of one block of sixteen words into the hash value. -/
def compress (hs : List Nat) (block : List Nat) : List Nat :=
  let w := (extend 48 block.reverse).reverse
  let kw := List.zipWith (fun k x => (k + x) % M32) K w
  List.zipWith (fun x y => (x + y) % M32) hs (kw.foldl round hs)

/-- Big-endian words of a byte string whose length is a multiple of four. -/
def toWords : Bytes → List Nat
  | a :: b :: c :: d :: t => (((a * 256 + b) * 256 + c) * 256 + d) :: toWords t
  | _ => []

/-- The first `n` blocks of sixteen words. -/
def blocks : Nat → List Nat → List (List Nat)
  | 0, _ => []
  | n + 1, ws => ws.take 16 :: blocks n (ws.drop 16)

/-- The padding: a one bit, zeros, and the bit length on eight bytes. -/
def pad (msg : Bytes) : Bytes :=
  let l := msg.length
  msg ++ [128] ++ List.replicate ((119 - l % 64) % 64) 0 ++
    [8 * l / 2 ^ 56 % 256, 8 * l / 2 ^ 48 % 256, 8 * l / 2 ^ 40 % 256, 8 * l / 2 ^ 32 % 256,
     8 * l / 2 ^ 24 % 256, 8 * l / 2 ^ 16 % 256, 8 * l / 2 ^ 8 % 256, 8 * l % 256]

/-- The four bytes of a word, big-endian. -/
def wordBytes (w : Nat) : Bytes := [w / 2 ^ 24 % 256, w / 2 ^ 16 % 256, w / 2 ^ 8 % 256, w % 256]

/-- The digest `sha256.Sum256`. -/
def sum256 (msg : Bytes) : Bytes :=
  let ws := toWords (pad msg)
  ((blocks (ws.length / 16) ws).foldl compress H0).flatMap wordBytes

/-- The block size of SHA-256 in bytes. -/
def blockSize : Nat := 64

/-- HMAC with SHA-256 (`hmac.New(sha256.New, key)`, then `Write(msg)` and
`Sum(nil)`), as in RFC 2104. -/
def hmac (key msg : Bytes) : Bytes :=
  let k0 := if key.length > blockSize then sum256 key else key
  let k := k0 ++ List.replicate (blockSize - k0.length) 0
  sum256 (k.map (fun b => b ^^^ 0x5c) ++ sum256 (k.map (fun b => b ^^^ 0x36) ++ msg))

end Sha256

/-- The helper `hmacNew` of telegram_auth_test.go. -/
def hmacNew (key data : Bytes) : Bytes :=
  let blockSize := 64
  let key1 := if key.length > blockSize then Sha256.sum256 key else key
  let key2 := if key1.length < blockSize then key1 ++ List.replicate (blockSize - key1.length) 0
    else key1
  let ipad := key2.map (fun b => b ^^^ 0x36)
  let opad := key2.map (fun b => b ^^^ 0x5c)
  let inner := Sha256.sum256 (ipad ++ data)
  Sha256.sum256 (opad ++ inner)

/-! ### Encodings (Go standard library: encoding/hex, net/url, strconv, sort, strings) -/

/-- A hexadecimal digit, lower case. -/
def hexDigit (n : Nat) : Nat := if n < 10 then 48 + n else 87 + n

/-- The function `hex.EncodeToString`. -/
def hexEncode (bs : Bytes) : Bytes := bs.flatMap (fun b => [hexDigit (b / 16), hexDigit (b % 16)])

/-- The value of a hexadecimal digit of either case. -/
def unhex (c : Nat) : Option Nat :=
  if 48 ≤ c ∧ c ≤ 57 then some (c - 48)
  else if 97 ≤ c ∧ c ≤ 102 then some (c - 87)
  else if 65 ≤ c ∧ c ≤ 70 then some (c - 55)
  else none

/-- The function `hex.DecodeString`; `none` is an error (odd length or a byte that is no digit). -/
def hexDecode : Bytes → Option Bytes
  | [] => some []
  | [_] => none
  | a :: b :: t =>
    match unhex a, unhex b, hexDecode t with
    | some x, some y, some r => some ((x * 16 + y) :: r)
    | _, _, _ => none

/-- The bytes `url.QueryEscape` leaves as they are: letters, digits, `-`, `_`, `.`, `~`. -/
def unreserved (c : Nat) : Bool :=
  (97 ≤ c ∧ c ≤ 122) ∨ (65 ≤ c ∧ c ≤ 90) ∨ (48 ≤ c ∧ c ≤ 57) ∨ c = 45 ∨ c = 95 ∨ c = 46 ∨ c = 126

/-- A hexadecimal digit, upper case. -/
def upperHexDigit (n : Nat) : Nat := if n < 10 then 48 + n else 55 + n

/-- The function `url.QueryEscape`. -/
def QueryEscape (s : Bytes) : Bytes :=
  s.flatMap (fun c =>
    if unreserved c then [c]
    else if c = 32 then [43]
    else [37, upperHexDigit (c / 16), upperHexDigit (c % 16)])

/-- The function `url.QueryUnescape`; `none` is an error (a `%` not followed by two digits). -/
def QueryUnescape : Bytes → Option Bytes
  | [] => some []
  | 37 :: a :: b :: t =>
    match unhex a, unhex b, QueryUnescape t with
    | some x, some y, some r => some ((x * 16 + y) :: r)
    | _, _, _ => none
  | 37 :: _ => none
  | 43 :: t => (QueryUnescape t).map (fun r => 32 :: r)
  | c :: t => (QueryUnescape t).map (fun r => c :: r)

/-- The pieces of a byte string between the occurrences of `sep`. -/
def splitOn (sep : Nat) : Bytes → List Bytes
  | [] => [[]]
  | c :: t =>
    if c = sep then [] :: splitOn sep t
    else
      match splitOn sep t with
      | [] => [[c]]
      | p :: ps => (c :: p) :: ps

/-- The call `strings.Cut(s, "=")`: the part before the first `=` and the part after it. -/
def cutEq : Bytes → Bytes × Bytes
  | [] => ([], [])
  | c :: t => if c = 61 then ([], t) else ((c :: (cutEq t).1), (cutEq t).2)

/-- The type `url.Values`: the values of each key, in the order they were added. -/
abbrev Values := List (Bytes × List Bytes)

namespace Values

/-- The method `Values.Get`: the first value of the key, or the empty string. -/
def Get (v : Values) (key : Bytes) : Bytes :=
  match v with
  | [] => []
  | (k, vs) :: t => if k = key then vs.headD [] else Get t key

/-- The method `Values.Del`. -/
def Del (v : Values) (key : Bytes) : Values := v.filter (fun e => decide (e.1 ≠ key))

/-- The method `Values.Add`: the value is appended to the values of the key. -/
def Add (v : Values) (key value : Bytes) : Values :=
  match v with
  | [] => [(key, [value])]
  | (k, vs) :: t => if k = key then (k, vs ++ [value]) :: t else (k, vs) :: Add t key value

end Values

/-- The loop of `url.ParseQuery` over the pieces between `&`; `none` is an
error (a semicolon in a piece, or a key or value that does not unescape). -/
def parsePieces : List Bytes → Values → Option Values
  | [], m => some m
  | piece :: rest, m =>
    if piece.contains 59 then none
    else if piece = [] then parsePieces rest m
    else
      match QueryUnescape (cutEq piece).1, QueryUnescape (cutEq piece).2 with
      | some key, some value => parsePieces rest (Values.Add m key value)
      | _, _ => none

/-- The function `url.ParseQuery`; `none` is a non-nil error. -/
def ParseQuery (query : Bytes) : Option Values := parsePieces (splitOn 38 query) []

/-- The order of `sort.Strings`: byte-wise lexicographic, strict. -/
def bytesLt : Bytes → Bytes → Bool
  | [], [] => false
  | [], _ :: _ => true
  | _ :: _, [] => false
  | a :: s, b :: t => if a < b then true else if b < a then false else bytesLt s t

/-- Insertion into a sorted list of strings. -/
def insertSorted (x : Bytes) : List Bytes → List Bytes
  | [] => [x]
  | y :: t => if bytesLt y x then y :: insertSorted x t else x :: y :: t

/-- The function `sort.Strings`. -/
def sortStrings (l : List Bytes) : List Bytes := l.foldr insertSorted []

/-- The function `strings.Join`. -/
def joinWith (sep : Bytes) : List Bytes → Bytes
  | [] => []
  | [x] => x
  | x :: y :: t => x ++ sep ++ joinWith sep (y :: t)

/-- The method `Values.Encode`: the keys in sorted order, each value as `key=value`, escaped, joined by `&`. -/
def Values.Encode (v : Values) : Bytes :=
  joinWith [38]
    ((sortStrings (v.map (fun e => e.1))).flatMap (fun k =>
      ((v.filter (fun e => decide (e.1 = k))).flatMap (fun e => e.2)).map
        (fun value => QueryEscape k ++ [61] ++ QueryEscape value)))

/-- The digits of `strconv.ParseInt(s, 10, 64)` after the sign: their value,
`none` when a byte is no digit. -/
def parseDigits : Bytes → Nat → Option Nat
  | [], acc => some acc
  | c :: t, acc => if 48 ≤ c ∧ c ≤ 57 then parseDigits t (acc * 10 + (c - 48)) else none

/-- The call `strconv.ParseInt(s, 10, 64)`; `none` is an error (empty, no digits, a byte
that is no digit, or a value outside the 64-bit range). -/
def ParseInt (s : Bytes) : Option Int :=
  let body : Bool × Bytes :=
    match s with
    | 45 :: t => (true, t)
    | 43 :: t => (false, t)
    | _ => (false, s)
  if body.2 = [] then none
  else
    match parseDigits body.2 0 with
    | none => none
    | some n =>
      if body.1 then (if n ≤ 2 ^ 63 then some (-(n : Int)) else none)
      else (if n < 2 ^ 63 then some (n : Int) else none)

/-- The data-check string of `ValidateTelegramInitData`: one `key=values`
line per key, the values of a key joined without separator, the lines sorted
and joined by newlines. -/
def dataCheckString (values : Values) : Bytes :=
  joinWith [10] (sortStrings (values.map (fun e => e.1 ++ [61] ++ joinWith [] e.2)))

/-- The function `ValidateTelegramInitData` of telegram_auth.go; `now` is the reading of the clock
(`time.Now().Unix()`), and `none` is the return `(nil, false)`. -/
def ValidateTelegramInitData (now : Int) (initData botToken : Bytes) : Option Values :=
  match ParseQuery initData with
  | none => none
  | some values0 =>
    let hash := Values.Get values0 (bytesOf "hash")
    if hash = [] then none
    else
      let values := Values.Del values0 (bytesOf "hash")
      let dataString := dataCheckString values
      let secret := Sha256.hmac (bytesOf "WebAppData") botToken
      let calculated := Sha256.hmac secret dataString
      match hexDecode hash with
      | none => none
      | some provided =>
        if calculated ≠ provided then none
        else
          let authDateStr := Values.Get values (bytesOf "auth_date")
          if authDateStr = [] then none
          else
            match ParseInt authDateStr with
            | none => none
            | some authDate =>
              if wrap64 (now - authDate) > 3600 ∨ wrap64 (authDate - now) > 300 then none
              else some values

/-- The helper `buildInitData` of telegram_auth_test.go. -/
def buildInitData (botToken : Bytes) (fields : List (Bytes × Bytes)) : Bytes :=
  let parts := sortStrings (fields.map (fun e => e.1 ++ [61] ++ e.2))
  let dataString := joinWith [10] parts
  let secret := Sha256.sum256 botToken
  let h := hmacNew secret dataString
  let hash := hexEncode h
  let vals := fields.foldl (fun v e => Values.Add v e.1 e.2) ([] : Values)
  Values.Encode (Values.Add vals (bytesOf "hash") hash)

/-- The bot token of telegram_auth_test.go. -/
def testToken : Bytes := bytesOf "test-bot-token"

/-- The fields of telegram_auth_test.go, with `auth_date` read off a clock that shows 1700000000. -/
def testFields : List (Bytes × Bytes) :=
  [(bytesOf "auth_date", bytesOf "1700000000"),
   (bytesOf "user", bytesOf "\x7b\"id\":1,\"username\":\"u\",\"first_name\":\"F\"\x7d")]

/-- The fields of the test in a query string whose hash is keyed the way
`ValidateTelegramInitData` keys it. -/
def webAppInitData : Bytes :=
  bytesOf "auth_date=1700000000&hash=c22a8818f779399799f79bd4835caf62ca287f327e23924613e3a359af845e41&user=%7B%22id%22%3A1%2C%22username%22%3A%22u%22%2C%22first_name%22%3A%22F%22%7D"

/-! ## A stale waiting entry at work -/

/-- The directory `hubAfterCancel` after user 1 asked for mines at 500 coins
on a second connection: session "2" holds user 1 alone, and the worker of the
cancelled session is still the waiting entry for rock-paper-scissors at 100
coins. -/
def hubStaleAndMines : Hub × Sends × Hub.Assigned :=
  hubAfterCancel.AssignClient [] 20 exampleSecondWorker

/-- The directory `hubStaleAndMines` after user 2 asked for rock-paper-scissors
at 100 coins. -/
def hubCrossPaired : Hub × Sends × Hub.Assigned :=
  hubStaleAndMines.1.AssignClient hubStaleAndMines.2.1 30 (exampleClient 2 2 "rps")

/-- A worker of user 2, on connection 2, asking for mines at 500 coins. -/
def exampleMinesOpponent : Client :=
  { Conn := 2, UserID := 2, GameType := "mines", BetAmount := 500, Currency := "coins" }

/-- A worker of user 3, on connection 5, asking for rock-paper-scissors at 100 coins. -/
def exampleThirdUser : Client := exampleClient 5 3 "rps"

/-- The directory `hubStaleAndMines` after user 2 asked for mines at 500 coins
and was paired with user 1 in session "2". -/
def hubMinesPaired : Hub × Sends × Hub.Assigned :=
  hubStaleAndMines.1.AssignClient hubStaleAndMines.2.1 21 exampleMinesOpponent

/-- Session "2" of `hubMinesPaired` once it has started, taken the two
registrations, and received from each of users 1 and 2 the setup message with
mines on the cells 1, 2, 3 and 4: setup is complete and round 1 is running. -/
def minesSessionPlayed : Option Room :=
  match hubMinesPaired.1.Rooms.get? "2" with
  | none => none
  | some room =>
    (Room.handleAll 0
      [Room.Event.start,
       Room.Event.register exampleSecondWorker [],
       Room.Event.register exampleMinesOpponent [],
       Room.Event.message exampleSecondWorker
         (some ("setup", JVal.arr [some 1, some 2, some 3, some 4])),
       Room.Event.message exampleMinesOpponent
         (some ("setup", JVal.arr [some 1, some 2, some 3, some 4]))]
      room hubMinesPaired.1 (fun i => i)).map (fun a => { a.1 with Register := [] })

/-- The directory `hubMinesPaired` with session "2" in the state `minesSessionPlayed`. -/
def hubMinesPlayed : Hub :=
  match minesSessionPlayed with
  | none => hubMinesPaired.1
  | some room => { hubMinesPaired.1 with Rooms := hubMinesPaired.1.Rooms.set "2" room }

/-- The directory `hubMinesPlayed` after user 3 asked for rock-paper-scissors
at 100 coins. -/
def hubThirdJoined : Hub × Sends × Hub.Assigned :=
  hubMinesPlayed.AssignClient hubMinesPaired.2.1 30 exampleThirdUser

/-- Session "2" of `hubThirdJoined` once it has taken the registration of user 3. -/
def minesSessionThird : Option Room :=
  match hubThirdJoined.1.Rooms.get? "2" with
  | none => none
  | some room =>
    (Room.handle 0 { room with Register := [] } hubThirdJoined.1
      (Room.Event.register exampleThirdUser []) (fun i => i)).map (fun a => a.1)

/-! ## Theorems -/

section GoMapLemmas

variable {K V : Type} [DecidableEq K]

theorem GoMap.get?_set_self (m : GoMap K V) (k : K) (v : V) : (m.set k v).get? k = some v := by
  induction m with
  | nil => simp [GoMap.set, GoMap.get?]
  | cons e t ih =>
    obtain ⟨k', v'⟩ := e
    by_cases h : k' = k
    · simp [GoMap.set, GoMap.get?, h]
    · simp [GoMap.set, GoMap.get?, h, ih]

theorem GoMap.get?_set_other (m : GoMap K V) (k k2 : K) (v : V) (hne : k ≠ k2) :
    (m.set k v).get? k2 = m.get? k2 := by
  induction m with
  | nil => simp [GoMap.set, GoMap.get?, hne]
  | cons e t ih =>
    obtain ⟨k', v'⟩ := e
    by_cases h : k' = k
    · subst h
      simp [GoMap.set, GoMap.get?, hne]
    · by_cases h2 : k' = k2
      · subst h2
        simp [GoMap.set, GoMap.get?, h]
      · simp [GoMap.set, GoMap.get?, h, h2, ih]

theorem GoMap.get?_mem (m : GoMap K V) (k : K) (v : V) (h : m.get? k = some v) : (k, v) ∈ m := by
  induction m with
  | nil => simp [GoMap.get?] at h
  | cons e t ih =>
    obtain ⟨k', v'⟩ := e
    by_cases hk : k' = k
    · simp [GoMap.get?, hk] at h
      simp [hk, h]
    · simp [GoMap.get?, hk] at h
      exact List.mem_cons_of_mem _ (ih h)

theorem GoMap.two_le_len (m : GoMap K V) (k1 k2 : K) (v1 v2 : V) (hne : k1 ≠ k2)
    (h1 : m.get? k1 = some v1) (h2 : m.get? k2 = some v2) : 2 ≤ m.len := by
  match m, h1, h2 with
  | [], h1, _ => simp [GoMap.get?] at h1
  | [e], h1, h2 =>
    obtain ⟨k', v'⟩ := e
    by_cases ha : k' = k1
    · have hb : ¬ k' = k2 := fun hb => hne (ha.symm.trans hb)
      simp [GoMap.get?, hb] at h2
    · simp [GoMap.get?, ha] at h1
  | _ :: _ :: _, _, _ => simp [GoMap.len]

end GoMapLemmas

/-- C3: for rock-paper-scissors, and for mines once setup is complete, a
fallback move (`nil` data) for a player who already has a move recorded in the
current round returns no error and leaves the game, with the recorded move,
exactly as it was. -/
theorem fallback_never_overwrites (fuel : Nat) (gm : Game) (p : Int) (m : Data) (rng : Rand)
    (hsetup : gm.IsSetupComplete = true) (hmoved : gm.recordedMove p = some m) :
    gm.HandleMove fuel p Data.nil rng = some (none, gm, rng) ∧
      gm.recordedMove p = some m := by
  refine ⟨?_, hmoved⟩
  cases gm with
  | rps g =>
    have hhas : g.moves.has p = true := by
      cases hg : g.moves.get? p with
      | none => simp [Game.recordedMove, hg] at hmoved
      | some v => simp [GoMap.has, hg]
    simp [Game.HandleMove, RPSGame.HandleMove, hhas]
  | mines g =>
    have hhas : g.moves.has p = true := by
      cases hg : g.moves.get? p with
      | none => simp [Game.recordedMove, hg] at hmoved
      | some v => simp [GoMap.has, hg]
    have hs : g.isSetupCompleteUnlocked = true := hsetup
    simp [Game.HandleMove, MinesGame.HandleMove, hhas, hs]

/-- Witness of C3: player 1 of a rock-paper-scissors game has played rock, and
player 1 of a mines game in its playing phase has chosen cell 5. -/
theorem fallback_never_overwrites_witness :
    ((Game.rps { RPSGame.new "1" (1, 2) with moves := [(1, "rock")] }).HandleMove 0 1 Data.nil
        (fun _ => 0)
      = some (none, Game.rps { RPSGame.new "1" (1, 2) with moves := [(1, "rock")] }, fun _ => 0) ∧
    (Game.rps { RPSGame.new "1" (1, 2) with moves := [(1, "rock")] }).recordedMove 1
      = some (Data.str "rock")) ∧
    ((Game.mines exampleMines).HandleMove 0 1 Data.nil (fun _ => 0)
      = some (none, Game.mines exampleMines, fun _ => 0) ∧
    (Game.mines exampleMines).recordedMove 1 = some (Data.int 5)) :=
  ⟨fallback_never_overwrites 0 _ 1 (Data.str "rock") (fun _ => 0) rfl rfl,
   fallback_never_overwrites 0 (Game.mines exampleMines) 1 (Data.int 5) (fun _ => 0)
     (by decide) rfl⟩

theorem RPSGame.decideRound_win (a b : String) (ha : validMove a) (hb : validMove b) :
    RPSGame.decideRound a b = "win" ↔ beats a b := by
  rcases ha with rfl | rfl | rfl <;> rcases hb with rfl | rfl | rfl <;> decide

theorem RPSGame.decideRound_lose (a b : String) (ha : validMove a) (hb : validMove b) :
    RPSGame.decideRound a b = "lose" ↔ beats b a := by
  rcases ha with rfl | rfl | rfl <;> rcases hb with rfl | rfl | rfl <;> decide

theorem beats_asymm (a b : String) (h : beats a b) : ¬ beats b a := by
  rcases h with ⟨rfl, rfl⟩ | ⟨rfl, rfl⟩ | ⟨rfl, rfl⟩ <;> decide

/-- C8: in a rock-paper-scissors game with two distinct players who have both
recorded a well-formed move, `CheckResult` names players[0] the winner
exactly when its move beats the other, names players[1] the winner exactly
when its move beats the other, and whenever one move beats the other the
result has reason "game_complete", is stored, and the game is finished. -/
theorem rps_winner_follows_rules (g : RPSGame) (m1 m2 : String)
    (hne : g.players.1 ≠ g.players.2)
    (h1 : g.moves.get? g.players.1 = some m1) (h2 : g.moves.get? g.players.2 = some m2)
    (hv1 : validMove m1) (hv2 : validMove m2) :
    ((g.CheckResult.1.bind (fun res => res.WinnerID) = some g.players.1) ↔ beats m1 m2) ∧
    ((g.CheckResult.1.bind (fun res => res.WinnerID) = some g.players.2) ↔ beats m2 m1) ∧
    (beats m1 m2 ∨ beats m2 m1 →
      ∃ res, g.CheckResult.1 = some res ∧ res.Reason = "game_complete" ∧
        g.CheckResult.2.result = some res ∧ g.CheckResult.2.IsFinished = true) := by
  have hlen : ¬ g.moves.len < 2 :=
    Nat.not_lt.mpr (GoMap.two_le_len g.moves _ _ m1 m2 hne h1 h2)
  have hw := RPSGame.decideRound_win m1 m2 hv1 hv2
  have hl := RPSGame.decideRound_lose m1 m2 hv1 hv2
  have hne' : ¬ g.players.2 = g.players.1 := fun h => hne h.symm
  by_cases hb1 : beats m1 m2
  · have hd : RPSGame.decideRound m1 m2 = "win" := hw.mpr hb1
    have hb2 : ¬ beats m2 m1 := beats_asymm _ _ hb1
    simp [RPSGame.CheckResult, hlen, GoMap.getD, h1, h2, hd, hb1, hb2, hne, RPSGame.IsFinished]
  · by_cases hb2 : beats m2 m1
    · have hd : RPSGame.decideRound m1 m2 = "lose" := hl.mpr hb2
      simp [RPSGame.CheckResult, hlen, GoMap.getD, h1, h2, hd, hb1, hb2, hne', RPSGame.IsFinished]
    · have hd1 : ¬ RPSGame.decideRound m1 m2 = "win" := fun h => hb1 (hw.mp h)
      have hd2 : ¬ RPSGame.decideRound m1 m2 = "lose" := fun h => hb2 (hl.mp h)
      by_cases hr : g.round + 1 ≥ 5
      · simp [RPSGame.CheckResult, hlen, GoMap.getD, h1, h2, hd1, hd2, hb1, hb2, hr]
      · simp [RPSGame.CheckResult, hlen, GoMap.getD, h1, h2, hd1, hd2, hb1, hb2, hr]

/-- Witness of C8: player 1 plays rock, player 2 scissors, and player 1 wins. -/
theorem rps_winner_follows_rules_witness :
    ((({ RPSGame.new "1" (1, 2) with moves := [(1, "rock"), (2, "scissors")] } :
        RPSGame).CheckResult.1.bind (fun res => res.WinnerID) = some 1) ↔
      beats "rock" "scissors") ∧
    beats "rock" "scissors" :=
  ⟨(rps_winner_follows_rules
      { RPSGame.new "1" (1, 2) with moves := [(1, "rock"), (2, "scissors")] }
      "rock" "scissors" (by decide) rfl rfl (by decide) (by decide)).1, by decide⟩

theorem RPSGame.decideRound_same (m : String) : RPSGame.decideRound m m = "draw" := by
  simp [RPSGame.decideRound]

/-- One tied round from a state with no move recorded: before the fifth round
the result is nil, the round counter goes up by one, the moves are emptied and
kept as the last moves. -/
theorem RPSGame.tiedRound_continues (id : String) (p1 p2 : Int) (lm : GoMap Int String)
    (k : Int) (m : String) (rng : Rand) (hne : p1 ≠ p2) (hv : validMove m) (hr : k + 1 < 5) :
    RPSGame.tiedRound
        { id := id, players := (p1, p2), moves := [], lastMoves := lm, round := k,
          result := none } m rng =
      (none, RPSGame.afterTie id p1 p2 (k + 1) m) := by
  have hv' : ¬ (¬ m = "rock" ∧ ¬ m = "paper" ∧ ¬ m = "scissors") := by
    rcases hv with rfl | rfl | rfl <;> decide
  have hr' : ¬ (5 ≤ k + 1) := by omega
  simp [RPSGame.tiedRound, RPSGame.HandleMove, GoMap.has, GoMap.get?, GoMap.set, hv', hne,
    RPSGame.CheckResult, GoMap.len, GoMap.getD, RPSGame.decideRound_same, hr',
    RPSGame.afterTie]

/-- One tied round from a state with no move recorded: in the fifth round the
game ends in a draw. -/
theorem RPSGame.tiedRound_draws (id : String) (p1 p2 : Int) (lm : GoMap Int String)
    (k : Int) (m : String) (rng : Rand) (hne : p1 ≠ p2) (hv : validMove m) (hr : k + 1 = 5) :
    RPSGame.tiedRound
        { id := id, players := (p1, p2), moves := [], lastMoves := lm, round := k,
          result := none } m rng =
      (some RPSGame.drawResult, RPSGame.afterDraw id p1 p2 lm m) := by
  have hv' : ¬ (¬ m = "rock" ∧ ¬ m = "paper" ∧ ¬ m = "scissors") := by
    rcases hv with rfl | rfl | rfl <;> decide
  simp [RPSGame.tiedRound, RPSGame.HandleMove, GoMap.has, GoMap.get?, GoMap.set, hv', hne,
    RPSGame.CheckResult, GoMap.len, GoMap.getD, RPSGame.decideRound_same, hr,
    RPSGame.afterDraw, RPSGame.drawResult]

/-- C10: in a fresh rock-paper-scissors game of two distinct players where
every round is tied, `CheckResult` returns nil on each of rounds 1 to 4,
leaving the round counter one higher, the moves empty and the tied moves as
the last moves of both players; on round 5 it returns a result with no winner
and reason "draw_after_5_rounds", and the game is finished. -/
theorem rps_five_tied_rounds (id : String) (p1 p2 : Int) (m1 m2 m3 m4 m5 : String)
    (rng : Rand) (hne : p1 ≠ p2) (hv1 : validMove m1) (hv2 : validMove m2)
    (hv3 : validMove m3) (hv4 : validMove m4) (hv5 : validMove m5) :
    let g0 := RPSGame.new id (p1, p2)
    let r1 := g0.tiedRound m1 rng
    let r2 := r1.2.tiedRound m2 rng
    let r3 := r2.2.tiedRound m3 rng
    let r4 := r3.2.tiedRound m4 rng
    let r5 := r4.2.tiedRound m5 rng
    (r1.1 = none ∧ r1.2.round = 1 ∧ r1.2.moves = [] ∧ r1.2.IsFinished = false ∧
      r1.2.lastMoves.get? p1 = some m1 ∧ r1.2.lastMoves.get? p2 = some m1) ∧
    (r2.1 = none ∧ r2.2.round = 2 ∧ r2.2.moves = [] ∧ r2.2.IsFinished = false ∧
      r2.2.lastMoves.get? p1 = some m2 ∧ r2.2.lastMoves.get? p2 = some m2) ∧
    (r3.1 = none ∧ r3.2.round = 3 ∧ r3.2.moves = [] ∧ r3.2.IsFinished = false ∧
      r3.2.lastMoves.get? p1 = some m3 ∧ r3.2.lastMoves.get? p2 = some m3) ∧
    (r4.1 = none ∧ r4.2.round = 4 ∧ r4.2.moves = [] ∧ r4.2.IsFinished = false ∧
      r4.2.lastMoves.get? p1 = some m4 ∧ r4.2.lastMoves.get? p2 = some m4) ∧
    (∃ res, r5.1 = some res ∧ res.WinnerID = none ∧ res.Reason = "draw_after_5_rounds" ∧
      r5.2.round = 5 ∧ r5.2.result = some res ∧ r5.2.IsFinished = true) := by
  intro g0 r1 r2 r3 r4 r5
  have hne' : ¬ p1 = p2 := hne
  have e1 : r1 = (none, RPSGame.afterTie id p1 p2 1 m1) :=
    RPSGame.tiedRound_continues id p1 p2 [] 0 m1 rng hne hv1 (by norm_num)
  have e2 : r2 = (none, RPSGame.afterTie id p1 p2 2 m2) := by
    show RPSGame.tiedRound r1.2 m2 rng = _
    rw [e1]
    exact RPSGame.tiedRound_continues id p1 p2 _ 1 m2 rng hne hv2 (by norm_num)
  have e3 : r3 = (none, RPSGame.afterTie id p1 p2 3 m3) := by
    show RPSGame.tiedRound r2.2 m3 rng = _
    rw [e2]
    exact RPSGame.tiedRound_continues id p1 p2 _ 2 m3 rng hne hv3 (by norm_num)
  have e4 : r4 = (none, RPSGame.afterTie id p1 p2 4 m4) := by
    show RPSGame.tiedRound r3.2 m4 rng = _
    rw [e3]
    exact RPSGame.tiedRound_continues id p1 p2 _ 3 m4 rng hne hv4 (by norm_num)
  have e5 : r5 = (some RPSGame.drawResult,
      RPSGame.afterDraw id p1 p2 [(p1, m4), (p2, m4)] m5) := by
    show RPSGame.tiedRound r4.2 m5 rng = _
    rw [e4]
    exact RPSGame.tiedRound_draws id p1 p2 _ 4 m5 rng hne hv5 (by norm_num)
  refine ⟨?_, ?_, ?_, ?_, ?_⟩
  · rw [e1]; simp [RPSGame.afterTie, RPSGame.IsFinished, GoMap.get?, hne']
  · rw [e2]; simp [RPSGame.afterTie, RPSGame.IsFinished, GoMap.get?, hne']
  · rw [e3]; simp [RPSGame.afterTie, RPSGame.IsFinished, GoMap.get?, hne']
  · rw [e4]; simp [RPSGame.afterTie, RPSGame.IsFinished, GoMap.get?, hne']
  · rw [e5]; simp [RPSGame.afterDraw, RPSGame.drawResult, RPSGame.IsFinished]

/-- Witness of C10: players 1 and 2 both play rock five times. -/
theorem rps_five_tied_rounds_witness :
    ((((((RPSGame.new "1" (1, 2)).tiedRound "rock" (fun _ => 0)).2.tiedRound "rock"
      (fun _ => 0)).2.tiedRound "rock" (fun _ => 0)).2.tiedRound "rock"
      (fun _ => 0)).2.tiedRound "rock" (fun _ => 0)).2.IsFinished = true :=
  (rps_five_tied_rounds "1" 1 2 "rock" "rock" "rock" "rock" "rock" (fun _ => 0) (by decide)
    (by decide) (by decide) (by decide) (by decide) (by decide)).2.2.2.2.elim
    (fun _ h => h.2.2.2.2.2)

theorem wrap64_of_fits (x : Int) (hlo : -2 ^ 63 ≤ x) (hhi : x < 2 ^ 63) : wrap64 x = x := by
  unfold wrap64
  rw [Int.emod_eq_of_lt (by omega) (by omega)]
  omega

/-- C2, as stated, fails: with a wager of 2^62 coins, a ledger attached and
user 1 the winner, the doubled pot does not fit the 64-bit amount and user 1
is credited -2^63, not 2 * 2^62. -/
theorem payout_doubling_overflows :
    0 < (exampleRoom (2 ^ 62)).BetAmount ∧ (exampleRoom (2 ^ 62)).UserRepo = true ∧
    (exampleRoom (2 ^ 62)).payoutWinner (some 1) 1 2 =
      [Effect.UpdateCoins 1 (-9223372036854775808)] ∧
    (exampleRoom (2 ^ 62)).payoutWinner (some 1) 1 2 ≠
      [Effect.UpdateCoins 1 (2 * (exampleRoom (2 ^ 62)).BetAmount)] := by
  decide

/-- C2, amended: for a session with wager b > 0 and a ledger attached,
`payoutWinner` with no winner credits p1 exactly b and p2 exactly b, and with
a winner w, provided 2*b fits the signed 64-bit amount, credits w exactly 2*b
and nobody else; the credit is in coins when the currency is "coins" and in
gems otherwise. -/
theorem payout_amounts (r : Room) (p1 p2 : Int) (hb : 0 < r.BetAmount)
    (hrepo : r.UserRepo = true) :
    r.payoutWinner none p1 p2 =
      (if r.Currency = "coins" then
        [Effect.UpdateCoins p1 r.BetAmount, Effect.UpdateCoins p2 r.BetAmount]
       else [Effect.UpdateGems p1 r.BetAmount, Effect.UpdateGems p2 r.BetAmount]) ∧
    (∀ w : Int, 2 * r.BetAmount < 2 ^ 63 →
      r.payoutWinner (some w) p1 p2 =
        (if r.Currency = "coins" then [Effect.UpdateCoins w (2 * r.BetAmount)]
         else [Effect.UpdateGems w (2 * r.BetAmount)])) := by
  have hb0 : ¬ r.BetAmount = 0 := by omega
  refine ⟨?_, ?_⟩
  · simp [Room.payoutWinner, hrepo, hb0, CurrencyCoins]
  · intro w hfit
    have hw : wrap64 (r.BetAmount * 2) = 2 * r.BetAmount := by
      rw [wrap64_of_fits _ (by omega) (by omega)]
      ring
    simp [Room.payoutWinner, hrepo, hb0, CurrencyCoins, hw]

/-- Witness of C2 amended: a wager of 100 coins, user 1 wins and gets 200. -/
theorem payout_amounts_witness :
    (exampleRoom 100).payoutWinner none 1 2 =
        [Effect.UpdateCoins 1 100, Effect.UpdateCoins 2 100] ∧
      (exampleRoom 100).payoutWinner (some 1) 1 2 = [Effect.UpdateCoins 1 200] :=
  ⟨(payout_amounts (exampleRoom 100) 1 2 (by decide) rfl).1,
   (payout_amounts (exampleRoom 100) 1 2 (by decide) rfl).2 1 (by decide)⟩

/-- C5: a round-timeout callback whose generation differs from the current
timer generation of the session changes nothing: the session and its game are
as before, no message is sent, no fallback move is made (the random source is
untouched) and no result check runs. -/
theorem stale_timeout_is_noop (fuel : Nat) (r : Room) (forRound : Int) (rng : Rand)
    (hstale : forRound ≠ r.timerRound) :
    Room.handleRoundTimeout fuel r forRound rng = some (r, [], rng) := by
  simp [Room.handleRoundTimeout, hstale]

/-- Witness of C5: generation 7 arrives at a session whose generation is 0. -/
theorem stale_timeout_is_noop_witness :
    Room.handleRoundTimeout 0 (exampleRoom 100) 7 (fun _ => 0)
      = some (exampleRoom 100, [], fun _ => 0) :=
  stale_timeout_is_noop 0 (exampleRoom 100) 7 (fun _ => 0) (by decide)

theorem GoMap.eq_nil_of_get?_none {K V : Type} [DecidableEq K] (m : GoMap K V)
    (h : ∀ k, m.get? k = none) : m = [] := by
  cases m with
  | nil => rfl
  | cons e t =>
    obtain ⟨k, v⟩ := e
    have := h k
    simp [GoMap.get?] at this

theorem validMove_bot (n : Nat) : validMove (["rock", "paper", "scissors"].getD (n % 3) "") := by
  have h : n % 3 < 3 := Nat.mod_lt _ (by decide)
  interval_cases (n % 3) <;> decide


theorem rps_fallback_move (g : RPSGame) (p : Int) (rng : Rand)
    (hno : g.moves.has p = false) :
    ∃ mv, validMove mv ∧
      g.HandleMove p Data.nil rng =
        (none, { g with moves := g.moves.set p mv }, fun i => rng (i + 1)) := by
  refine ⟨["rock", "paper", "scissors"].getD (rng 0 % 3) "", validMove_bot _, ?_⟩
  have hv := validMove_bot (rng 0)
  unfold RPSGame.HandleMove
  rw [if_neg (by simp [hno])]
  simp only [Intn]
  rw [if_neg]
  unfold validMove at hv
  tauto

theorem mines_fallback_move (fuel : Nat) (g : MinesGame) (p : Int) (rng : Rand)
    (hs : g.isSetupCompleteUnlocked = true) (hno : g.moves.has p = false) :
    ∃ n : Int, 1 ≤ n ∧ n ≤ 12 ∧
      g.HandleMove fuel p Data.nil rng =
        some (none, { g with moves := g.moves.set p n }, fun i => rng (i + 1)) := by
  have : rng 0 % 12 < 12 := Nat.mod_lt _ (by decide)
  refine ⟨((rng 0 % 12 : Nat) : Int) + 1, by omega, by omega, ?_⟩
  unfold MinesGame.HandleMove
  rw [if_neg (by simp [hs])]
  rw [if_neg (by simp [hno])]
  simp only [Intn]


/-- The fallback moves of the round timeout: in a game of two distinct
players with setup complete and no move recorded for the round (neither
player has one, and nobody else records moves), the round-timeout callback
for the current generation records a well-formed fallback move for both
players whatever the random source yields (no fuel is needed), the round is
complete at that point, and the callback goes on to the result check of that
state. Whether that check returns is the matter of `timeout_checks_round` and
`timeout_panics_without_board`. -/
theorem timeout_fills_both_moves (fuel : Nat) (r : Room) (rng : Rand)
    (hne : r.game.Players.1 ≠ r.game.Players.2)
    (hsetup : r.game.IsSetupComplete = true)
    (h1 : r.game.recordedMove r.game.Players.1 = none)
    (h2 : r.game.recordedMove r.game.Players.2 = none)
    (honly : ∀ p, r.game.recordedMove p ≠ none → p = r.game.Players.1 ∨ p = r.game.Players.2) :
    ∃ g1 rng1, Room.fallbackMoves fuel r.game rng = some (g1, rng1) ∧
      g1.Players = r.game.Players ∧
      g1.validRecorded r.game.Players.1 ∧ g1.validRecorded r.game.Players.2 ∧
      g1.IsRoundComplete = true ∧
      Room.handleRoundTimeout fuel r r.timerRound rng =
        (Room.checkRound { r with game := g1 }).map (fun c => (c.1, c.2, rng1)) := by
  have hall : ∀ p, r.game.recordedMove p = none := by
    intro p
    by_contra hp
    rcases honly p hp with rfl | rfl
    · exact hp h1
    · exact hp h2
  have key : ∃ g1 rng1, Room.fallbackMoves fuel r.game rng = some (g1, rng1) ∧
      g1.Players = r.game.Players ∧
      g1.validRecorded r.game.Players.1 ∧ g1.validRecorded r.game.Players.2 ∧
      g1.IsRoundComplete = true := by
    cases hg : r.game with
    | rps g =>
      rw [hg] at hall hne
      have hm : g.moves = [] := by
        apply GoMap.eq_nil_of_get?_none
        intro k
        have := hall k
        simpa [Game.recordedMove] using this
      simp only [Game.Players] at hne
      obtain ⟨mv1, hv1, e1⟩ := rps_fallback_move g g.players.1 rng
        (by simp [hm, GoMap.has, GoMap.get?])
      obtain ⟨mv2, hv2, e2⟩ := rps_fallback_move
        { g with moves := g.moves.set g.players.1 mv1 } g.players.2 (fun i => rng (i + 1))
        (by simp [hm, GoMap.has, GoMap.get?, GoMap.set, hne])
      refine ⟨Game.rps { g with moves := (g.moves.set g.players.1 mv1).set g.players.2 mv2 },
        fun i => rng (i + 1 + 1), ?_, ?_, ?_, ?_, ?_⟩
      · simp only [Room.fallbackMoves, Game.HandleMove, Game.Players, e1, e2]
      · rfl
      · simpa [Game.validRecorded, Game.recordedMove, Game.Players, GoMap.get?, GoMap.set, hm,
          hne] using hv1
      · simpa [Game.validRecorded, Game.recordedMove, Game.Players, GoMap.get?, GoMap.set, hm,
          hne] using hv2
      · simp [Game.IsRoundComplete, RPSGame.IsRoundComplete, GoMap.len, GoMap.set, hm, hne]
    | mines g =>
      rw [hg] at hall hne hsetup
      have hm : g.moves = [] := by
        apply GoMap.eq_nil_of_get?_none
        intro k
        have := hall k
        simpa [Game.recordedMove] using this
      have hs : g.isSetupCompleteUnlocked = true := hsetup
      simp only [Game.Players] at hne
      obtain ⟨n1, hl1, hu1, e1⟩ := mines_fallback_move fuel g g.players.1 rng hs
        (by simp [hm, GoMap.has, GoMap.get?])
      obtain ⟨n2, hl2, hu2, e2⟩ := mines_fallback_move fuel
        { g with moves := g.moves.set g.players.1 n1 } g.players.2 (fun i => rng (i + 1)) hs
        (by simp [hm, GoMap.has, GoMap.get?, GoMap.set, hne])
      refine ⟨Game.mines { g with moves := (g.moves.set g.players.1 n1).set g.players.2 n2 },
        fun i => rng (i + 1 + 1), ?_, ?_, ?_, ?_, ?_⟩
      · simp only [Room.fallbackMoves, Game.HandleMove, Game.Players, e1, e2]
      · rfl
      · simpa [Game.validRecorded, Game.recordedMove, Game.Players, GoMap.get?, GoMap.set, hm,
          hne] using And.intro hl1 hu1
      · simpa [Game.validRecorded, Game.recordedMove, Game.Players, GoMap.get?, GoMap.set, hm,
          hne] using And.intro hl2 hu2
      · simp [Game.IsRoundComplete, MinesGame.IsRoundComplete, GoMap.len, GoMap.set, hm, hne]
  obtain ⟨g1, rng1, hfb, hp, hv1, hv2, hc⟩ := key
  refine ⟨g1, rng1, hfb, hp, hv1, hv2, hc, ?_⟩
  simp only [Room.handleRoundTimeout, ne_eq, not_true_eq_false, if_false, hfb, hc, if_true]
  cases Room.checkRound { r with game := g1 } <;> rfl

/-- An instance of the fallback moves: a fresh rock-paper-scissors game between
users 1 and 2. -/
theorem timeout_fills_both_moves_witness :
    ∃ g1 rng1, Room.fallbackMoves 0 (exampleRoom 100).game (fun _ => 0) = some (g1, rng1) ∧
      g1.Players = (exampleRoom 100).game.Players ∧
      g1.validRecorded (exampleRoom 100).game.Players.1 ∧
      g1.validRecorded (exampleRoom 100).game.Players.2 ∧
      g1.IsRoundComplete = true ∧
      Room.handleRoundTimeout 0 (exampleRoom 100) (exampleRoom 100).timerRound (fun _ => 0) =
        (Room.checkRound { exampleRoom 100 with game := g1 }).map (fun c => (c.1, c.2, rng1)) :=
  timeout_fills_both_moves 0 (exampleRoom 100) (fun _ => 0) (by decide) rfl rfl rfl
    (by
      intro p hp
      exact absurd rfl hp)

/-- C9, as stated, fails for the part on moves: after five rounds tied on
rock the result of the game has no winner and carries no moves, so the
message to player 1 has the label "draw" but no yourMove at all, although
player 1 has the move rock recorded. -/
theorem draw_result_carries_no_moves :
    fiveRocks.1 = some RPSGame.drawResult ∧
    fiveRocks.2.moves.get? 1 = some "rock" ∧
    (exampleRoomWith fiveRocks.2).broadcastResult RPSGame.drawResult =
      [Effect.send (exampleClient 1 1 "rps")
         (Room.resultMessage "draw" "draw_after_5_rounds" [("rounds", Detail.int 5)]),
       Effect.send (exampleClient 2 2 "rps")
         (Room.resultMessage "draw" "draw_after_5_rounds" [("rounds", Detail.int 5)])] ∧
    detailStr [("rounds", Detail.int 5)] "yourMove" = none := by
  decide

/-- The results of rock-paper-scissors that name a winner carry the moves map
of the game. -/
theorem rps_winner_result_has_moves (g : RPSGame) (res : GameResult)
    (hres : g.CheckResult.1 = some res) (hw : res.WinnerID ≠ none) :
    res.Details.get? "moves" = some (Detail.moves g.CheckResult.2.moves) := by
  by_cases hl : g.moves.len < 2
  · simp [RPSGame.CheckResult, hl] at hres
  · by_cases h1 : RPSGame.decideRound (g.moves.getD g.players.1 "")
        (g.moves.getD g.players.2 "") = "win"
    · simp [RPSGame.CheckResult, hl, h1] at hres
      subst hres
      simp [RPSGame.CheckResult, hl, h1, GoMap.get?]
    · by_cases h2 : RPSGame.decideRound (g.moves.getD g.players.1 "")
          (g.moves.getD g.players.2 "") = "lose"
      · simp [RPSGame.CheckResult, hl, h1, h2] at hres
        subst hres
        simp [RPSGame.CheckResult, hl, h1, h2, GoMap.get?]
      · by_cases h3 : g.round + 1 ≥ 5
        · simp [RPSGame.CheckResult, hl, h1, h2, h3] at hres
          subst hres
          simp at hw
        · simp [RPSGame.CheckResult, hl, h1, h2, h3] at hres

/-- C9, amended: for every game result and a session whose two players are
distinct and attached, `broadcastResult` sends one result message to each,
labelled (draw, draw) when there is no winner, (win, lose) when the winner is
players[0] and (lose, win) when it is players[1], each message carrying only
the label of its recipient; and for rock-paper-scissors, when the result
carries the moves map of the game (as every result with a winner does), the
yourMove of each message is the recorded move of its recipient and the
opponentMove that of the other player. -/
theorem result_broadcast_personalised (r : Room) (result : GameResult) (c1 c2 : Client)
    (hne : r.game.Players.1 ≠ r.game.Players.2)
    (hc1 : r.Clients.get? r.game.Players.1 = some c1)
    (hc2 : r.Clients.get? r.game.Players.2 = some c2) :
    ∃ l1 l2 d1 d2,
      r.broadcastResult result =
        [Effect.send c1 (Room.resultMessage l1 result.Reason d1),
         Effect.send c2 (Room.resultMessage l2 result.Reason d2)] ∧
      (result.WinnerID = none → l1 = "draw" ∧ l2 = "draw") ∧
      (result.WinnerID = some r.game.Players.1 → l1 = "win" ∧ l2 = "lose") ∧
      (result.WinnerID = some r.game.Players.2 → l1 = "lose" ∧ l2 = "win") ∧
      (∀ g m1 m2, r.game = Game.rps g →
        result.Details.get? "moves" = some (Detail.moves g.moves) →
        g.moves.get? g.players.1 = some m1 → g.moves.get? g.players.2 = some m2 →
        detailStr d1 "yourMove" = some m1 ∧ detailStr d1 "opponentMove" = some m2 ∧
        detailStr d2 "yourMove" = some m2 ∧ detailStr d2 "opponentMove" = some m1) ∧
      (∀ g0 : RPSGame, g0.CheckResult.1 = some result → result.WinnerID ≠ none →
        result.Details.get? "moves" = some (Detail.moves g0.CheckResult.2.moves)) := by
  refine ⟨(Room.resultLabels result.WinnerID r.game.Players.1).1,
    (Room.resultLabels result.WinnerID r.game.Players.1).2,
    (Room.resultDetails r.game.GameType result r.game.Players.1 r.game.Players.2).1,
    (Room.resultDetails r.game.GameType result r.game.Players.1 r.game.Players.2).2,
    ?_, ?_, ?_, ?_, ?_, ?_⟩
  · simp [Room.broadcastResult, hc1, hc2]
  · intro hw
    simp [Room.resultLabels, hw]
  · intro hw
    simp [Room.resultLabels, hw]
  · intro hw
    have : ¬ r.game.Players.2 = r.game.Players.1 := fun h => hne h.symm
    simp [Room.resultLabels, hw, this]
  · intro g m1 m2 hg hmoves h1 h2
    simp [hg, Game.GameType, Game.Players, Room.resultDetails, hmoves, detailStr, GoMap.get?,
      GoMap.getD, h1, h2]
  · intro g0 hres hw
    exact rps_winner_result_has_moves g0 result hres hw

/-- Witness of C9 amended: user 1 played rock, user 2 scissors, both attached. -/
theorem result_broadcast_personalised_witness :
    ∃ l1 l2 d1 d2,
      (exampleRoomWith { RPSGame.new "1" (1, 2) with
          moves := [(1, "rock"), (2, "scissors")] }).broadcastResult
        { WinnerID := some 1, Reason := "game_complete",
          Details := [("moves", Detail.moves [(1, "rock"), (2, "scissors")])] } =
        [Effect.send (exampleClient 1 1 "rps") (Room.resultMessage l1 "game_complete" d1),
         Effect.send (exampleClient 2 2 "rps") (Room.resultMessage l2 "game_complete" d2)] ∧
      l1 = "win" ∧ l2 = "lose" ∧
      detailStr d1 "yourMove" = some "rock" ∧ detailStr d2 "yourMove" = some "scissors" := by
  obtain ⟨l1, l2, d1, d2, hmsg, _, hwin, _, hmoves, _⟩ :=
    result_broadcast_personalised
      (exampleRoomWith { RPSGame.new "1" (1, 2) with moves := [(1, "rock"), (2, "scissors")] })
      { WinnerID := some 1, Reason := "game_complete",
        Details := [("moves", Detail.moves [(1, "rock"), (2, "scissors")])] }
      (exampleClient 1 1 "rps") (exampleClient 2 2 "rps") (by decide) rfl rfl
  have hm := hmoves _ "rock" "scissors" rfl rfl rfl rfl
  exact ⟨l1, l2, d1, d2, hmsg, (hwin rfl).1, (hwin rfl).2, hm.1, hm.2.2.1⟩

theorem payoutWinner_all_ledger (r : Room) (w : Option Int) (p1 p2 : Int) :
    (r.payoutWinner w p1 p2).filter Effect.isLedger = r.payoutWinner w p1 p2 := by
  unfold Room.payoutWinner
  split_ifs <;> cases w <;> simp [Effect.isLedger]

theorem refundBet_all_ledger (r : Room) (u : Int) :
    (r.refundBet u).filter Effect.isLedger = r.refundBet u := by
  unfold Room.refundBet
  split_ifs <;> simp [Effect.isLedger]

theorem cleanup_betPaid (r : Room) (h : Hub) : (r.cleanup h).1.betPaid = r.betPaid := by
  unfold Room.cleanup
  split_ifs <;> rfl

theorem saveRecords_no_ledger (r : Room) (g1 : Game) (result : GameResult) :
    (r.saveRecords g1 result).filter Effect.isLedger = [] := by
  unfold Room.saveRecords
  split_ifs <;> rfl

theorem saveResult_settles (r : Room) (out : Room × List Effect)
    (hrun : r.saveResult = some out) :
    (r.betPaid = true → out.1.betPaid = true ∧ out.2.filter Effect.isLedger = []) ∧
    (out.1.betPaid = false → out.2.filter Effect.isLedger = []) ∧
    (out.2.filter Effect.isLedger = [] ∨
      ∃ w p1 p2, out.2.filter Effect.isLedger = r.payoutWinner w p1 p2) := by
  unfold Room.saveResult at hrun
  cases hc : r.game.CheckResult with
  | none => simp [hc] at hrun
  | some c =>
    obtain ⟨res, g1⟩ := c
    cases res with
    | none =>
      simp [hc] at hrun
      subst hrun
      simp
    | some result =>
      simp only [hc, Option.some.injEq] at hrun
      subst hrun
      by_cases hp : (0 : Int) < r.BetAmount ∧ r.betPaid = false
      · have hpay : (Room.payoutWinner { r with game := g1, betPaid := true } result.WinnerID
            g1.Players.1 g1.Players.2) = r.payoutWinner result.WinnerID g1.Players.1
              g1.Players.2 := rfl
        simp only [hp, and_self, decide_True, if_true, List.filter_append,
          saveRecords_no_ledger, List.append_nil, payoutWinner_all_ledger, hpay]
        exact ⟨by simp [hp.2], by simp, Or.inr ⟨_, _, _, rfl⟩⟩
      · simp only [hp, decide_False, Bool.false_eq_true, if_false, List.filter_append,
          saveRecords_no_ledger, List.append_nil, List.filter_nil]
        simp

theorem cancelGameNoOpponent_settles (r : Room) (h : Hub) :
    (r.betPaid = true → (r.cancelGameNoOpponent h).1.betPaid = true ∧
      (r.cancelGameNoOpponent h).2.2.filter Effect.isLedger = []) ∧
    ((r.cancelGameNoOpponent h).1.betPaid = false →
      (r.cancelGameNoOpponent h).2.2.filter Effect.isLedger = []) ∧
    ((r.cancelGameNoOpponent h).2.2.filter Effect.isLedger = [] ∨
      ∃ u, (r.cancelGameNoOpponent h).2.2.filter Effect.isLedger = r.refundBet u) := by
  have hnote : ∀ (o : Option Client) (m : Message),
      (match o with
        | some cl => [Effect.send cl m]
        | none => []).filter Effect.isLedger = [] := by
    intro o m
    cases o <;> rfl
  by_cases hp : (0 : Int) < r.BetAmount ∧ r.betPaid = false
  · have hpay : (Room.refundBet { r with betPaid := true } r.game.Players.1)
        = r.refundBet r.game.Players.1 := rfl
    simp only [Room.cancelGameNoOpponent, hp, and_self, decide_True, if_true,
      List.filter_append, hnote, List.append_nil, refundBet_all_ledger, cleanup_betPaid, hpay]
    exact ⟨by simp [hp.2], by simp, Or.inr ⟨_, rfl⟩⟩
  · simp only [Room.cancelGameNoOpponent, hp, decide_False, Bool.false_eq_true, if_false,
      List.filter_append, hnote, List.append_nil, List.filter_nil, cleanup_betPaid]
    simp

theorem handleDisconnect_settles (r : Room) (h : Hub) (c : Client) :
    (r.betPaid = true → (r.handleDisconnect h c).1.betPaid = true ∧
      (r.handleDisconnect h c).2.2.1.filter Effect.isLedger = []) ∧
    ((r.handleDisconnect h c).1.betPaid = false →
      (r.handleDisconnect h c).2.2.1.filter Effect.isLedger = []) ∧
    ((r.handleDisconnect h c).2.2.1.filter Effect.isLedger = [] ∨
      (∃ w p1 p2, (r.handleDisconnect h c).2.2.1.filter Effect.isLedger
        = r.payoutWinner w p1 p2) ∨
      ∃ u, (r.handleDisconnect h c).2.2.1.filter Effect.isLedger = r.refundBet u) := by
  by_cases hpaid : r.betPaid = true
  · cases hrem : (r.Clients.del c.UserID).head? <;>
      by_cases hlen : (r.Clients.del c.UserID).len = 1 <;>
      by_cases hz : (r.Clients.del c.UserID).len = 0 <;>
      simp [Room.handleDisconnect, hpaid, hrem, hlen, hz, cleanup_betPaid, Effect.isLedger]
  · have hpaid' : r.betPaid = false := by simpa using hpaid
    have hpw : ∀ (cl : GoMap Int Client) (w : Option Int) (p1 p2 : Int),
        Room.payoutWinner { r with Clients := cl, betPaid := true } w p1 p2
          = r.payoutWinner w p1 p2 := fun _ _ _ _ => rfl
    have hrf : ∀ (cl : GoMap Int Client) (u : Int),
        Room.refundBet { r with Clients := cl, betPaid := true } u = r.refundBet u :=
      fun _ _ => rfl
    cases hrem : (r.Clients.del c.UserID).head? <;>
      by_cases hlen : (r.Clients.del c.UserID).len = 1 <;>
      by_cases hz : (r.Clients.del c.UserID).len = 0 <;>
      by_cases hb : (0 : Int) < r.BetAmount <;>
      by_cases htwo : r.game.Players.2 = 0 <;>
      simp [Room.handleDisconnect, hpaid', hrem, hlen, hz, hb, htwo, cleanup_betPaid,
        Effect.isLedger, List.filter_append, payoutWinner_all_ledger, refundBet_all_ledger,
        hpw, hrf]

theorem payoutWinner_congr (r r' : Room) (hs : r.sameWager r') (w : Option Int)
    (p1 p2 : Int) : r'.payoutWinner w p1 p2 = r.payoutWinner w p1 p2 := by
  obtain ⟨h1, h2, h3⟩ := hs
  simp [Room.payoutWinner, h1, h2, h3]

theorem refundBet_congr (r r' : Room) (hs : r.sameWager r') (u : Int) :
    r'.refundBet u = r.refundBet u := by
  obtain ⟨h1, h2, h3⟩ := hs
  simp [Room.refundBet, h1, h2, h3]

theorem cleanup_sameWager (r : Room) (h : Hub) : r.sameWager (r.cleanup h).1 := by
  unfold Room.cleanup
  split_ifs <;> exact ⟨rfl, rfl, rfl⟩

theorem settleStep_sameWager (r : Room) (h : Hub) (call : SettleCall)
    (out : Room × Hub × List Effect) (hstep : settleStep r h call = some out) :
    r.sameWager out.1 := by
  cases call with
  | saveResult =>
    simp only [settleStep] at hstep
    cases hs : r.saveResult with
    | none => simp [hs] at hstep
    | some o =>
      simp only [hs, Option.some.injEq] at hstep
      subst hstep
      unfold Room.saveResult at hs
      cases hc : r.game.CheckResult with
      | none => simp [hc] at hs
      | some cr =>
        obtain ⟨res, g1⟩ := cr
        cases res with
        | none =>
          simp [hc] at hs
          subst hs
          exact ⟨rfl, rfl, rfl⟩
        | some result =>
          simp only [hc, Option.some.injEq] at hs
          subst hs
          dsimp only
          split_ifs <;> exact ⟨rfl, rfl, rfl⟩
  | handleDisconnect c =>
    simp only [settleStep, Option.some.injEq] at hstep
    subst hstep
    cases hrem : (r.Clients.del c.UserID).head? <;>
      by_cases hlen : (r.Clients.del c.UserID).len = 1 <;>
      by_cases hz : (r.Clients.del c.UserID).len = 0 <;>
      simp only [Room.handleDisconnect, hrem, hlen, hz, decide_True, decide_False, if_true,
        if_false] <;>
      (try split_ifs) <;>
      first
        | exact ⟨rfl, rfl, rfl⟩
        | exact cleanup_sameWager _ h
  | cancelGameNoOpponent =>
    simp only [settleStep, Option.some.injEq] at hstep
    subst hstep
    simp only [Room.cancelGameNoOpponent]
    split_ifs <;> exact cleanup_sameWager _ h

theorem settleStep_settles (r : Room) (h : Hub) (call : SettleCall)
    (out : Room × Hub × List Effect) (hstep : settleStep r h call = some out) :
    (r.betPaid = true → out.1.betPaid = true ∧ out.2.2.filter Effect.isLedger = []) ∧
    (out.1.betPaid = false → out.2.2.filter Effect.isLedger = []) ∧
    (out.2.2.filter Effect.isLedger = [] ∨
      (∃ w p1 p2, out.2.2.filter Effect.isLedger = r.payoutWinner w p1 p2) ∨
      ∃ u, out.2.2.filter Effect.isLedger = r.refundBet u) := by
  cases call with
  | saveResult =>
    simp only [settleStep] at hstep
    cases hs : r.saveResult with
    | none => simp [hs] at hstep
    | some o =>
      simp only [hs, Option.some.injEq] at hstep
      subst hstep
      obtain ⟨a, b, c⟩ := saveResult_settles r o hs
      exact ⟨a, b, c.elim Or.inl (fun x => Or.inr (Or.inl x))⟩
  | handleDisconnect c =>
    simp only [settleStep, Option.some.injEq] at hstep
    subst hstep
    exact handleDisconnect_settles r h c
  | cancelGameNoOpponent =>
    simp only [settleStep, Option.some.injEq] at hstep
    subst hstep
    obtain ⟨a, b, c⟩ := cancelGameNoOpponent_settles r h
    exact ⟨a, b, c.elim Or.inl (fun x => Or.inr (Or.inr x))⟩

theorem settleTrace_after_paid (calls : List SettleCall) :
    ∀ (r : Room) (h : Hub), r.betPaid = true →
      ∀ e ∈ settleTrace r h calls, e.paidBefore = true ∧ e.paidAfter = true ∧ e.ledger = [] := by
  induction calls with
  | nil =>
    intro r h _ e he
    simp [settleTrace] at he
  | cons call rest ih =>
    intro r h hp e he
    simp only [settleTrace] at he
    cases hs : settleStep r h call with
    | none => simp [hs] at he
    | some out =>
      simp only [hs, List.mem_cons] at he
      obtain ⟨h1, _, _⟩ := settleStep_settles r h call out hs
      rcases he with rfl | he
      · exact ⟨hp, (h1 hp).1, (h1 hp).2⟩
      · exact ih out.1 out.2.1 (h1 hp).1 e he

theorem filter_eq_nil_of_all_false {α : Type} (p : α → Bool) (l : List α)
    (h : ∀ x ∈ l, p x = false) : l.filter p = [] := by
  rw [List.filter_eq_nil_iff]
  intro x hx
  simp [h x hx]

/-- C1: over any sequence of `saveResult`, `handleDisconnect` and
`cancelGameNoOpponent` invocations on a session, from any state: the flag
`betPaid` never goes from true back to false, it goes from false to true in at
most one invocation, at most one invocation issues ledger calls, an invocation
that issues ledger calls is the one that flipped the flag, and the ledger
calls of an invocation are those of one `payoutWinner` or one `refundBet`. -/
theorem settles_at_most_once (calls : List SettleCall) :
    ∀ (r : Room) (h : Hub),
      (∀ e ∈ settleTrace r h calls, e.paidBefore = true → e.paidAfter = true) ∧
      ((settleTrace r h calls).filter SettleRecord.flipped).length ≤ 1 ∧
      ((settleTrace r h calls).filter SettleRecord.paid).length ≤ 1 ∧
      (∀ e ∈ settleTrace r h calls, e.paid = true → e.flipped = true) ∧
      (∀ e ∈ settleTrace r h calls, e.ledger = [] ∨
        (∃ w p1 p2, e.ledger = r.payoutWinner w p1 p2) ∨ ∃ u, e.ledger = r.refundBet u) := by
  induction calls with
  | nil =>
    intro r h
    simp [settleTrace]
  | cons call rest ih =>
    intro r h
    cases hs : settleStep r h call with
    | none => simp [settleTrace, hs]
    | some out =>
      obtain ⟨s1, s2, s3⟩ := settleStep_settles r h call out hs
      have hsame := settleStep_sameWager r h call out hs
      obtain ⟨i1, i2, i3, i4, i5⟩ := ih out.1 out.2.1
      have hshape : ∀ e ∈ settleTrace out.1 out.2.1 rest, e.ledger = [] ∨
          (∃ w p1 p2, e.ledger = r.payoutWinner w p1 p2) ∨ ∃ u, e.ledger = r.refundBet u := by
        intro e he
        rcases i5 e he with h0 | ⟨w, p1, p2, hw⟩ | ⟨u, hu⟩
        · exact Or.inl h0
        · exact Or.inr (Or.inl ⟨w, p1, p2, by rw [hw, payoutWinner_congr r out.1 hsame]⟩)
        · exact Or.inr (Or.inr ⟨u, by rw [hu, refundBet_congr r out.1 hsame]⟩)
      simp only [settleTrace, hs]
      by_cases hafter : out.1.betPaid = true
      · have hrest := settleTrace_after_paid rest out.1 out.2.1 hafter
        have hf : (settleTrace out.1 out.2.1 rest).filter SettleRecord.flipped = [] :=
          filter_eq_nil_of_all_false _ _ (fun e he => by
            simp [SettleRecord.flipped, (hrest e he).1])
        have hq : (settleTrace out.1 out.2.1 rest).filter SettleRecord.paid = [] :=
          filter_eq_nil_of_all_false _ _ (fun e he => by
            simp [SettleRecord.paid, (hrest e he).2.2])
        refine ⟨?_, ?_, ?_, ?_, ?_⟩
        · intro e he
          rcases List.mem_cons.mp he with rfl | he
          · intro _; exact hafter
          · exact i1 e he
        · rw [List.filter_cons]
          split_ifs <;> simp [hf]
        · rw [List.filter_cons]
          split_ifs <;> simp [hq]
        · intro e he
          rcases List.mem_cons.mp he with rfl | he
          · intro hpd
            by_cases hb : r.betPaid = true
            · simp [SettleRecord.paid, (s1 hb).2] at hpd
            · simp [SettleRecord.flipped, hb, hafter]
          · exact i4 e he
        · intro e he
          rcases List.mem_cons.mp he with rfl | he
          · exact s3
          · exact hshape e he
      · have hafter' : out.1.betPaid = false := by simpa using hafter
        have hled := s2 hafter'
        refine ⟨?_, ?_, ?_, ?_, ?_⟩
        · intro e he
          rcases List.mem_cons.mp he with rfl | he
          · intro hb
            exact absurd (s1 hb).1 hafter
          · exact i1 e he
        · rw [List.filter_cons]
          simp [SettleRecord.flipped, hafter', i2]
        · rw [List.filter_cons]
          simp [SettleRecord.paid, hled, i3]
        · intro e he
          rcases List.mem_cons.mp he with rfl | he
          · intro hpd
            simp [SettleRecord.paid, hled] at hpd
          · exact i4 e he
        · intro e he
          rcases List.mem_cons.mp he with rfl | he
          · exact s3
          · exact hshape e he

/-- Witness of C1: in a session with a wager of 100 coins where user 1 played
rock and user 2 scissors, user 2 disconnects and then the finished game is
saved: the disconnect pays user 1 the pot once, the save pays nothing. -/
theorem settles_at_most_once_witness :
    ((settleTrace
        (exampleRoomWith { RPSGame.new "1" (1, 2) with moves := [(1, "rock"), (2, "scissors")] })
        (Hub.new false false true)
        [SettleCall.handleDisconnect (exampleClient 2 2 "rps"), SettleCall.saveResult]).filter
      SettleRecord.paid).length ≤ 1 ∧
    settleTrace
        (exampleRoomWith { RPSGame.new "1" (1, 2) with moves := [(1, "rock"), (2, "scissors")] })
        (Hub.new false false true)
        [SettleCall.handleDisconnect (exampleClient 2 2 "rps"), SettleCall.saveResult] =
      [{ paidBefore := false, paidAfter := true, ledger := [Effect.UpdateCoins 1 200] },
       { paidBefore := true, paidAfter := true, ledger := [] }] :=
  ⟨(settles_at_most_once _ _ _).2.2.1, by decide⟩

theorem gameTypeOf_cases (s : String) :
    Hub.gameTypeOf s = "rps" ∨ Hub.gameTypeOf s = "mines" := by
  unfold Hub.gameTypeOf
  by_cases h1 : s = "rps"
  · simp [h1]
  · by_cases h2 : s = "mines"
    · simp [h2]
    · simp [h1, h2]

/-- C6: from an empty directory, two workers with distinct user ids and the
same declared game kind, wager and currency are assigned one after the other,
the first able to take the probe push: one session is created, both calls
return it (the second as the partner of the first), it is the only entry of
Rooms, both users map to it, both workers are attached to it and queued on
its Register channel, the players of its game are the first and the second
user, and no waiting entry is left. -/
theorem two_workers_one_session (gameRepo gameHistoryRepo userRepo : Bool) (sends : Sends)
    (now1 now2 : Int) (c1 c2 : Client)
    (hids : c1.UserID ≠ c2.UserID) (hgt : c1.GameType = c2.GameType)
    (hbet : c1.BetAmount = c2.BetAmount) (hcur : c1.Currency = c2.Currency)
    (halive : (sends.getD c1.Conn []).length < sendCap) :
    (Hub.new gameRepo gameHistoryRepo userRepo).PairedInOneSession sends now1 now2 c1 c2 := by
  simp only [Hub.PairedInOneSession]
  obtain ⟨conn1, u1, g1, b1, cur1⟩ := c1
  obtain ⟨conn2, u2, g2, b2, cur2⟩ := c2
  simp only at hids hgt hbet hcur halive
  subst hgt hbet hcur
  have hids' : ¬ u2 = u1 := fun h => hids h.symm
  have hprobe : trySend sends ⟨conn1, u1, g1, b1, cur1⟩ pingMsg
      = some (sends.set conn1 (sends.getD conn1 [] ++ [pingMsg])) := by
    simp [trySend, halive]
  rcases gameTypeOf_cases g1 with hg | hg
  · refine ⟨toString (1 : Int), ?_, ?_, ?_, ?_, ?_, ?_⟩
    · simp [Hub.AssignClient, Hub.new, Hub.clearStale, GoMap.has, GoMap.get?, Hub.createAndWait,
        Hub.newRoomWithBet, CreateGame, hg, GoMap.set, roomChanCap]
    all_goals
      simp [Hub.AssignClient, Hub.new, Hub.clearStale, GoMap.has, GoMap.get?, Hub.createAndWait,
        Hub.newRoomWithBet, CreateGame, hg, GoMap.set, roomChanCap, hids, hids', hprobe,
        GoMap.del, GoMap.keys, Game.SetSecondPlayer, RPSGame.SetSecondPlayer, RPSGame.new,
        Game.Players]
  · refine ⟨toString (1 : Int), ?_, ?_, ?_, ?_, ?_, ?_⟩
    · simp [Hub.AssignClient, Hub.new, Hub.clearStale, GoMap.has, GoMap.get?, Hub.createAndWait,
        Hub.newRoomWithBet, CreateGame, hg, GoMap.set, roomChanCap]
    all_goals
      simp [Hub.AssignClient, Hub.new, Hub.clearStale, GoMap.has, GoMap.get?, Hub.createAndWait,
        Hub.newRoomWithBet, CreateGame, hg, GoMap.set, roomChanCap, hids, hids', hprobe,
        GoMap.del, GoMap.keys, Game.SetSecondPlayer, MinesGame.SetSecondPlayer, MinesGame.new,
        Game.Players]
      first
        | done
        | (split_ifs <;> rfl)

/-- Witness of C6: users 1 and 2 both ask for rock-paper-scissors at 100 coins. -/
theorem two_workers_one_session_witness :
    (Hub.new false false true).PairedInOneSession [] 0 5 (exampleClient 1 1 "rps")
      (exampleClient 2 2 "rps") :=
  two_workers_one_session false false true [] 0 5 (exampleClient 1 1 "rps")
    (exampleClient 2 2 "rps") (by decide) rfl rfl rfl (by decide)

section WaitingLemmas

variable {K V : Type} [DecidableEq K]

theorem GoMap.mem_of_mem_del (m : GoMap K V) (k : K) (e : K × V) (h : e ∈ m.del k) : e ∈ m := by
  unfold GoMap.del at h
  exact List.mem_of_mem_filter h

theorem GoMap.mem_of_mem_foldl_del (ks : List K) (m : GoMap K V) (e : K × V)
    (h : e ∈ ks.foldl (fun acc k => GoMap.del acc k) m) : e ∈ m := by
  induction ks generalizing m with
  | nil => exact h
  | cons k t ih => exact GoMap.mem_of_mem_del m k e (ih (m.del k) h)

theorem GoMap.mem_set (m : GoMap K V) (k : K) (v : V) (e : K × V) (h : e ∈ m.set k v) :
    e ∈ m ∨ e = (k, v) := by
  induction m with
  | nil =>
    simp [GoMap.set] at h
    exact Or.inr h
  | cons x t ih =>
    obtain ⟨k', v'⟩ := x
    by_cases hk : k' = k
    · simp only [GoMap.set, hk, if_true, List.mem_cons] at h
      rcases h with h | h
      · exact Or.inr h
      · exact Or.inl (List.mem_cons_of_mem _ h)
    · simp only [GoMap.set, hk, if_false, List.mem_cons] at h
      rcases h with h | h
      · exact Or.inl (by simp [h])
      · rcases ih h with h | h
        · exact Or.inl (List.mem_cons_of_mem _ h)
        · exact Or.inr h

end WaitingLemmas

theorem clearStale_waiting (h : Hub) (c : Client) (gt : String) :
    ∀ e ∈ (h.clearStale c gt).WaitingByKey, e ∈ h.WaitingByKey := by
  intro e he
  unfold Hub.clearStale at he
  split_ifs at he
  · exact GoMap.mem_of_mem_foldl_del _ _ e he
  · exact he

theorem createAndWait_waiting (h : Hub) (now : Int) (c : Client) (gt : String)
    (k : WaitingKey) :
    (h.createAndWait now c gt k).2.joined = none ∧
    ∀ e ∈ (h.createAndWait now c gt k).1.WaitingByKey, e ∈ h.WaitingByKey ∨ e = (k, c) := by
  simp only [Hub.createAndWait, Hub.newRoomWithBet]
  cases hg : CreateGame gt (toString (h.roomSeq + 1)) (c.UserID, 0) with
  | none =>
    refine ⟨rfl, ?_⟩
    intro e he
    exact Or.inl he
  | some g =>
    dsimp only
    split_ifs
    · refine ⟨rfl, ?_⟩
      intro e he
      exact GoMap.mem_set _ _ _ e he
    · refine ⟨rfl, ?_⟩
      intro e he
      exact GoMap.mem_set _ _ _ e he

theorem AssignClient_waiting (h : Hub) (sends : Sends) (now : Int) (c : Client) :
    (∀ e ∈ (h.AssignClient sends now c).1.WaitingByKey,
      e ∈ h.WaitingByKey ∨ e = (Hub.waitingKeyOf c, c)) ∧
    (∀ w, (h.AssignClient sends now c).2.2.joined = some w →
      (Hub.waitingKeyOf c, w) ∈ h.WaitingByKey) := by
  have hcs := clearStale_waiting h c (Hub.gameTypeOf c.GameType)
  have hdrop : ∀ e ∈ ((h.clearStale c (Hub.gameTypeOf c.GameType)).WaitingByKey.del
      (Hub.waitingKeyOf c)), e ∈ h.WaitingByKey :=
    fun e he => hcs e (GoMap.mem_of_mem_del _ _ e he)
  have hcreate : ∀ (h' : Hub), (∀ e ∈ h'.WaitingByKey, e ∈ h.WaitingByKey) →
      (∀ e ∈ (h'.createAndWait now c (Hub.gameTypeOf c.GameType)
          (Hub.waitingKeyOf c)).1.WaitingByKey,
        e ∈ h.WaitingByKey ∨ e = (Hub.waitingKeyOf c, c)) ∧
      (∀ w, (h'.createAndWait now c (Hub.gameTypeOf c.GameType)
          (Hub.waitingKeyOf c)).2.joined = some w → (Hub.waitingKeyOf c, w) ∈ h.WaitingByKey) := by
    intro h' hsub
    obtain ⟨hj, hw⟩ := createAndWait_waiting h' now c (Hub.gameTypeOf c.GameType)
      (Hub.waitingKeyOf c)
    refine ⟨?_, ?_⟩
    · intro e he
      rcases hw e he with he | he
      · exact Or.inl (hsub e he)
      · exact Or.inr he
    · intro w hjw
      rw [hj] at hjw
      cases hjw
  simp only [Hub.AssignClient]
  have hk0 : Hub.waitingKeyOf c =
      WaitingKey.mk (Hub.gameTypeOf c.GameType) c.BetAmount c.Currency := rfl
  rw [hk0] at hdrop hcreate ⊢
  generalize WaitingKey.mk (Hub.gameTypeOf c.GameType) c.BetAmount c.Currency = k
    at hdrop hcreate ⊢
  generalize Hub.gameTypeOf c.GameType = gt at hcs hdrop hcreate ⊢
  have hdropped := hcreate
    { h.clearStale c gt with WaitingByKey := (h.clearStale c gt).WaitingByKey.del k } hdrop
  cases hw : (h.clearStale c gt).WaitingByKey.get? k with
  | none => exact hcreate _ hcs
  | some waiting =>
    have hmem : (k, waiting) ∈ h.WaitingByKey := hcs _ (GoMap.get?_mem _ _ _ hw)
    by_cases hu : waiting.UserID = c.UserID
    · simp only [hu, ne_eq, not_true_eq_false, if_false]
      exact hdropped
    · simp only [hu, ne_eq, not_false_eq_true, if_true]
      cases ht : trySend sends waiting pingMsg with
      | none => exact hdropped
      | some sends1 =>
        dsimp only
        cases hur : (h.clearStale c gt).UserRoom.get? waiting.UserID with
        | none => exact hdropped
        | some roomID =>
          dsimp only
          cases hrm : (h.clearStale c gt).Rooms.get? roomID with
          | none => exact hdropped
          | some foundRoom =>
            dsimp only
            by_cases hthere : foundRoom.Clients.has waiting.UserID = true
            · simp only [hthere, if_true]
              split_ifs
              · refine ⟨fun e he => Or.inl (hdrop e he), ?_⟩
                intro w hjw
                simp only [Option.some.injEq] at hjw
                subst hjw
                exact hmem
              · refine ⟨fun e he => Or.inl (hdrop e he), ?_⟩
                intro w hjw
                simp only [Option.some.injEq] at hjw
                subst hjw
                exact hmem
            · simp only [hthere, Bool.false_eq_true, if_false]
              exact hdropped

theorem OnDisconnect_waiting (h : Hub) (c : Client) :
    ∀ e ∈ (h.OnDisconnect c).WaitingByKey, e ∈ h.WaitingByKey := by
  intro e he
  have hsub : ∀ e ∈ (h.waitingKeysOfUser c.UserID).foldl (fun m k => GoMap.del m k)
      h.WaitingByKey, e ∈ h.WaitingByKey :=
    fun e he => GoMap.mem_of_mem_foldl_del _ _ e he
  simp only [Hub.OnDisconnect] at he
  split at he
  · exact hsub e he
  · split at he
    · exact hsub e he
    · split_ifs at he
      · exact hsub e he
      · exact hsub e he

theorem dropStaleUser_waiting (h : Hub) (userID : Int) :
    (h.dropStaleUser userID).WaitingByKey = h.WaitingByKey := by
  simp only [Hub.dropStaleUser]
  split
  · rfl
  · split
    · rfl
    · dsimp only
      split_ifs <;> rfl

theorem staleFold_waiting (stale : List (WaitingKey × Int)) (h : Hub) :
    ∀ e ∈ (stale.foldl
      (fun acc x =>
        Hub.dropStaleUser { acc with WaitingByKey := acc.WaitingByKey.del x.1 } x.2) h).WaitingByKey,
      e ∈ h.WaitingByKey := by
  induction stale generalizing h with
  | nil => exact fun e he => he
  | cons x t ih =>
    intro e he
    have h1 := ih _ e he
    rw [dropStaleUser_waiting] at h1
    exact GoMap.mem_of_mem_del _ _ e h1

theorem staleGameFold_waiting (stale : List (String × Int)) (h : Hub) :
    (stale.foldl
      (fun acc x =>
        Hub.dropStaleUser { acc with WaitingByGame := acc.WaitingByGame.del x.1 } x.2)
      h).WaitingByKey = h.WaitingByKey := by
  induction stale generalizing h with
  | nil => rfl
  | cons x t ih =>
    simp only [List.foldl_cons]
    rw [ih, dropStaleUser_waiting]

theorem cleanupStaleWaiting_waiting (h : Hub) (sends : Sends) :
    ∀ e ∈ (h.cleanupStaleWaiting sends).1.WaitingByKey, e ∈ h.WaitingByKey := by
  intro e he
  simp only [Hub.cleanupStaleWaiting] at he
  rw [staleGameFold_waiting] at he
  exact staleFold_waiting _ h e he

theorem cleanupStaleRooms_waiting (h : Hub) (now : Int) :
    (h.cleanupStaleRooms now).WaitingByKey = h.WaitingByKey := by
  unfold Hub.cleanupStaleRooms
  generalize h.Rooms = rooms
  induction rooms generalizing h with
  | nil => rfl
  | cons x t ih =>
    simp only [List.foldl_cons]
    rw [ih]
    split_ifs <;> rfl

theorem cleanup_waiting (r : Room) (h : Hub) :
    (r.cleanup h).2.WaitingByKey = h.WaitingByKey := by
  unfold Room.cleanup
  split_ifs <;> rfl

/-- Every step of the directory keeps the waiting entries filed under the key
of their worker. -/
theorem step_keeps_keys (h h' : Hub) (hstep : Hub.Step h h') (hok : h.WaitingKeysOk) :
    h'.WaitingKeysOk := by
  intro e he
  cases hstep with
  | assign sends now c =>
    rcases (AssignClient_waiting h sends now c).1 e he with h1 | h1
    · exact hok e h1
    · rw [h1]
  | disconnect c => exact hok e (OnDisconnect_waiting h c e he)
  | staleWaiting sends => exact hok e (cleanupStaleWaiting_waiting h sends e he)
  | staleRooms now =>
    rw [cleanupStaleRooms_waiting] at he
    exact hok e he
  | roomCleanup r =>
    rw [cleanup_waiting] at he
    exact hok e he
  | roomRun rooms => exact hok e he

theorem reachable_keys_ok (h : Hub) (hr : Hub.Reachable h) : h.WaitingKeysOk := by
  induction hr with
  | init a b c =>
    intro e he
    simp [Hub.new] at he
  | step _ hstep ih => exact step_keeps_keys _ _ hstep ih

/-- The normalisation of the game kind in pairing: from the empty directory, a
worker of user 1 that declared the game kind "chess" is assigned and waits; a
worker of user 2 that declared "rps" with the same wager and currency is then
attached to the session of the first, although the declared game kinds
differ. -/
theorem pairing_ignores_unknown_kind :
    Hub.Reachable ((Hub.new false false true).AssignClient [] 0 (exampleClient 1 1 "chess")).1 ∧
    ((((Hub.new false false true).AssignClient [] 0 (exampleClient 1 1 "chess")).1).AssignClient
        [] 5 (exampleClient 2 2 "rps")).2.2.joined = some (exampleClient 1 1 "chess") ∧
    (exampleClient 1 1 "chess").GameType ≠ (exampleClient 2 2 "rps").GameType :=
  ⟨Hub.Reachable.step (Hub.Reachable.init false false true) (Hub.Step.assign _ [] 0 _),
   by decide, by decide⟩

/-- The waiting entry matched by `AssignClient`: in every reachable directory
state, when `AssignClient` attaches a worker to a session, the worker it was
matched with was the waiting entry of the new worker's key and the two have
equal matchmaking keys: the declared game kinds are equal after the
normalisation of `AssignClient` (anything other than "rps" and "mines" counts
as "rps"), and the wagers and the currencies are equal. This says nothing of
the session joined, which is looked up through the user id of that entry (see
`stale_entry_pairs_across_keys`). -/
theorem pairing_needs_equal_keys (h : Hub) (sends : Sends) (now : Int) (c w : Client)
    (hr : Hub.Reachable h)
    (hj : (h.AssignClient sends now c).2.2.joined = some w) :
    (Hub.waitingKeyOf c, w) ∈ h.WaitingByKey ∧
    Hub.waitingKeyOf w = Hub.waitingKeyOf c ∧
    Hub.gameTypeOf w.GameType = Hub.gameTypeOf c.GameType ∧
    w.BetAmount = c.BetAmount ∧ w.Currency = c.Currency := by
  have hmem := (AssignClient_waiting h sends now c).2 w hj
  have hkey : Hub.waitingKeyOf w = Hub.waitingKeyOf c := reachable_keys_ok h hr _ hmem
  have hk := hkey
  simp only [Hub.waitingKeyOf, WaitingKey.mk.injEq] at hk
  exact ⟨hmem, hkey, hk.1, hk.2.1, hk.2.2⟩

/-- An instance of the matched waiting entry: the worker that declared "rps"
joins the one that declared "chess": both keys are (rps, 100, coins). -/
theorem pairing_needs_equal_keys_witness :
    (Hub.waitingKeyOf (exampleClient 2 2 "rps"), exampleClient 1 1 "chess") ∈
      ((Hub.new false false true).AssignClient [] 0 (exampleClient 1 1 "chess")).1.WaitingByKey ∧
    Hub.waitingKeyOf (exampleClient 1 1 "chess") = Hub.waitingKeyOf (exampleClient 2 2 "rps") ∧
    Hub.gameTypeOf (exampleClient 1 1 "chess").GameType
      = Hub.gameTypeOf (exampleClient 2 2 "rps").GameType ∧
    (exampleClient 1 1 "chess").BetAmount = (exampleClient 2 2 "rps").BetAmount ∧
    (exampleClient 1 1 "chess").Currency = (exampleClient 2 2 "rps").Currency :=
  pairing_needs_equal_keys
    ((Hub.new false false true).AssignClient [] 0 (exampleClient 1 1 "chess")).1 [] 5
    (exampleClient 2 2 "rps") (exampleClient 1 1 "chess")
    (Hub.Reachable.step (Hub.Reachable.init false false true) (Hub.Step.assign _ [] 0 _))
    (by decide)

/-- C11: in a mines game of two distinct players who both have a cell
recorded, with hit1 the mine test of players[0]'s cell on the board of
players[1] and hit2 the converse (both lookups defined), `CheckResult` counts
the round and names players[1] the winner exactly when hit1 and not hit2,
players[0] exactly when hit2 and not hit1, with reason "opponent_hit_mine" and
the game finished; when both or neither hit, it returns nil, clears the moves
and leaves the result as it was while the counted round is below 5, and
returns a result with no winner and reason "draw" once it reaches 5. -/
theorem mines_round_outcome (g : MinesGame) (c1 c2 : Int) (hit1 hit2 : Bool)
    (hne : g.players.1 ≠ g.players.2)
    (hm1 : g.moves.get? g.players.1 = some c1) (hm2 : g.moves.get? g.players.2 = some c2)
    (hh1 : g.hitAt g.players.2 c1 = some hit1) (hh2 : g.hitAt g.players.1 c2 = some hit2) :
    ∃ res g', g.CheckResult = some (res, g') ∧ g'.round = g.round + 1 ∧
      ((res.bind (fun r => r.WinnerID) = some g.players.2) ↔ (hit1 = true ∧ hit2 = false)) ∧
      ((res.bind (fun r => r.WinnerID) = some g.players.1) ↔ (hit2 = true ∧ hit1 = false)) ∧
      (hit1 ≠ hit2 →
        ∃ r, res = some r ∧ r.Reason = "opponent_hit_mine" ∧ g'.result = some r ∧
          g'.IsFinished = true) ∧
      (hit1 = hit2 → g.round + 1 < 5 →
        res = none ∧ g'.moves = [] ∧ g'.result = g.result ∧ g'.IsFinished = g.IsFinished) ∧
      (hit1 = hit2 → 5 ≤ g.round + 1 →
        ∃ r, res = some r ∧ r.WinnerID = none ∧ r.Reason = "draw" ∧ g'.result = some r ∧
          g'.IsFinished = true) := by
  have hlen : ¬ g.moves.len < 2 :=
    Nat.not_lt.mpr (GoMap.two_le_len g.moves _ _ c1 c2 hne hm1 hm2)
  have hne' : ¬ g.players.2 = g.players.1 := fun h => hne h.symm
  have hh1' : MinesGame.hitAt { g with round := g.round + 1 } g.players.2 c1 = some hit1 := hh1
  have hh2' : MinesGame.hitAt { g with round := g.round + 1 } g.players.1 c2 = some hit2 := hh2
  by_cases hr : 5 ≤ g.round + 1 <;> cases hit1 <;> cases hit2 <;>
    simp only [MinesGame.CheckResult, hlen, GoMap.getD, hm1, hm2, hh1', hh2', hr, if_false,
      if_true, Option.getD_some, Bool.false_eq_true, false_and, and_false, not_false_eq_true,
      and_self, not_true_eq_false, ge_iff_le] <;>
    refine ⟨_, _, rfl, ?_⟩ <;>
    simp [MinesGame.IsFinished, hne, hne', hr]

/-- Witness of C11: user 1 steps on the mine of user 2, user 2 on a free cell
of user 1, and user 2 wins. -/
theorem mines_round_outcome_witness :
    ∃ res g', exampleMinesRound.CheckResult = some (res, g') ∧
      res.bind (fun r => r.WinnerID) = some 2 := by
  obtain ⟨res, g', h, _, hw, _⟩ :=
    mines_round_outcome exampleMinesRound 3 5 true false (by decide) rfl rfl (by decide)
      (by decide)
  exact ⟨res, g', h, hw.mpr ⟨rfl, rfl⟩⟩

/-- C17, as stated, fails for mines: in the playing phase user 1, who has
cell 5 recorded, submits cell 7; `HandleMove` returns no error and the
recorded cell becomes 7. -/
theorem mines_second_move_overwrites :
    exampleMines.isSetupCompleteUnlocked = true ∧
    exampleMines.moves.get? 1 = some 5 ∧
    (exampleMines.HandleMove 0 1 (Data.int 7) (fun _ => 0)).map (fun out => (out.1, out.2.1))
      = some (none, { exampleMines with moves := [(1, 7)] }) := by
  decide

/-- C17, amended: when a player who already has a move recorded for the round
submits another real (non-nil) move, rock-paper-scissors returns an error and
leaves the game as it was, the first move included; mines in its playing
phase returns no error and replaces the recorded cell, by the cell submitted
when that is an integer in 1..12 and by a random cell of 1..12 otherwise. -/
theorem second_real_move (fuel : Nat) (gm : Game) (p : Int) (m data : Data) (rng : Rand)
    (hsetup : gm.IsSetupComplete = true) (hmoved : gm.recordedMove p = some m)
    (hreal : data ≠ Data.nil) :
    (∀ g, gm = Game.rps g →
      gm.HandleMove fuel p data rng = some (some "уже сделан ход", gm, rng) ∧
      gm.recordedMove p = some m) ∧
    (∀ g, gm = Game.mines g →
      ∃ n rng1, 1 ≤ n ∧ n ≤ 12 ∧
        gm.HandleMove fuel p data rng
          = some (none, Game.mines { g with moves := g.moves.set p n }, rng1) ∧
        (∀ k, data = Data.int k → 1 ≤ k → k ≤ 12 → n = k ∧ rng1 = rng)) := by
  refine ⟨?_, ?_⟩
  · intro g hg
    subst hg
    refine ⟨?_, hmoved⟩
    have hhas : g.moves.has p = true := by
      cases hgm : g.moves.get? p with
      | none => simp [Game.recordedMove, hgm] at hmoved
      | some v => simp [GoMap.has, hgm]
    simp [Game.HandleMove, RPSGame.HandleMove, hhas, hreal]
  · intro g hg
    subst hg
    have hs : g.isSetupCompleteUnlocked = true := hsetup
    have hbot : rng 0 % 12 < 12 := Nat.mod_lt _ (by decide)
    cases data with
    | nil => exact absurd rfl hreal
    | int k =>
      by_cases hk : k < 1 ∨ k > 12
      · refine ⟨((rng 0 % 12 : Nat) : Int) + 1, fun i => rng (i + 1), by omega, by omega, ?_, ?_⟩
        · simp [Game.HandleMove, MinesGame.HandleMove, hs, hk, Intn]
        · intro k' hk' h1 h2
          cases hk'
          omega
      · refine ⟨k, rng, by omega, by omega, ?_, ?_⟩
        · simp [Game.HandleMove, MinesGame.HandleMove, hs, hk]
        · intro k' hk' _ _
          cases hk'
          exact ⟨rfl, rfl⟩
    | str x =>
      refine ⟨((rng 0 % 12 : Nat) : Int) + 1, fun i => rng (i + 1), by omega, by omega, ?_, ?_⟩
      · simp [Game.HandleMove, MinesGame.HandleMove, hs, Intn]
      · intro k' hk'
        cases hk'
    | ints x =>
      refine ⟨((rng 0 % 12 : Nat) : Int) + 1, fun i => rng (i + 1), by omega, by omega, ?_, ?_⟩
      · simp [Game.HandleMove, MinesGame.HandleMove, hs, Intn]
      · intro k' hk'
        cases hk'
    | other =>
      refine ⟨((rng 0 % 12 : Nat) : Int) + 1, fun i => rng (i + 1), by omega, by omega, ?_, ?_⟩
      · simp [Game.HandleMove, MinesGame.HandleMove, hs, Intn]
      · intro k' hk'
        cases hk'

/-- Witness of C17 amended: user 1 of a rock-paper-scissors game has played
rock and now submits paper. -/
theorem second_real_move_witness :
    (Game.rps { RPSGame.new "1" (1, 2) with moves := [(1, "rock")] }).HandleMove 0 1
        (Data.str "paper") (fun _ => 0)
      = some (some "уже сделан ход",
          Game.rps { RPSGame.new "1" (1, 2) with moves := [(1, "rock")] }, fun _ => 0) ∧
    (Game.rps { RPSGame.new "1" (1, 2) with moves := [(1, "rock")] }).recordedMove 1
      = some (Data.str "rock") :=
  (second_real_move 0 (Game.rps { RPSGame.new "1" (1, 2) with moves := [(1, "rock")] }) 1
    (Data.str "rock") (Data.str "paper") (fun _ => 0) rfl rfl (by decide)).1 _ rfl

/-- C16, as stated, fails: in a fresh rock-paper-scissors game the payload of
user 1 is a number, not a string, and `HandleMove` returns no error and
records a move drawn at random; in the example mines game in its playing
phase the payload of user 2 is a string, not a cell, and `HandleMove` returns
no error and records a cell drawn at random. -/
theorem malformed_payload_plays_random :
    ((Game.rps (RPSGame.new "1" (1, 2))).HandleMove 0 1
        (Room.moveValue "rps" (JVal.num 5)) (fun _ => 0)).map (fun out => (out.1, out.2.1))
      = some (none, Game.rps { RPSGame.new "1" (1, 2) with moves := [(1, "rock")] }) ∧
    exampleMines.isSetupCompleteUnlocked = true ∧
    ((Game.mines exampleMines).HandleMove 0 2
        (Room.moveValue "mines" (JVal.str "x")) (fun _ => 0)).map (fun out => (out.1, out.2.1))
      = some (none, Game.mines { exampleMines with moves := [(1, 5), (2, 1)] }) := by
  decide

/-- C16, amended: a string payload other than rock, paper and scissors makes
the `HandleMove` of rock-paper-scissors return an error and leave the game as
it was, and `HandleMessage` then sends one error message, to the worker
attached for the sender, and leaves the session as it was. Other malformed
payloads are not rejected: in rock-paper-scissors a non-nil payload that is no
string, from a player with no move recorded, and in mines in its playing
phase a non-nil payload that is no integer of 1..12, make `HandleMove` return
no error and record a well-formed move drawn at random. -/
theorem malformed_move_handling (fuel : Nat) (r : Room) (c : Client) (rng : Rand) :
    (∀ g s typ, r.game = Game.rps g → ¬ validMove s →
      ∃ err, r.game.HandleMove fuel c.UserID (Data.str s) rng = some (some err, r.game, rng) ∧
        r.HandleMessage fuel c (some (typ, JVal.str s)) rng
          = some (r, r.send c.UserID (Room.errorMessage err), rng)) ∧
    (∀ g data, r.game = Game.rps g → data ≠ Data.nil → (∀ s, data ≠ Data.str s) →
      g.moves.has c.UserID = false →
      ∃ mv, validMove mv ∧
        r.game.HandleMove fuel c.UserID data rng
          = some (none, Game.rps { g with moves := g.moves.set c.UserID mv },
              fun i => rng (i + 1))) ∧
    (∀ g data, r.game = Game.mines g → g.isSetupCompleteUnlocked = true → data ≠ Data.nil →
      (∀ n, data = Data.int n → n < 1 ∨ n > 12) →
      ∃ n, 1 ≤ n ∧ n ≤ 12 ∧
        r.game.HandleMove fuel c.UserID data rng
          = some (none, Game.mines { g with moves := g.moves.set c.UserID n },
              fun i => rng (i + 1))) := by
  refine ⟨?_, ?_, ?_⟩
  · intro g s typ hg hinv
    have hinv' : ¬ s = "rock" ∧ ¬ s = "paper" ∧ ¬ s = "scissors" := by
      unfold validMove at hinv
      tauto
    have hmv : Room.moveValue "rps" (JVal.str s) = Data.str s := by
      simp [Room.moveValue]
    have hr : ({ r with game := Game.rps g } : Room) = r := by rw [← hg]
    by_cases hhas : g.moves.has c.UserID = true
    · refine ⟨"уже сделан ход", ?_, ?_⟩
      · simp [hg, Game.HandleMove, RPSGame.HandleMove, hhas]
      · simp [Room.HandleMessage, hg, Game.GameType, hmv, Game.HandleMove, RPSGame.HandleMove,
          hhas, hr]
    · refine ⟨"неверное значение хода", ?_, ?_⟩
      · simp [hg, Game.HandleMove, RPSGame.HandleMove, hhas, hinv']
      · simp [Room.HandleMessage, hg, Game.GameType, hmv, Game.HandleMove, RPSGame.HandleMove,
          hhas, hinv', hr]
  · intro g data hg hnil hstr hno
    obtain ⟨mv, hv, hrun⟩ := rps_fallback_move g c.UserID rng hno
    refine ⟨mv, hv, ?_⟩
    have hsame : g.HandleMove c.UserID data rng = g.HandleMove c.UserID Data.nil rng := by
      cases data with
      | str x => exact absurd rfl (hstr x)
      | nil => rfl
      | int n => simp [RPSGame.HandleMove, hno]
      | ints xs => simp [RPSGame.HandleMove, hno]
      | other => simp [RPSGame.HandleMove, hno]
    simp only [hg, Game.HandleMove, hsame, hrun]
  · intro g data hg hs hnil hbad
    have hbot : rng 0 % 12 < 12 := Nat.mod_lt _ (by decide)
    refine ⟨((rng 0 % 12 : Nat) : Int) + 1, by omega, by omega, ?_⟩
    cases data with
    | nil => exact absurd rfl hnil
    | int k =>
      have hk := hbad k rfl
      simp [hg, Game.HandleMove, MinesGame.HandleMove, hs, hk, Intn]
    | str x => simp [hg, Game.HandleMove, MinesGame.HandleMove, hs, Intn]
    | ints x => simp [hg, Game.HandleMove, MinesGame.HandleMove, hs, Intn]
    | other => simp [hg, Game.HandleMove, MinesGame.HandleMove, hs, Intn]

/-- Witness of C16 amended: user 1 sends the string lizard. -/
theorem malformed_move_handling_witness :
    ∃ err,
      (exampleRoomWith (RPSGame.new "1" (1, 2))).HandleMessage 0 (exampleClient 1 1 "rps")
          (some ("move", JVal.str "lizard")) (fun _ => 0)
        = some (exampleRoomWith (RPSGame.new "1" (1, 2)),
            [Effect.send (exampleClient 1 1 "rps") (Room.errorMessage err)], fun _ => 0) := by
  obtain ⟨err, _, h⟩ :=
    (malformed_move_handling 0 (exampleRoomWith (RPSGame.new "1" (1, 2)))
      (exampleClient 1 1 "rps") (fun _ => 0)).1 _ "lizard" "move" rfl (by decide)
  exact ⟨err, h⟩

theorem refundBet_eq_credit (r : Room) (u : Int) (hb : 0 < r.BetAmount)
    (hrepo : r.UserRepo = true) :
    r.refundBet u = [Effect.credit r.Currency u r.BetAmount] := by
  have hb0 : ¬ r.BetAmount = 0 := by omega
  unfold Room.refundBet Effect.credit
  simp only [hrepo, hb0, CurrencyCoins]
  split_ifs <;> simp_all

/-- C12, as stated, fails: a session of user 1 alone with a wager of 100 and
no ledger attached is cancelled without any ledger call; and with a ledger
attached but no worker attached the refund is made and no message is sent. -/
theorem cancel_without_ledger_or_worker :
    ((exampleSoloRoom 100 false [(1, exampleClient 1 1 "rps")]).cancelGameNoOpponent
        (Hub.new false false false)).2.2 =
      [Effect.send (exampleClient 1 1 "rps")
        (Room.cancelMessage (exampleSoloRoom 100 false []))] ∧
    ((exampleSoloRoom 100 true []).cancelGameNoOpponent (Hub.new false false true)).2.2 =
      [Effect.UpdateCoins 1 100] := by
  decide

/-- C12, amended: for a session with wager b > 0 not yet settled, a ledger
attached and the worker of players[0] attached, `cancelGameNoOpponent` makes
exactly one ledger call, the credit of b to players[0] in the session
currency, sets the settlement flag, and sends that worker one result message
with you = "cancelled", reason = "no_opponent", refunded = b; and no later
sequence of `saveResult`, `handleDisconnect` and `cancelGameNoOpponent`
invocations on the session issues any ledger call. -/
theorem cancel_refunds_once (r : Room) (h : Hub) (cl : Client) (hb : 0 < r.BetAmount)
    (hunpaid : r.betPaid = false) (hrepo : r.UserRepo = true)
    (hcl : r.Clients.get? r.game.Players.1 = some cl) :
    (r.cancelGameNoOpponent h).2.2 =
      [Effect.credit r.Currency r.game.Players.1 r.BetAmount,
       Effect.send cl
         { MsgType := "result",
           Payload := [("you", PVal.str "cancelled"), ("reason", PVal.str "no_opponent"),
                       ("refunded", PVal.int r.BetAmount), ("currency", PVal.str r.Currency)] }] ∧
    (r.cancelGameNoOpponent h).1.betPaid = true ∧
    (∀ (calls : List SettleCall) (h2 : Hub),
      ∀ e ∈ settleTrace (r.cancelGameNoOpponent h).1 h2 calls, e.ledger = []) := by
  have hpaid : (r.cancelGameNoOpponent h).1.betPaid = true := by
    simp [Room.cancelGameNoOpponent, hb, hunpaid, cleanup_betPaid]
  refine ⟨?_, hpaid, ?_⟩
  · have hrf := refundBet_eq_credit { r with betPaid := true } r.game.Players.1 hb hrepo
    simp only [Room.cancelGameNoOpponent, hb, hunpaid, and_self, decide_True, if_true, hcl, hrf,
      Room.cancelMessage]
    rfl
  · intro calls h2 e he
    exact (settleTrace_after_paid calls _ h2 hpaid e he).2.2

/-- Witness of C12 amended: user 1 waits alone with 100 coins at stake. -/
theorem cancel_refunds_once_witness :
    ((exampleSoloRoom 100 true [(1, exampleClient 1 1 "rps")]).cancelGameNoOpponent
        (Hub.new false false true)).2.2 =
      [Effect.UpdateCoins 1 100,
       Effect.send (exampleClient 1 1 "rps")
         { MsgType := "result",
           Payload := [("you", PVal.str "cancelled"), ("reason", PVal.str "no_opponent"),
                       ("refunded", PVal.int 100), ("currency", PVal.str "coins")] }] :=
  (cancel_refunds_once (exampleSoloRoom 100 true [(1, exampleClient 1 1 "rps")])
    (Hub.new false false true) (exampleClient 1 1 "rps") (by decide) rfl rfl rfl).1

section DelLemmas

variable {K V : Type} [DecidableEq K]

theorem GoMap.get?_del_self (m : GoMap K V) (k : K) : (m.del k).get? k = none := by
  induction m with
  | nil => rfl
  | cons e t ih =>
    obtain ⟨k', v'⟩ := e
    by_cases hk : k' = k
    · simpa [GoMap.del, List.filter_cons, hk] using ih
    · have : (GoMap.del ((k', v') :: t) k) = (k', v') :: GoMap.del t k := by
        simp [GoMap.del, List.filter_cons, hk]
      rw [this]
      simp [GoMap.get?, hk, ih]

theorem GoMap.get?_del_other (m : GoMap K V) (k k2 : K) (hne : k ≠ k2) :
    (m.del k).get? k2 = m.get? k2 := by
  induction m with
  | nil => rfl
  | cons e t ih =>
    obtain ⟨k', v'⟩ := e
    by_cases hk : k' = k
    · have h2 : ¬ k' = k2 := fun h => hne (hk.symm.trans h)
      have : (GoMap.del ((k', v') :: t) k) = GoMap.del t k := by
        simp [GoMap.del, List.filter_cons, hk]
      rw [this, ih]
      simp [GoMap.get?, h2]
    · have : (GoMap.del ((k', v') :: t) k) = (k', v') :: GoMap.del t k := by
        simp [GoMap.del, List.filter_cons, hk]
      rw [this]
      by_cases h2 : k' = k2
      · simp [GoMap.get?, h2]
      · simp [GoMap.get?, h2, ih]

theorem GoMap.get?_del_of_none (m : GoMap K V) (k k2 : K) (h : m.get? k2 = none) :
    (m.del k).get? k2 = none := by
  by_cases hk : k = k2
  · subst hk
    exact GoMap.get?_del_self m k
  · rw [GoMap.get?_del_other m k k2 hk]
    exact h

theorem GoMap.get?_foldl_del_of_none (ks : List K) (m : GoMap K V) (k : K)
    (h : m.get? k = none) : (ks.foldl (fun acc x => GoMap.del acc x) m).get? k = none := by
  induction ks generalizing m with
  | nil => exact h
  | cons x t ih => exact ih _ (GoMap.get?_del_of_none m x k h)

theorem GoMap.get?_foldl_del_mem (ks : List K) (m : GoMap K V) (k : K) (hk : k ∈ ks) :
    (ks.foldl (fun acc x => GoMap.del acc x) m).get? k = none := by
  induction ks generalizing m with
  | nil => simp at hk
  | cons x t ih =>
    rcases List.mem_cons.mp hk with rfl | hk
    · exact GoMap.get?_foldl_del_of_none t _ _ (GoMap.get?_del_self m _)
    · exact ih _ hk

theorem GoMap.get?_foldl_del_not_mem (ks : List K) (m : GoMap K V) (k : K) (hk : k ∉ ks) :
    (ks.foldl (fun acc x => GoMap.del acc x) m).get? k = m.get? k := by
  induction ks generalizing m with
  | nil => rfl
  | cons x t ih =>
    have hx : x ≠ k := fun h => hk (by simp [h])
    have ht : k ∉ t := fun h => hk (List.mem_cons_of_mem _ h)
    simp only [List.foldl_cons]
    rw [ih _ ht, GoMap.get?_del_other m x k hx]

end DelLemmas

/-- What `cleanup` leaves in the directory of a session that has one: no entry
of Rooms under the id of the session, no UserRoom entry for a non-zero player
of its game nor for a user with a worker attached to it. -/
theorem cleanup_releases (r : Room) (h : Hub) (hhub : r.hub = true) :
    (r.cleanup h).2.Rooms.get? r.ID = none ∧
    (∀ uid, uid ≠ 0 → (uid = r.game.Players.1 ∨ uid = r.game.Players.2) →
      (r.cleanup h).2.UserRoom.get? uid = none) ∧
    (∀ uid, uid ∈ r.Clients.keys → (r.cleanup h).2.UserRoom.get? uid = none) := by
  simp only [Room.cleanup, hhub, if_true]
  refine ⟨GoMap.get?_del_self _ _, ?_, ?_⟩
  · intro uid h0 hp
    apply GoMap.get?_foldl_del_of_none
    simp only [List.foldl_cons, List.foldl_nil]
    rcases hp with rfl | rfl
    · by_cases h2 : r.game.Players.2 ≠ 0
      · simp only [h0, h2, ne_eq, not_false_eq_true, if_true]
        exact GoMap.get?_del_of_none _ _ _ (GoMap.get?_del_self _ _)
      · simp only [h0, h2, ne_eq, not_false_eq_true, if_true, if_false]
        exact GoMap.get?_del_self _ _
    · by_cases h1 : r.game.Players.1 ≠ 0
      · simp only [h0, h1, ne_eq, not_false_eq_true, if_true]
        exact GoMap.get?_del_self _ _
      · simp only [h0, h1, ne_eq, not_false_eq_true, if_true, if_false]
        exact GoMap.get?_del_self _ _
  · intro uid hu
    exact GoMap.get?_foldl_del_mem _ _ _ hu

theorem GoMap.del_eq_nil {K V : Type} [DecidableEq K] (m : GoMap K V) (k : K)
    (h : ∀ e ∈ m, e.1 = k) : m.del k = [] := by
  unfold GoMap.del
  rw [List.filter_eq_nil_iff]
  intro e he
  simp [h e he]

theorem cleanup_Clients (r : Room) (h : Hub) : (r.cleanup h).1.Clients = r.Clients := by
  unfold Room.cleanup
  split_ifs <;> rfl

/-- C15, as stated, fails: user 1 waits alone with a wager of 100, no ledger
is attached, and the disconnect of user 1 sets the settlement flag and ends
the session without any ledger call. -/
theorem lone_disconnect_without_ledger :
    (exampleSoloRoom 100 false [(1, exampleClient 1 1 "rps")]).game.Players.2 = 0 ∧
    ((exampleSoloRoom 100 false [(1, exampleClient 1 1 "rps")]).handleDisconnect
        (Hub.new false false false) (exampleClient 1 1 "rps")).2.2 = ([], true) ∧
    ((exampleSoloRoom 100 false [(1, exampleClient 1 1 "rps")]).handleDisconnect
        (Hub.new false false false) (exampleClient 1 1 "rps")).1.betPaid = true := by
  decide

/-- C15, amended: for a session of the directory whose second participant
never joined, with wager b > 0 not yet settled, a ledger attached and no
worker attached but that of the disconnecting user, `handleDisconnect` makes
exactly one ledger call, the credit of b to the disconnecting user in the
session currency, sets the settlement flag, sends nothing, runs the cleanup
(the session leaves Rooms, and the UserRoom entry of the user is deleted when
the user is the non-zero players[0]) and returns true. -/
theorem lone_disconnect_refunds (r : Room) (h : Hub) (c : Client)
    (hnojoin : r.game.Players.2 = 0) (hb : 0 < r.BetAmount) (hunpaid : r.betPaid = false)
    (hrepo : r.UserRepo = true) (hhub : r.hub = true)
    (hsole : ∀ e ∈ r.Clients, e.1 = c.UserID) :
    (r.handleDisconnect h c).2.2 =
      ([Effect.credit r.Currency c.UserID r.BetAmount], true) ∧
    (r.handleDisconnect h c).1.betPaid = true ∧
    (r.handleDisconnect h c).1.Clients = [] ∧
    (r.handleDisconnect h c).2.1 =
      (Room.cleanup { r with Clients := [], betPaid := true } h).2 ∧
    (r.handleDisconnect h c).2.1.Rooms.get? r.ID = none ∧
    (c.UserID ≠ 0 → c.UserID = r.game.Players.1 →
      (r.handleDisconnect h c).2.1.UserRoom.get? c.UserID = none) := by
  have hdel : r.Clients.del c.UserID = [] := GoMap.del_eq_nil _ _ hsole
  have hrf := refundBet_eq_credit { r with Clients := [], betPaid := true } c.UserID hb hrepo
  have hrun : r.handleDisconnect h c =
      ((Room.cleanup { r with Clients := [], betPaid := true } h).1,
       (Room.cleanup { r with Clients := [], betPaid := true } h).2,
       [Effect.credit r.Currency c.UserID r.BetAmount], true) := by
    simp [Room.handleDisconnect, hdel, GoMap.len, hnojoin, hb, hunpaid, hrf]
  have hrel := cleanup_releases { r with Clients := [], betPaid := true } h hhub
  rw [hrun]
  refine ⟨rfl, ?_, ?_, rfl, hrel.1, ?_⟩
  · simp [cleanup_betPaid]
  · simp [cleanup_Clients]
  · intro h0 hp
    exact hrel.2.1 c.UserID h0 (Or.inl hp)

/-- Witness of C15 amended: user 1 waits alone with 100 coins at stake and
disconnects. -/
theorem lone_disconnect_refunds_witness :
    ((exampleSoloRoom 100 true [(1, exampleClient 1 1 "rps")]).handleDisconnect
        (Hub.new false false true) (exampleClient 1 1 "rps")).2.2 =
      ([Effect.UpdateCoins 1 100], true) :=
  (lone_disconnect_refunds (exampleSoloRoom 100 true [(1, exampleClient 1 1 "rps")])
    (Hub.new false false true) (exampleClient 1 1 "rps") rfl (by decide) rfl rfl rfl
    (by decide)).1

theorem GoMap.del_of_pair {K V : Type} [DecidableEq K] (m : GoMap K V) (q o : K) (vq vo : V)
    (hne : q ≠ o) (hlen : m.len = 2) (hq : m.get? q = some vq) (ho : m.get? o = some vo) :
    m.del q = [(o, vo)] := by
  rcases m with _ | ⟨⟨a, x⟩, _ | ⟨⟨b, y⟩, _ | ⟨e3, t⟩⟩⟩
  · simp [GoMap.len] at hlen
  · simp [GoMap.len] at hlen
  · by_cases ha : a = q
    · subst ha
      have hao : ¬ a = o := hne
      simp only [GoMap.get?, hao, if_false] at ho
      by_cases hb : b = o
      · simp only [hb, if_true, Option.some.injEq] at ho
        subst hb
        subst ho
        have hba : ¬ b = a := fun h => hne h.symm
        simp [GoMap.del, List.filter_cons, hba]
      · simp [hb] at ho
    · simp only [GoMap.get?, ha, if_false] at hq
      by_cases hb : b = q
      · subst hb
        have hbo : ¬ b = o := hne
        simp only [GoMap.get?, hbo, if_false] at ho
        by_cases hao : a = o
        · simp only [hao, if_true, Option.some.injEq] at ho
          subst hao
          subst ho
          simp [GoMap.del, List.filter_cons, ha]
        · simp [hao] at ho
      · simp [hb] at hq
  · simp [GoMap.len] at hlen

theorem payoutWinner_eq_credit (r : Room) (w p1 p2 : Int) (hb : 0 < r.BetAmount)
    (hfit : 2 * r.BetAmount < 2 ^ 63) (hrepo : r.UserRepo = true) :
    r.payoutWinner (some w) p1 p2 = [Effect.credit r.Currency w (2 * r.BetAmount)] := by
  have hb0 : ¬ r.BetAmount = 0 := by omega
  have hw : wrap64 (r.BetAmount * 2) = 2 * r.BetAmount := by
    rw [wrap64_of_fits _ (by omega) (by omega)]
    ring
  unfold Room.payoutWinner Effect.credit
  simp only [hrepo, hb0, CurrencyCoins, hw]
  split_ifs <;> simp_all

/-- C14, as stated, fails: with both users attached and a wager of 2^62 coins
the disconnect of user 2 credits user 1 with -2^63 and announces that amount;
and with a wager of 100 and no ledger attached it makes no ledger call. -/
theorem forfeit_overflow_or_no_ledger :
    ((Room.handleDisconnect { exampleRoomWith (RPSGame.new "1" (1, 2)) with BetAmount := 2 ^ 62 }
        (Hub.new false false true) (exampleClient 2 2 "rps")).2.2.1 =
      [Effect.UpdateCoins 1 (-9223372036854775808),
       Effect.send (exampleClient 1 1 "rps")
         { MsgType := "result",
           Payload := [("you", PVal.str "win"), ("reason", PVal.str "opponent_left"),
                       ("win_amount", PVal.int (-9223372036854775808)),
                       ("currency", PVal.str "coins")] }]) ∧
    ((Room.handleDisconnect { exampleRoomWith (RPSGame.new "1" (1, 2)) with UserRepo := false }
        (Hub.new false false false) (exampleClient 2 2 "rps")).2.2.1 =
      [Effect.send (exampleClient 1 1 "rps")
         { MsgType := "result",
           Payload := [("you", PVal.str "win"), ("reason", PVal.str "opponent_left"),
                       ("win_amount", PVal.int 200), ("currency", PVal.str "coins")] }]) := by
  decide

/-- C14, amended: for a session of the directory with two joined players
(both ids non-zero), exactly two workers attached, that of the disconnecting
user and that of another user `o`, wager b > 0 not yet settled with 2*b
fitting the signed 64-bit amount, and a ledger attached: `handleDisconnect`
makes exactly one ledger call, the credit of 2*b to `o` in the session
currency, sends the worker of `o` one result message with you = "win",
reason = "opponent_left", win_amount = 2*b, sets the settlement flag and
returns true; afterwards the session is not in Rooms and neither player has
a UserRoom entry. -/
theorem forfeit_pays_remaining (r : Room) (h : Hub) (c : Client) (o : Int) (cq co : Client)
    (hne : c.UserID ≠ o) (hz1 : r.game.Players.1 ≠ 0) (hz2 : r.game.Players.2 ≠ 0)
    (hlen : r.Clients.len = 2)
    (hcq : r.Clients.get? c.UserID = some cq) (hco : r.Clients.get? o = some co)
    (hb : 0 < r.BetAmount) (hfit : 2 * r.BetAmount < 2 ^ 63) (hunpaid : r.betPaid = false)
    (hrepo : r.UserRepo = true) (hhub : r.hub = true) :
    (r.handleDisconnect h c).2.2 =
      ([Effect.credit r.Currency o (2 * r.BetAmount),
        Effect.send co
          { MsgType := "result",
            Payload := [("you", PVal.str "win"), ("reason", PVal.str "opponent_left"),
                        ("win_amount", PVal.int (2 * r.BetAmount)),
                        ("currency", PVal.str r.Currency)] }], true) ∧
    (r.handleDisconnect h c).1.betPaid = true ∧
    (r.handleDisconnect h c).2.1.Rooms.get? r.ID = none ∧
    (r.handleDisconnect h c).2.1.UserRoom.get? r.game.Players.1 = none ∧
    (r.handleDisconnect h c).2.1.UserRoom.get? r.game.Players.2 = none := by
  have hdel : r.Clients.del c.UserID = [(o, co)] :=
    GoMap.del_of_pair r.Clients c.UserID o cq co hne hlen hcq hco
  have hpw := payoutWinner_eq_credit { r with Clients := [(o, co)], betPaid := true } o o
    c.UserID hb hfit hrepo
  have hw : wrap64 (r.BetAmount * 2) = 2 * r.BetAmount := by
    rw [wrap64_of_fits _ (by omega) (by omega)]
    ring
  have hrun : r.handleDisconnect h c =
      ((Room.cleanup { r with Clients := [(o, co)], betPaid := true } h).1,
       (Room.cleanup { r with Clients := [(o, co)], betPaid := true } h).2,
       [Effect.credit r.Currency o (2 * r.BetAmount),
        Effect.send co
          { MsgType := "result",
            Payload := [("you", PVal.str "win"), ("reason", PVal.str "opponent_left"),
                        ("win_amount", PVal.int (2 * r.BetAmount)),
                        ("currency", PVal.str r.Currency)] }], true) := by
    simp [Room.handleDisconnect, hdel, GoMap.len, hz2, hb, hunpaid, hpw, Room.forfeitMessage, hw]
  have hrel := cleanup_releases { r with Clients := [(o, co)], betPaid := true } h hhub
  rw [hrun]
  refine ⟨rfl, ?_, hrel.1, ?_, ?_⟩
  · simp [cleanup_betPaid]
  · exact hrel.2.1 _ hz1 (Or.inl rfl)
  · exact hrel.2.1 _ hz2 (Or.inr rfl)

/-- Witness of C14 amended: users 1 and 2 play for 100 coins each and user 2
disconnects. -/
theorem forfeit_pays_remaining_witness :
    ((exampleRoomWith (RPSGame.new "1" (1, 2))).handleDisconnect (Hub.new false false true)
        (exampleClient 2 2 "rps")).2.2 =
      ([Effect.UpdateCoins 1 200,
        Effect.send (exampleClient 1 1 "rps")
          { MsgType := "result",
            Payload := [("you", PVal.str "win"), ("reason", PVal.str "opponent_left"),
                        ("win_amount", PVal.int 200), ("currency", PVal.str "coins")] }],
       true) :=
  (forfeit_pays_remaining (exampleRoomWith (RPSGame.new "1" (1, 2))) (Hub.new false false true)
    (exampleClient 2 2 "rps") 1 (exampleClient 2 2 "rps") (exampleClient 1 1 "rps")
    (by decide) (by decide) (by decide) rfl rfl rfl (by decide) (by decide) rfl rfl rfl).1

/-- C13 at a failing input: after the session of user 1 is cancelled for lack
of an opponent, its id is gone from Rooms and user 1 from UserRoom, but the
worker of user 1 is still the waiting entry of its key. When user 1 then
opens a session for mines at 500 coins and user 2 asks for rock-paper-scissors
at 100 coins, user 2 is matched with the stale entry and attached to the
mines session with the wager of 500. -/
theorem cleanup_leaves_waiting_entry :
    hubAfterCancel.Rooms.get? "1" = none ∧
    hubAfterCancel.UserRoom.get? 1 = none ∧
    hubAfterCancel.WaitingByKey.get? (Hub.waitingKeyOf (exampleClient 1 1 "rps"))
      = some (exampleClient 1 1 "rps") ∧
    (((hubAfterCancel.AssignClient [] 20 exampleSecondWorker).1).AssignClient [] 30
        (exampleClient 2 2 "rps")).2.2
      = { room := some "2", joined := some (exampleClient 1 1 "rps") } ∧
    ((((hubAfterCancel.AssignClient [] 20 exampleSecondWorker).1).AssignClient [] 30
        (exampleClient 2 2 "rps")).1.Rooms.get? "2").map
        (fun room => (room.game.GameType, room.BetAmount, room.game.Players))
      = some ("mines", 500, (1, 2)) := by
  decide

section NodupLemmas

variable {K V : Type} [DecidableEq K]

theorem GoMap.get?_eq_none_of_not_mem_keys (m : GoMap K V) (k : K) (h : k ∉ GoMap.keys m) :
    m.get? k = none := by
  induction m with
  | nil => rfl
  | cons e t ih =>
    obtain ⟨k', v'⟩ := e
    simp only [GoMap.keys, List.map_cons, List.mem_cons, not_or] at h
    have hk : ¬ k' = k := fun hh => h.1 hh.symm
    simp only [GoMap.get?, hk, if_false]
    exact ih h.2

theorem GoMap.get?_of_mem (m : GoMap K V) (hnd : (GoMap.keys m).Nodup) (k : K) (v : V)
    (h : (k, v) ∈ m) : m.get? k = some v := by
  induction m with
  | nil => simp at h
  | cons e t ih =>
    obtain ⟨k', v'⟩ := e
    simp only [GoMap.keys, List.map_cons, List.nodup_cons] at hnd
    rcases List.mem_cons.mp h with heq | hmem
    · cases heq
      simp [GoMap.get?]
    · have hk : ¬ k' = k := by
        intro hh
        subst hh
        exact hnd.1 (List.mem_map.mpr ⟨(k', v), hmem, rfl⟩)
      simp only [GoMap.get?, hk, if_false]
      exact ih hnd.2 hmem

theorem GoMap.foldl_del_eq_filter (ks : List K) (m : GoMap K V) :
    ks.foldl (fun acc x => GoMap.del acc x) m = m.filter (fun e => decide (e.1 ∉ ks)) := by
  induction ks generalizing m with
  | nil => simp
  | cons x t ih =>
    simp only [List.foldl_cons]
    rw [ih]
    unfold GoMap.del
    rw [List.filter_filter]
    apply List.filter_congr
    intro e _
    by_cases h1 : e.1 = x <;> by_cases h2 : e.1 ∈ t <;> simp [h1, h2]

end NodupLemmas

theorem waitingKeysOfUser_mem (h : Hub) (userID : Int) (k : WaitingKey) :
    k ∈ h.waitingKeysOfUser userID ↔ ∃ w, (k, w) ∈ h.WaitingByKey ∧ w.UserID = userID := by
  simp [Hub.waitingKeysOfUser, GoMap.keys]

/-- In a well-formed waiting map the entries that go when the keys of a user
are deleted are the entries of that user. -/
theorem waiting_without_user (h : Hub) (userID : Int)
    (hnd : (GoMap.keys h.WaitingByKey).Nodup) :
    (h.waitingKeysOfUser userID).foldl (fun m k => GoMap.del m k) h.WaitingByKey
      = h.WaitingByKey.filter (fun e => decide (e.2.UserID ≠ userID)) := by
  rw [GoMap.foldl_del_eq_filter]
  apply List.filter_congr
  intro e he
  obtain ⟨k, w⟩ := e
  have hget := GoMap.get?_of_mem _ hnd k w he
  by_cases hu : w.UserID = userID
  · have : k ∈ h.waitingKeysOfUser userID := (waitingKeysOfUser_mem h userID k).mpr ⟨w, he, hu⟩
    simp [this, hu]
  · have : k ∉ h.waitingKeysOfUser userID := by
      intro hk
      obtain ⟨w', hw', hu'⟩ := (waitingKeysOfUser_mem h userID k).mp hk
      have := GoMap.get?_of_mem _ hnd k w' hw'
      rw [hget] at this
      cases this
      exact hu hu'
    simp [this, hu]

theorem clearStale_frame (h : Hub) (c : Client) (gt : String) :
    (h.clearStale c gt).Rooms = h.Rooms ∧ (h.clearStale c gt).roomSeq = h.roomSeq ∧
    (h.clearStale c gt).GameRepo = h.GameRepo ∧
    (h.clearStale c gt).GameHistoryRepo = h.GameHistoryRepo ∧
    (h.clearStale c gt).UserRepo = h.UserRepo ∧
    ∀ u, u ≠ c.UserID → (h.clearStale c gt).UserRoom.get? u = h.UserRoom.get? u := by
  unfold Hub.clearStale
  split_ifs
  · refine ⟨rfl, rfl, rfl, rfl, rfl, ?_⟩
    intro u hu
    exact GoMap.get?_del_other _ _ _ (fun hh => hu hh.symm)
  · exact ⟨rfl, rfl, rfl, rfl, rfl, fun _ _ => rfl⟩

/-- The waiting entry of another user survives the clearing of the
bookkeeping of a user. -/
theorem clearStale_keeps_other (h : Hub) (c w : Client) (gt : String) (k : WaitingKey)
    (hnd : (GoMap.keys h.WaitingByKey).Nodup)
    (hw : h.WaitingByKey.get? k = some w) (hne : w.UserID ≠ c.UserID) :
    (h.clearStale c gt).WaitingByKey.get? k = some w := by
  unfold Hub.clearStale
  split_ifs
  · show ((h.waitingKeysOfUser c.UserID).foldl (fun m k => GoMap.del m k) h.WaitingByKey).get? k
      = some w
    rw [GoMap.get?_foldl_del_not_mem _ _ _ ?_]
    · exact hw
    · intro hk
      obtain ⟨w', hw', hu'⟩ := (waitingKeysOfUser_mem h c.UserID k).mp hk
      have := GoMap.get?_of_mem _ hnd k w' hw'
      rw [hw] at this
      cases this
      exact hne hu'
  · exact hw

/-- The last block of `AssignClient` on a known game kind: the session
created, and what else changes. -/
theorem createAndWait_creates (h : Hub) (now : Int) (c : Client) (gt : String) (k : WaitingKey)
    (hgt : gt = "rps" ∨ gt = "mines") :
    (h.createAndWait now c gt k).2 = { room := some (toString (h.roomSeq + 1)), joined := none } ∧
    (h.createAndWait now c gt k).1.WaitingByKey = h.WaitingByKey.set k c ∧
    (h.createAndWait now c gt k).1.UserRoom = h.UserRoom.set c.UserID (toString (h.roomSeq + 1)) ∧
    (∃ room, (h.createAndWait now c gt k).1.Rooms.get? (toString (h.roomSeq + 1)) = some room ∧
      room.ID = toString (h.roomSeq + 1) ∧ room.Clients = [(c.UserID, c)] ∧
      room.Register = [c] ∧ room.game.Players = (c.UserID, 0) ∧ room.game.GameType = gt ∧
      room.BetAmount = c.BetAmount ∧ room.Currency = c.Currency ∧ room.createdAt = now) ∧
    ∀ rid, rid ≠ toString (h.roomSeq + 1) →
      (h.createAndWait now c gt k).1.Rooms.get? rid = h.Rooms.get? rid := by
  have hlen : (0 : Nat) < roomChanCap := by decide
  rcases hgt with hgt | hgt <;> subst hgt
  · simp only [Hub.createAndWait, Hub.newRoomWithBet, CreateGame, if_true, List.length_nil, hlen]
    refine ⟨trivial, trivial, trivial,
      ⟨_, GoMap.get?_set_self _ _ _, rfl, rfl, rfl, rfl, rfl, rfl, rfl, rfl⟩, ?_⟩
    intro rid hrid
    rw [GoMap.get?_set_other _ _ _ _ (fun hh => hrid hh.symm),
      GoMap.get?_set_other _ _ _ _ (fun hh => hrid hh.symm),
      GoMap.get?_set_other _ _ _ _ (fun hh => hrid hh.symm)]
  · have hm : ¬ ("mines" = "rps") := by decide
    simp only [Hub.createAndWait, Hub.newRoomWithBet, CreateGame, hm, if_false, if_true,
      List.length_nil, hlen]
    refine ⟨trivial, trivial, trivial,
      ⟨_, GoMap.get?_set_self _ _ _, rfl, rfl, rfl, rfl, rfl, rfl, rfl, rfl⟩, ?_⟩
    intro rid hrid
    rw [GoMap.get?_set_other _ _ _ _ (fun hh => hrid hh.symm),
      GoMap.get?_set_other _ _ _ _ (fun hh => hrid hh.symm),
      GoMap.get?_set_other _ _ _ _ (fun hh => hrid hh.symm)]

/-- C18: in a directory (a well-formed waiting map) where the waiting entry
for the key of a new worker c is a worker w of another user whose outbound
queue is full, `AssignClient` on c does not join: it returns the new session,
numbered roomSeq + 1, pushes nothing, stores that session with c as its only
attached worker and only registered worker, players (c.UserID, 0), the game
kind, wager and currency of c, makes c the waiting entry of the key in place
of w, maps the user of c to the new session, and leaves every session stored
under another id and the `UserRoom` entry of every other user as they were. -/
theorem dead_waiting_is_replaced (h : Hub) (sends : Sends) (now : Int) (c w : Client)
    (hnd : (GoMap.keys h.WaitingByKey).Nodup)
    (hw : h.WaitingByKey.get? (Hub.waitingKeyOf c) = some w)
    (hne : w.UserID ≠ c.UserID)
    (hfull : trySend sends w pingMsg = none) :
    (h.AssignClient sends now c).2.2
      = { room := some (toString (h.roomSeq + 1)), joined := none } ∧
    (h.AssignClient sends now c).2.1 = sends ∧
    (h.AssignClient sends now c).1.WaitingByKey.get? (Hub.waitingKeyOf c) = some c ∧
    (h.AssignClient sends now c).1.UserRoom.get? c.UserID = some (toString (h.roomSeq + 1)) ∧
    (∃ room, (h.AssignClient sends now c).1.Rooms.get? (toString (h.roomSeq + 1)) = some room ∧
      room.ID = toString (h.roomSeq + 1) ∧ room.Clients = [(c.UserID, c)] ∧
      room.Register = [c] ∧ room.game.Players = (c.UserID, 0) ∧
      room.game.GameType = Hub.gameTypeOf c.GameType ∧
      room.BetAmount = c.BetAmount ∧ room.Currency = c.Currency ∧ room.createdAt = now) ∧
    (∀ rid, rid ≠ toString (h.roomSeq + 1) →
      (h.AssignClient sends now c).1.Rooms.get? rid = h.Rooms.get? rid) ∧
    (∀ u, u ≠ c.UserID →
      (h.AssignClient sends now c).1.UserRoom.get? u = h.UserRoom.get? u) := by
  have hkeep := clearStale_keeps_other h c w (Hub.gameTypeOf c.GameType) (Hub.waitingKeyOf c)
    hnd hw hne
  obtain ⟨hrooms, hseq, -, -, -, huser⟩ := clearStale_frame h c (Hub.gameTypeOf c.GameType)
  have hcw := createAndWait_creates
    { h.clearStale c (Hub.gameTypeOf c.GameType) with
      WaitingByKey := (h.clearStale c (Hub.gameTypeOf c.GameType)).WaitingByKey.del
        (Hub.waitingKeyOf c) }
    now c (Hub.gameTypeOf c.GameType) (Hub.waitingKeyOf c) (gameTypeOf_cases c.GameType)
  have hout : h.AssignClient sends now c =
      ((({ h.clearStale c (Hub.gameTypeOf c.GameType) with
          WaitingByKey := (h.clearStale c (Hub.gameTypeOf c.GameType)).WaitingByKey.del
            (Hub.waitingKeyOf c) } : Hub).createAndWait now c (Hub.gameTypeOf c.GameType)
          (Hub.waitingKeyOf c)).1, sends,
       (({ h.clearStale c (Hub.gameTypeOf c.GameType) with
          WaitingByKey := (h.clearStale c (Hub.gameTypeOf c.GameType)).WaitingByKey.del
            (Hub.waitingKeyOf c) } : Hub).createAndWait now c (Hub.gameTypeOf c.GameType)
          (Hub.waitingKeyOf c)).2) := by
    unfold Hub.waitingKeyOf at hkeep ⊢
    simp only [Hub.AssignClient, hkeep, hne, ne_eq, not_false_eq_true, if_true, hfull]
  rw [hout, ← hseq]
  dsimp only at hcw ⊢
  obtain ⟨h1, h2, h3, h4, h5⟩ := hcw
  refine ⟨h1, rfl, ?_, ?_, h4, ?_, ?_⟩
  · rw [h2]
    exact GoMap.get?_set_self _ _ _
  · rw [h3]
    exact GoMap.get?_set_self _ _ _
  · intro rid hrid
    rw [h5 rid hrid, hrooms]
  · intro u hu
    rw [h3, GoMap.get?_set_other _ _ _ _ (fun hh => hu hh.symm)]
    exact huser u hu

/-- Witness of C18: user 1 waits for rock-paper-scissors at 100 coins with a
full outbound queue when user 2 asks for the same; user 2 gets session "2". -/
theorem dead_waiting_is_replaced_witness :
    (hubOneWaiting.AssignClient fullSends 5 (exampleClient 2 2 "rps")).2.2
      = { room := some "2", joined := none } ∧
    (hubOneWaiting.AssignClient fullSends 5 (exampleClient 2 2 "rps")).1.WaitingByKey.get?
        (Hub.waitingKeyOf (exampleClient 2 2 "rps")) = some (exampleClient 2 2 "rps") :=
  have hh := dead_waiting_is_replaced hubOneWaiting fullSends 5 (exampleClient 2 2 "rps")
    (exampleClient 1 1 "rps") (by decide) (by decide) (by decide)
    (by simp [trySend, fullSends, GoMap.getD, GoMap.get?, exampleClient])
  ⟨hh.1, hh.2.2.1⟩

theorem GoMap.keys_set_of_get? {K V : Type} [DecidableEq K] (m : GoMap K V) (k : K) (v v2 : V)
    (hk : m.get? k = some v) : GoMap.keys (m.set k v2) = GoMap.keys m := by
  induction m with
  | nil => simp [GoMap.get?] at hk
  | cons e t ih =>
    obtain ⟨k', v'⟩ := e
    by_cases hh : k' = k
    · simp [GoMap.set, GoMap.keys, hh]
    · simp only [GoMap.get?, hh, if_false] at hk
      have := ih hk
      simp only [GoMap.keys] at this
      simp [GoMap.set, GoMap.keys, hh, this]

/-- What `OnDisconnect` does to the directory, by the case it runs into. -/
theorem OnDisconnect_cases (h : Hub) (c : Client) :
    (h.OnDisconnect c).WaitingByKey =
      (h.waitingKeysOfUser c.UserID).foldl (fun m k => GoMap.del m k) h.WaitingByKey ∧
    (h.OnDisconnect c).UserRoom = h.UserRoom ∧
    (h.OnDisconnect c).roomSeq = h.roomSeq ∧
    ((∃ rid room, h.UserRoom.get? c.UserID = some rid ∧ h.Rooms.get? rid = some room ∧
        room.Disconnect.length < roomChanCap ∧
        (h.OnDisconnect c).Rooms =
          h.Rooms.set rid { room with Disconnect := room.Disconnect ++ [c] }) ∨
     ((∀ rid room, h.UserRoom.get? c.UserID = some rid → h.Rooms.get? rid = some room →
        ¬ room.Disconnect.length < roomChanCap) ∧ (h.OnDisconnect c).Rooms = h.Rooms)) := by
  unfold Hub.OnDisconnect
  dsimp only
  cases hu : h.UserRoom.get? c.UserID with
  | none =>
    refine ⟨rfl, rfl, rfl, Or.inr ⟨?_, rfl⟩⟩
    intro rid room h1
    cases h1
  | some rid =>
    dsimp only
    cases hr : h.Rooms.get? rid with
    | none =>
      refine ⟨rfl, rfl, rfl, Or.inr ⟨?_, rfl⟩⟩
      intro rid2 room h1 h2
      cases h1
      rw [hr] at h2
      cases h2
    | some room =>
      dsimp only
      by_cases hq : room.Disconnect.length < roomChanCap
      · rw [if_pos hq]
        exact ⟨rfl, rfl, rfl, Or.inl ⟨rid, room, rfl, hr, hq, rfl⟩⟩
      · rw [if_neg hq]
        refine ⟨rfl, rfl, rfl, Or.inr ⟨?_, rfl⟩⟩
        intro rid2 room2 h1 h2
        cases h1
        rw [hr] at h2
        cases h2
        exact hq

/-- C19: for every directory (a well-formed waiting map) and worker c, after
`OnDisconnect` the waiting entries are those of before that belong to other
users, so none belongs to the user of c; `UserRoom` and the session counter
are as before; when `UserRoom` maps the user to a session stored in `Rooms`
whose disconnect queue has room, c is appended to that queue, and in every
other case (no entry, no such session, queue full) `Rooms` is as before; and
in both cases `Rooms` holds the same ids, each naming the same session up to
its disconnect queue. -/
theorem disconnect_clears_and_forwards (h : Hub) (c : Client)
    (hnd : (GoMap.keys h.WaitingByKey).Nodup) :
    (h.OnDisconnect c).WaitingByKey =
      h.WaitingByKey.filter (fun e => decide (e.2.UserID ≠ c.UserID)) ∧
    (∀ e ∈ (h.OnDisconnect c).WaitingByKey, e.2.UserID ≠ c.UserID) ∧
    (h.OnDisconnect c).UserRoom = h.UserRoom ∧
    (h.OnDisconnect c).roomSeq = h.roomSeq ∧
    (∀ rid room, h.UserRoom.get? c.UserID = some rid → h.Rooms.get? rid = some room →
      room.Disconnect.length < roomChanCap →
      (h.OnDisconnect c).Rooms =
        h.Rooms.set rid { room with Disconnect := room.Disconnect ++ [c] }) ∧
    ((∀ rid room, h.UserRoom.get? c.UserID = some rid → h.Rooms.get? rid = some room →
        ¬ room.Disconnect.length < roomChanCap) → (h.OnDisconnect c).Rooms = h.Rooms) ∧
    GoMap.keys (h.OnDisconnect c).Rooms = GoMap.keys h.Rooms ∧
    (∀ rid, ((h.OnDisconnect c).Rooms.get? rid).map (fun r => { r with Disconnect := [] })
      = (h.Rooms.get? rid).map (fun r => { r with Disconnect := [] })) := by
  obtain ⟨hw, hu, hs, hr⟩ := OnDisconnect_cases h c
  have hfilter := waiting_without_user h c.UserID hnd
  refine ⟨hw.trans hfilter, ?_, hu, hs, ?_, ?_, ?_, ?_⟩
  · intro e he
    rw [hw, hfilter] at he
    simpa using (List.mem_filter.mp he).2
  · intro rid room h1 h2 h3
    rcases hr with ⟨rid2, room2, g1, g2, -, g4⟩ | ⟨g1, -⟩
    · rw [h1] at g1
      cases g1
      rw [h2] at g2
      cases g2
      exact g4
    · exact absurd h3 (g1 rid room h1 h2)
  · intro hall
    rcases hr with ⟨rid2, room2, g1, g2, g3, -⟩ | ⟨-, g2⟩
    · exact absurd g3 (hall rid2 room2 g1 g2)
    · exact g2
  · rcases hr with ⟨rid2, room2, -, g2, -, g4⟩ | ⟨-, g2⟩
    · rw [g4]
      exact GoMap.keys_set_of_get? _ _ _ _ g2
    · rw [g2]
  · intro rid
    rcases hr with ⟨rid2, room2, -, g2, -, g4⟩ | ⟨-, g2⟩
    · rw [g4]
      by_cases hrid : rid2 = rid
      · subst hrid
        rw [GoMap.get?_set_self, g2]
        rfl
      · rw [GoMap.get?_set_other _ _ _ _ hrid]
    · rw [g2]

/-- Witness of C19: user 1, waiting alone in session "1", disconnects. -/
theorem disconnect_clears_and_forwards_witness :
    (hubOneWaiting.OnDisconnect (exampleClient 1 1 "rps")).WaitingByKey =
      hubOneWaiting.WaitingByKey.filter (fun e => decide (e.2.UserID ≠ (1 : Int))) ∧
    (hubOneWaiting.OnDisconnect (exampleClient 1 1 "rps")).UserRoom = hubOneWaiting.UserRoom :=
  have hh := disconnect_clears_and_forwards hubOneWaiting (exampleClient 1 1 "rps") (by decide)
  ⟨hh.1, hh.2.2.1⟩

/-- The sweep as a fold over any list of entries: the sessions and the
`UserRoom` entries that go are those of the ids that test positive. -/
theorem staleRoomsFold (now : Int) (l : GoMap String Room) (acc : Hub) :
    l.foldl
      (fun acc e =>
        if e.2.Clients.len = 0 ∧ now - e.2.createdAt > 3600 then
          { acc with
            Rooms := acc.Rooms.del e.1,
            UserRoom := acc.UserRoom.filter (fun u => decide (u.2 ≠ e.1)) }
        else acc)
      acc
    = { acc with
        Rooms := acc.Rooms.filter (fun e => decide (e.1 ∉ staleIds now l)),
        UserRoom := acc.UserRoom.filter (fun u => decide (u.2 ∉ staleIds now l)) } := by
  induction l generalizing acc with
  | nil => simp [staleIds, GoMap.keys]
  | cons x t ih =>
    simp only [List.foldl_cons]
    rw [ih]
    by_cases hx : x.2.Clients.len = 0 ∧ now - x.2.createdAt > 3600
    · have hs : staleIds now (x :: t) = x.1 :: staleIds now t := by
        simp [staleIds, GoMap.keys, List.filter_cons, Room.oldAndEmpty, hx]
      rw [if_pos hx, hs]
      simp only [GoMap.del, List.filter_filter]
      congr 1
      · apply List.filter_congr
        intro e _
        by_cases h1 : e.1 = x.1 <;> by_cases h2 : e.1 ∈ staleIds now t <;> simp [h1, h2]
      · apply List.filter_congr
        intro e _
        by_cases h1 : e.2 = x.1 <;> by_cases h2 : e.2 ∈ staleIds now t <;> simp [h1, h2]
    · have hs : staleIds now (x :: t) = staleIds now t := by
        simp [staleIds, GoMap.keys, List.filter_cons, Room.oldAndEmpty, hx]
      rw [if_neg hx, hs]

theorem staleIds_mem (now : Int) (rooms : GoMap String Room)
    (hnd : (GoMap.keys rooms).Nodup) (rid : String) :
    rid ∈ staleIds now rooms ↔ ∃ room, rooms.get? rid = some room ∧ room.oldAndEmpty now := by
  constructor
  · intro h
    simp only [staleIds, GoMap.keys, List.mem_map, List.mem_filter, decide_eq_true_eq] at h
    obtain ⟨⟨k, room⟩, ⟨hmem, hst⟩, hk⟩ := h
    cases hk
    exact ⟨room, GoMap.get?_of_mem _ hnd _ _ hmem, hst⟩
  · rintro ⟨room, hget, hst⟩
    simp only [staleIds, GoMap.keys, List.mem_map, List.mem_filter, decide_eq_true_eq]
    exact ⟨(rid, room), ⟨GoMap.get?_mem _ _ _ hget, hst⟩, rfl⟩

/-- C20, as worded, fails: session "1" is created at second 0 with the worker
of user 1 attached (`hubOneWaiting`); that worker is then detached, a step of
the session that leaves it stored with no worker (`hubOneIdle`); the sweep that
runs next at second 3601 removes the session and the `UserRoom` entry of user
1, however short the time since the detachment: the test reads the creation
time, not the time the session became empty. -/
theorem sweep_removes_recently_emptied :
    (hubOneWaiting.Rooms.get? "1").map (fun r => (r.createdAt, r.Clients.len)) = some (0, 1) ∧
    Hub.Step hubOneWaiting hubOneIdle ∧
    (hubOneIdle.Rooms.get? "1").map (fun r => (r.createdAt, r.Clients.len)) = some (0, 0) ∧
    hubOneIdle.UserRoom.get? 1 = some "1" ∧
    (hubOneIdle.cleanupStaleRooms 3601).Rooms.get? "1" = none ∧
    (hubOneIdle.cleanupStaleRooms 3601).UserRoom.get? 1 = none :=
  ⟨by decide, Hub.Step.roomRun hubOneWaiting hubOneIdle.Rooms, by decide, by decide, by decide,
    by decide⟩

/-- C20, amended: for every directory (a well-formed session map) and time
of the sweep, `cleanupStaleRooms` removes exactly the sessions that have no
worker attached at that time and were created more than an hour before it,
together with every `UserRoom` entry that names one of them, and leaves every
other session and `UserRoom` entry, the waiting entries and the session
counter unchanged. -/
theorem sweep_removes_old_empty (h : Hub) (now : Int) (hnd : (GoMap.keys h.Rooms).Nodup) :
    (h.cleanupStaleRooms now).Rooms
      = h.Rooms.filter (fun e => decide (¬ e.2.oldAndEmpty now)) ∧
    (h.cleanupStaleRooms now).UserRoom
      = h.UserRoom.filter
          (fun u =>
            match h.Rooms.get? u.2 with
            | some room => decide (¬ room.oldAndEmpty now)
            | none => true) ∧
    (h.cleanupStaleRooms now).WaitingByKey = h.WaitingByKey ∧
    (h.cleanupStaleRooms now).WaitingByGame = h.WaitingByGame ∧
    (h.cleanupStaleRooms now).roomSeq = h.roomSeq := by
  unfold Hub.cleanupStaleRooms
  rw [staleRoomsFold]
  refine ⟨?_, ?_, rfl, rfl, rfl⟩
  · apply List.filter_congr
    intro e he
    obtain ⟨k, room⟩ := e
    have hget := GoMap.get?_of_mem _ hnd k room he
    have hiff := staleIds_mem now h.Rooms hnd k
    by_cases hst : room.oldAndEmpty now
    · have : k ∈ staleIds now h.Rooms := hiff.mpr ⟨room, hget, hst⟩
      simp [this, hst]
    · have : k ∉ staleIds now h.Rooms := by
        intro hk
        obtain ⟨room2, h2, hst2⟩ := hiff.mp hk
        rw [hget] at h2
        cases h2
        exact hst hst2
      simp [this, hst]
  · apply List.filter_congr
    intro u _
    have hiff := staleIds_mem now h.Rooms hnd u.2
    cases hget : h.Rooms.get? u.2 with
    | none =>
      have : u.2 ∉ staleIds now h.Rooms := by
        intro hk
        obtain ⟨room2, h2, -⟩ := hiff.mp hk
        rw [hget] at h2
        cases h2
      simp [this]
    | some room =>
      by_cases hst : room.oldAndEmpty now
      · have : u.2 ∈ staleIds now h.Rooms := hiff.mpr ⟨room, hget, hst⟩
        simp [this, hst]
      · have : u.2 ∉ staleIds now h.Rooms := by
          intro hk
          obtain ⟨room2, h2, hst2⟩ := hiff.mp hk
          rw [hget] at h2
          cases h2
          exact hst hst2
        simp [this, hst]

/-- Witness of C20 amended: the sweep at second 3601 over the directory whose
only session, created at second 0, has no worker attached. -/
theorem sweep_removes_old_empty_witness :
    (hubOneIdle.cleanupStaleRooms 3601).Rooms
      = hubOneIdle.Rooms.filter (fun e => decide (¬ e.2.oldAndEmpty 3601)) ∧
    (hubOneIdle.cleanupStaleRooms 3601).WaitingByKey = hubOneIdle.WaitingByKey :=
  have hh := sweep_removes_old_empty hubOneIdle 3601 (by decide)
  ⟨hh.1, hh.2.2.1⟩

/-- A second `CheckResult` of rock-paper-scissors after the one that gave a
result: the same winner and reason, one more round counted. -/
theorem rps_recheck (g : RPSGame) (r : GameResult) (h : g.CheckResult.1 = some r) :
    g.CheckResult.2.result = some r ∧
    ∃ r', g.CheckResult.2.CheckResult.1 = some r' ∧ r'.WinnerID = r.WinnerID ∧
      r'.Reason = r.Reason ∧ g.CheckResult.2.CheckResult.2.round = g.CheckResult.2.round + 1 := by
  by_cases hlen : g.moves.len < 2
  · simp [RPSGame.CheckResult, hlen] at h
  · by_cases hw : RPSGame.decideRound (g.moves.getD g.players.1 "") (g.moves.getD g.players.2 "")
        = "win"
    · simp [RPSGame.CheckResult, hlen, hw] at h ⊢
      rw [← h]
      simp
    · by_cases hl : RPSGame.decideRound (g.moves.getD g.players.1 "")
          (g.moves.getD g.players.2 "") = "lose"
      · simp [RPSGame.CheckResult, hlen, hw, hl] at h ⊢
        rw [← h]
        simp
      · by_cases h5 : g.round + 1 ≥ 5
        · have h6 : g.round + 1 + 1 ≥ 5 := by omega
          simp [RPSGame.CheckResult, hlen, hw, hl, h5, h6] at h ⊢
          rw [← h]
          simp
        · simp [RPSGame.CheckResult, hlen, hw, hl, h5] at h

theorem MinesGame.hitAt_congr (g g2 : MinesGame) (hb : g2.boards = g.boards) (p cell : Int) :
    g2.hitAt p cell = g.hitAt p cell := by
  simp [MinesGame.hitAt, hb]

/-- What one `CheckResult` of mines does once two moves are recorded and both
board lookups are defined. -/
theorem mines_check_facts (g : MinesGame) (hit1 hit2 : Bool) (hlen : ¬ g.moves.len < 2)
    (hh1 : g.hitAt g.players.2 (g.moves.getD g.players.1 0) = some hit1)
    (hh2 : g.hitAt g.players.1 (g.moves.getD g.players.2 0) = some hit2) :
    ∃ res g', g.CheckResult = some (res, g') ∧ g'.round = g.round + 1 ∧
      g'.boards = g.boards ∧ g'.players = g.players ∧
      (res.map (fun r => (r.WinnerID, r.Reason)) =
        if hit1 = true ∧ hit2 = false then some (some g.players.2, "opponent_hit_mine")
        else if hit2 = true ∧ hit1 = false then some (some g.players.1, "opponent_hit_mine")
        else if 5 ≤ g.round + 1 then some (none, "draw") else none) ∧
      (res.isSome = true → g'.moves = g.moves) ∧
      (res.isSome = true → g'.result = res) ∧
      (g.players.1 ≠ g.players.2 →
        (g'.GetMoveHistory g.players.1).length = (g.GetMoveHistory g.players.1).length + 1 ∧
        (g'.GetMoveHistory g.players.2).length = (g.GetMoveHistory g.players.2).length + 1) := by
  have hh1' : MinesGame.hitAt { g with round := g.round + 1 } g.players.2
      (g.moves.getD g.players.1 0) = some hit1 := hh1
  have hh2' : MinesGame.hitAt { g with round := g.round + 1 } g.players.1
      (g.moves.getD g.players.2 0) = some hit2 := hh2
  have hist : ∀ (m1 m2 : MoveResult), g.players.1 ≠ g.players.2 →
      (((g.moveHistory.set g.players.1 (g.moveHistory.getD g.players.1 [] ++ [m1])).set g.players.2
          ((g.moveHistory.set g.players.1 (g.moveHistory.getD g.players.1 [] ++ [m1])).getD
            g.players.2 [] ++ [m2])).getD g.players.1 []).length
        = (g.moveHistory.getD g.players.1 []).length + 1 ∧
      (((g.moveHistory.set g.players.1 (g.moveHistory.getD g.players.1 [] ++ [m1])).set g.players.2
          ((g.moveHistory.set g.players.1 (g.moveHistory.getD g.players.1 [] ++ [m1])).getD
            g.players.2 [] ++ [m2])).getD g.players.2 []).length
        = (g.moveHistory.getD g.players.2 []).length + 1 := by
    intro m1 m2 hne
    have hne' : g.players.2 ≠ g.players.1 := fun hh => hne hh.symm
    constructor
    · simp only [GoMap.getD]
      rw [GoMap.get?_set_other _ _ _ _ hne', GoMap.get?_set_self]
      simp
    · simp only [GoMap.getD]
      rw [GoMap.get?_set_self, GoMap.get?_set_other _ _ _ _ hne]
      simp
  by_cases hr : 5 ≤ g.round + 1 <;> cases hit1 <;> cases hit2 <;>
    simp only [MinesGame.CheckResult, hlen, hh1', hh2', hr, if_false,
      if_true, Bool.false_eq_true, false_and, and_false, not_false_eq_true,
      and_self, not_true_eq_false, ge_iff_le] <;>
    refine ⟨_, _, rfl, rfl, rfl, rfl, ?_, ?_, ?_, ?_⟩ <;>
    first
      | (intro hne; exact hist _ _ hne)
      | simp

/-- A second `CheckResult` of mines after the one that gave a result: the same
winner and reason, one more round counted, one more move in each history. -/
theorem mines_recheck (g g1 : MinesGame) (r : GameResult)
    (h : g.CheckResult = some (some r, g1)) :
    g1.result = some r ∧
    ∃ r' g2, g1.CheckResult = some (some r', g2) ∧ r'.WinnerID = r.WinnerID ∧
      r'.Reason = r.Reason ∧ g2.round = g1.round + 1 ∧
      (g1.players.1 ≠ g1.players.2 →
        (g2.GetMoveHistory g1.players.1).length = (g1.GetMoveHistory g1.players.1).length + 1 ∧
        (g2.GetMoveHistory g1.players.2).length = (g1.GetMoveHistory g1.players.2).length + 1) := by
  by_cases hlen : g.moves.len < 2
  · simp [MinesGame.CheckResult, hlen] at h
  · cases hh1 : g.hitAt g.players.2 (g.moves.getD g.players.1 0) with
    | none =>
      have hh1' : MinesGame.hitAt { g with round := g.round + 1 } g.players.2
          (g.moves.getD g.players.1 0) = none := hh1
      simp [MinesGame.CheckResult, hlen, hh1'] at h
    | some hit1 =>
      cases hh2 : g.hitAt g.players.1 (g.moves.getD g.players.2 0) with
      | none =>
        have hh1' : MinesGame.hitAt { g with round := g.round + 1 } g.players.2
            (g.moves.getD g.players.1 0) = some hit1 := hh1
        have hh2' : MinesGame.hitAt { g with round := g.round + 1 } g.players.1
            (g.moves.getD g.players.2 0) = none := hh2
        simp [MinesGame.CheckResult, hlen, hh1', hh2'] at h
      | some hit2 =>
        obtain ⟨res, g', e, hround, hboards, hplayers, hverdict, hmoves, hres, -⟩ :=
          mines_check_facts g hit1 hit2 hlen hh1 hh2
        rw [e] at h
        cases h
        have hm : g1.moves = g.moves := hmoves rfl
        have hlen1 : ¬ g1.moves.len < 2 := by rw [hm]; exact hlen
        have k1 : g1.hitAt g1.players.2 (g1.moves.getD g1.players.1 0) = some hit1 := by
          rw [hm, hplayers, MinesGame.hitAt_congr g g1 hboards]
          exact hh1
        have k2 : g1.hitAt g1.players.1 (g1.moves.getD g1.players.2 0) = some hit2 := by
          rw [hm, hplayers, MinesGame.hitAt_congr g g1 hboards]
          exact hh2
        obtain ⟨res2, g2, e2, hround2, -, -, hverdict2, -, -, hhist2⟩ :=
          mines_check_facts g1 hit1 hit2 hlen1 k1 k2
        rw [hplayers, hround] at hverdict2
        have hsame : res2.map (fun r => (r.WinnerID, r.Reason))
            = (some r).map (fun r => (r.WinnerID, r.Reason)) := by
          rw [hverdict, hverdict2]
          by_cases c1 : hit1 = true ∧ hit2 = false
          · simp only [c1, and_self, if_true]
          · by_cases c2 : hit2 = true ∧ hit1 = false
            · simp only [c1, c2, and_self, if_true, if_false]
            · by_cases c3 : 5 ≤ g.round + 1
              · have c4 : 5 ≤ g.round + 1 + 1 := by omega
                simp only [c1, c2, c3, c4, if_true, if_false]
              · rw [if_neg c1, if_neg c2, if_neg c3] at hverdict
                simp at hverdict
        cases res2 with
        | none => simp at hsame
        | some r2 =>
          simp only [Option.map_some', Option.some.injEq, Prod.mk.injEq] at hsame
          exact ⟨hres rfl, r2, g2, e2, hsame.1, hsame.2, hround2, hhist2⟩

/-- C27, as worded, fails for both variants: right after the `CheckResult` that
finished the example game (rock against scissors; in mines user 1 on a mine,
user 2 on a free cell) the game is finished with one round counted, and the
further `CheckResult` counts a second round; in mines each history grows from
one move to two. -/
theorem recheck_changes_round_and_history :
    exampleRpsRound.CheckResult.2.IsFinished = true ∧
    exampleRpsRound.CheckResult.2.GetRound = 1 ∧
    exampleRpsRound.CheckResult.2.CheckResult.2.GetRound = 2 ∧
    (exampleMinesRound.CheckResult.bind (fun a => a.2.CheckResult.map
        (fun b => (a.2.IsFinished, a.2.GetRound, (a.2.GetMoveHistory 1).length, b.2.GetRound,
          (b.2.GetMoveHistory 1).length, (b.2.GetMoveHistory 2).length))))
      = some (true, 1, 1, 2, 2, 2) := by
  decide

/-- C27, amended: when a `CheckResult` returns a result, so that the game is
finished, the further `CheckResult` on the state it left, which is the one
`saveResult` makes, returns a result with the same winner and the same reason
and counts one more round: the round counter is one higher, and in mines
between two distinct players the history of each player is one move longer. -/
theorem recheck_same_verdict_one_more_round (gm g1 : Game) (r : GameResult)
    (hfin : gm.CheckResult = some (some r, g1)) :
    g1.IsFinished = true ∧
    ∃ r' g2, g1.CheckResult = some (some r', g2) ∧ r'.WinnerID = r.WinnerID ∧
      r'.Reason = r.Reason ∧ g2.GetRound = g1.GetRound + 1 ∧
      (∀ room : Room, room.game = g1 → (room.saveResult).map (fun out => out.1.game) = some g2) ∧
      (∀ m, g1 = Game.mines m → m.players.1 ≠ m.players.2 →
        g2.historyLen m.players.1 = g1.historyLen m.players.1 + 1 ∧
        g2.historyLen m.players.2 = g1.historyLen m.players.2 + 1) := by
  have hsave : ∀ (g2 : Game) (r' : GameResult), g1.CheckResult = some (some r', g2) →
      ∀ room : Room, room.game = g1 →
        (room.saveResult).map (fun out => out.1.game) = some g2 := by
    intro g2 r' e room hroom
    simp only [Room.saveResult, hroom, e]
    split_ifs <;> rfl
  cases gm with
  | rps g =>
    simp only [Game.CheckResult, Option.some.injEq, Prod.mk.injEq] at hfin
    obtain ⟨h1, h2⟩ := hfin
    obtain ⟨hres, r', e1, hw, hreason, hround⟩ := rps_recheck g r h1
    subst h2
    have e : (Game.rps g.CheckResult.2).CheckResult
        = some (some r', Game.rps g.CheckResult.2.CheckResult.2) := by
      simp only [Game.CheckResult, e1]
    refine ⟨?_, r', _, e, hw, hreason, hround, hsave _ _ e, ?_⟩
    · simp [Game.IsFinished, RPSGame.IsFinished, hres]
    · intro m hm
      cases hm
  | mines g =>
    cases hc : g.CheckResult with
    | none => simp [Game.CheckResult, hc] at hfin
    | some out =>
      obtain ⟨res, g'⟩ := out
      simp only [Game.CheckResult, hc, Option.some.injEq, Prod.mk.injEq] at hfin
      obtain ⟨h1, h2⟩ := hfin
      subst h1
      subst h2
      obtain ⟨hres, r', g2, e1, hw, hreason, hround, hhist⟩ := mines_recheck g g' r hc
      have e : (Game.mines g').CheckResult = some (some r', Game.mines g2) := by
        simp only [Game.CheckResult, e1]
      refine ⟨?_, r', _, e, hw, hreason, hround, hsave _ _ e, ?_⟩
      · simp [Game.IsFinished, MinesGame.IsFinished, hres]
      · intro m hm hne
        cases hm
        exact hhist hne

/-- Witness of C27 amended: the example rock-paper-scissors game, finished by
rock against scissors. -/
theorem recheck_same_verdict_one_more_round_witness :
    (Game.rps exampleRpsRound.CheckResult.2).IsFinished = true :=
  (recheck_same_verdict_one_more_round (Game.rps exampleRpsRound)
    (Game.rps exampleRpsRound.CheckResult.2)
    { WinnerID := some 1, Reason := "game_complete",
      Details := [("moves", Detail.moves [(1, "rock"), (2, "scissors")]),
                  ("yourMove", Detail.str "rock"), ("opponentMove", Detail.str "scissors")] }
    (by decide)).1

/-- C30 at a failing input: users 1 and 2 play in session "1", and user 1 has
since opened session "2", to which `UserRoom` maps user 1. The cleanup of
session "1" deletes that entry, although it maps user 1 to session "2", which
stays in Rooms; the other parts of the directory are as the claim says. -/
theorem cleanup_drops_mapping_to_other_session :
    hubRejoined.UserRoom.get? 1 = some "2" ∧
    (hubRejoined.Rooms.get? "1").map (fun room => room.game.Players) = some (1, 2) ∧
    (hubRejoined.Rooms.get? "1").map
        (fun room =>
          ((room.cleanup hubRejoined).2.UserRoom.get? 1,
           (room.cleanup hubRejoined).2.Rooms.get? "1",
           decide ((room.cleanup hubRejoined).2.Rooms.get? "2" = hubRejoined.Rooms.get? "2"),
           ((room.cleanup hubRejoined).2.Rooms.get? "2").isSome,
           decide ((room.cleanup hubRejoined).2.WaitingByKey = hubRejoined.WaitingByKey)))
      = some (none, none, true, true, true) := by
  decide

/-- C29, as worded, fails: users 1 and 2 are attached to a session with 100
coins at stake each, user 1 by the worker on connection 1. The disconnect of
another worker of user 1, on connection 9, detaches the attached worker, sets
the settlement flag, credits user 2 with 200 coins, sends user 2 the forfeit
notice and ends the session. -/
theorem old_worker_disconnect_ends_session :
    (exampleRoomWith (RPSGame.new "1" (1, 2))).Clients.get? 1 = some (exampleClient 1 1 "rps") ∧
    exampleClient 1 1 "rps" ≠ exampleOldWorker ∧
    ((exampleRoomWith (RPSGame.new "1" (1, 2))).handleDisconnect (Hub.new false false true)
        exampleOldWorker).1.Clients = [(2, exampleClient 2 2 "rps")] ∧
    ((exampleRoomWith (RPSGame.new "1" (1, 2))).handleDisconnect (Hub.new false false true)
        exampleOldWorker).1.betPaid = true ∧
    ((exampleRoomWith (RPSGame.new "1" (1, 2))).handleDisconnect (Hub.new false false true)
        exampleOldWorker).2.2 =
      ([Effect.UpdateCoins 2 200,
        Effect.send (exampleClient 2 2 "rps")
          (Room.forfeitMessage (exampleRoomWith (RPSGame.new "1" (1, 2))))], true) := by
  decide

theorem handleDisconnect_Clients (r : Room) (h : Hub) (c : Client) :
    (r.handleDisconnect h c).1.Clients = r.Clients.del c.UserID := by
  cases hrem : (r.Clients.del c.UserID).head? <;>
    by_cases hlen : (r.Clients.del c.UserID).len = 1 <;>
    by_cases hz : (r.Clients.del c.UserID).len = 0 <;>
    by_cases hpaid : r.betPaid = true <;>
    by_cases hb : (0 : Int) < r.BetAmount <;>
    by_cases htwo : r.game.Players.2 = 0 <;>
    simp [Room.handleDisconnect, hrem, hlen, hz, hpaid, hb, htwo, cleanup_Clients]

/-- C29, amended: `handleDisconnect` reads nothing of the worker but its user
id, so for two workers of the same user it gives the same session, directory,
effects and return value: the disconnect of a worker that is not the attached
one does what the disconnect of the attached worker of that user does. And
`OnDisconnect` chooses the session by the user id: when `UserRoom` maps the
user to a stored session whose disconnect queue has room, the worker is
appended to that queue, whichever worker of the user is attached there. -/
theorem disconnect_goes_by_user_id (r : Room) (h : Hub) (c c2 : Client)
    (hu : c.UserID = c2.UserID) :
    r.handleDisconnect h c = r.handleDisconnect h c2 ∧
    (r.handleDisconnect h c).1.Clients.get? c2.UserID = none ∧
    (∀ rid room, h.UserRoom.get? c2.UserID = some rid → h.Rooms.get? rid = some room →
      room.Disconnect.length < roomChanCap →
      (h.OnDisconnect c).Rooms.get? rid
        = some { room with Disconnect := room.Disconnect ++ [c] }) := by
  refine ⟨?_, ?_, ?_⟩
  · simp only [Room.handleDisconnect, hu]
  · rw [handleDisconnect_Clients, hu]
    exact GoMap.get?_del_self _ _
  · intro rid room h1 h2 h3
    obtain ⟨-, -, -, hr⟩ := OnDisconnect_cases h c
    rw [← hu] at h1
    rcases hr with ⟨rid2, room2, g1, g2, -, g4⟩ | ⟨g1, -⟩
    · rw [h1] at g1
      cases g1
      rw [h2] at g2
      cases g2
      rw [g4]
      exact GoMap.get?_set_self _ _ _
    · exact absurd h3 (g1 rid room h1 h2)

/-- Witness of C29 amended: the old worker of user 1 and the attached one. -/
theorem disconnect_goes_by_user_id_witness :
    (exampleRoomWith (RPSGame.new "1" (1, 2))).handleDisconnect (Hub.new false false true)
        exampleOldWorker
      = (exampleRoomWith (RPSGame.new "1" (1, 2))).handleDisconnect (Hub.new false false true)
        (exampleClient 1 1 "rps") :=
  (disconnect_goes_by_user_id (exampleRoomWith (RPSGame.new "1" (1, 2)))
    (Hub.new false false true) exampleOldWorker (exampleClient 1 1 "rps") rfl).1

/-- The guard of `AssignClient` against pairing a user with itself: when the
waiting entry for the key of the new worker c belongs to the user of c, the
call joins nothing and creates a new session with c as its only participant,
players (c.UserID, 0), and c as the waiting entry of the key. -/
theorem same_user_waiting_is_replaced (h : Hub) (sends : Sends) (now : Int) (c w : Client)
    (hw : h.WaitingByKey.get? (Hub.waitingKeyOf c) = some w) (hsame : w.UserID = c.UserID) :
    (h.AssignClient sends now c).2.2
      = { room := some (toString (h.roomSeq + 1)), joined := none } ∧
    (h.AssignClient sends now c).2.1 = sends ∧
    (h.AssignClient sends now c).1.WaitingByKey.get? (Hub.waitingKeyOf c) = some c ∧
    (∃ room, (h.AssignClient sends now c).1.Rooms.get? (toString (h.roomSeq + 1)) = some room ∧
      room.Clients = [(c.UserID, c)] ∧ room.game.Players = (c.UserID, 0)) := by
  obtain ⟨-, hseq, -, -, -, -⟩ := clearStale_frame h c (Hub.gameTypeOf c.GameType)
  by_cases hur : h.UserRoom.has c.UserID = true
  · have hnone : (h.clearStale c (Hub.gameTypeOf c.GameType)).WaitingByKey.get?
        (Hub.waitingKeyOf c) = none := by
      unfold Hub.clearStale
      rw [if_pos hur]
      exact GoMap.get?_foldl_del_mem _ _ _
        ((waitingKeysOfUser_mem h c.UserID _).mpr ⟨w, GoMap.get?_mem _ _ _ hw, hsame⟩)
    have hcw := createAndWait_creates (h.clearStale c (Hub.gameTypeOf c.GameType))
      now c (Hub.gameTypeOf c.GameType) (Hub.waitingKeyOf c) (gameTypeOf_cases c.GameType)
    have hout : h.AssignClient sends now c =
        (((h.clearStale c (Hub.gameTypeOf c.GameType)).createAndWait now c
            (Hub.gameTypeOf c.GameType) (Hub.waitingKeyOf c)).1, sends,
         ((h.clearStale c (Hub.gameTypeOf c.GameType)).createAndWait now c
            (Hub.gameTypeOf c.GameType) (Hub.waitingKeyOf c)).2) := by
      unfold Hub.waitingKeyOf at hnone ⊢
      simp only [Hub.AssignClient, hnone]
    rw [hout, ← hseq]
    dsimp only
    obtain ⟨h1, h2, -, ⟨room, e1, -, e3, -, e5, -⟩, -⟩ := hcw
    refine ⟨h1, rfl, ?_, room, e1, e3, e5⟩
    rw [h2]
    exact GoMap.get?_set_self _ _ _
  · have hcs : h.clearStale c (Hub.gameTypeOf c.GameType) = h := by
      unfold Hub.clearStale
      rw [if_neg hur]
    have hcw := createAndWait_creates
      { h with WaitingByKey := h.WaitingByKey.del (Hub.waitingKeyOf c) }
      now c (Hub.gameTypeOf c.GameType) (Hub.waitingKeyOf c) (gameTypeOf_cases c.GameType)
    have hout : h.AssignClient sends now c =
        ((({ h with WaitingByKey := h.WaitingByKey.del (Hub.waitingKeyOf c) } : Hub).createAndWait
            now c (Hub.gameTypeOf c.GameType) (Hub.waitingKeyOf c)).1, sends,
         (({ h with WaitingByKey := h.WaitingByKey.del (Hub.waitingKeyOf c) } : Hub).createAndWait
            now c (Hub.gameTypeOf c.GameType) (Hub.waitingKeyOf c)).2) := by
      unfold Hub.waitingKeyOf at hw ⊢
      simp only [Hub.AssignClient, hcs, hw, hsame, ne_eq, not_true_eq_false, if_false]
    rw [hout]
    dsimp only at hcw ⊢
    obtain ⟨h1, h2, -, ⟨room, e1, -, e3, -, e5, -⟩, -⟩ := hcw
    refine ⟨h1, rfl, ?_, room, e1, e3, e5⟩
    rw [h2]
    exact GoMap.get?_set_self _ _ _

/-- C26 at a failing input, a directory reached from the empty one: the worker
of user 1 is still the waiting entry for rock-paper-scissors at 100 coins
after its session was cancelled; user 2 opens mines session "2", user 1 joins
it on a second connection, the session takes both registrations, and user 2
then asks for rock-paper-scissors at 100 coins. That call matches the stale entry of user 1, follows `UserRoom` of
user 1 to session "2" and makes user 2 its second player: session "2" has
user 2 as both of its players. -/
theorem stale_entry_pairs_user_with_itself :
    Hub.Reachable hubSelfPaired.1 ∧
    hubSelfPaired.2.2 = { room := some "2", joined := some (exampleClient 1 1 "rps") } ∧
    (hubSelfPaired.1.Rooms.get? "2").map
        (fun room => (room.game.Players, GoMap.keys room.Clients))
      = some ((2, 2), [2, 1]) := by
  refine ⟨?_, by decide, by decide⟩
  have r0 : Hub.Reachable hubOneWaiting :=
    Hub.Reachable.step (Hub.Reachable.init false false true)
      (Hub.Step.assign _ [] 0 (exampleClient 1 1 "rps"))
  have e : hubAfterCancel = (cancelledRoom.cleanup hubOneWaiting).2 := by decide
  have r1 : Hub.Reachable hubAfterCancel := by
    rw [e]
    exact Hub.Reachable.step r0 (Hub.Step.roomCleanup _ _)
  exact Hub.Reachable.step
    (Hub.Reachable.step
      (Hub.Reachable.step (Hub.Reachable.step r1 (Hub.Step.assign _ _ _ _))
        (Hub.Step.assign _ _ _ _))
      (Hub.Step.roomRun _ _))
    (Hub.Step.assign _ _ _ _)

/-- C22 at a failing input: in a mines session of users 1 and 2, user 1 has
sent four positions outside 1..12, which `HandleMove` stores as a board
without a mine. At the setup timeout `completeSetup` skips the fallback for
user 1, who has a board, places four mines for user 2, broadcasts the notice
and sets its flag, and the game still reports that setup is not complete. -/
theorem setup_stays_incomplete_after_timeout :
    minesRoomAfterBadSetup.map
        (fun a => (a.1.game.Players, a.1.game.IsSetupComplete, a.1.setupCompleted, a.2.1))
      = some ((1, 2), false, false, []) ∧
    (minesRoomAfterBadSetup.bind (fun a => a.1.completeSetup 10 a.2.2)).map
        (fun b => (b.1.game.IsSetupComplete, b.1.setupCompleted,
          match b.1.game with
          | Game.mines g => g.boards.map (fun e => (e.1, e.2.hasMine))
          | Game.rps _ => [],
          b.2.1))
      = some (false, true, [(1, false), (2, true)],
          [Effect.send (exampleClient 1 1 "mines") { MsgType := "setup_complete", Payload := [] },
           Effect.send (exampleClient 2 2 "mines")
             { MsgType := "setup_complete", Payload := [] }]) := by
  decide

theorem NoNotice.nil : NoNotice [] := rfl

theorem NoNotice.append {a b : List Effect} (ha : NoNotice a) (hb : NoNotice b) :
    NoNotice (a ++ b) := by
  unfold NoNotice at *
  rw [List.filter_append, ha, hb]
  rfl

theorem noNotice_of_forall {eff : List Effect} (h : ∀ e ∈ eff, e.isSetupNotice = false) :
    NoNotice eff := by
  unfold NoNotice
  rw [List.filter_eq_nil_iff]
  intro e he
  simp [h e he]

theorem noNotice_broadcast (cl : GoMap Int Client) (msg : Message)
    (hm : msg.MsgType ≠ "setup_complete") : NoNotice (Room.broadcastToClients cl msg) := by
  apply noNotice_of_forall
  intro e he
  simp only [Room.broadcastToClients, List.mem_map] at he
  obtain ⟨x, -, rfl⟩ := he
  simp [Effect.isSetupNotice, hm]

theorem noNotice_send (r : Room) (u : Int) (msg : Message)
    (hm : msg.MsgType ≠ "setup_complete") : NoNotice (r.send u msg) := by
  unfold Room.send
  cases r.Clients.get? u with
  | none => exact NoNotice.nil
  | some c =>
    apply noNotice_of_forall
    intro e he
    simp only [List.mem_singleton] at he
    subst he
    simp [Effect.isSetupNotice, hm]

theorem noNotice_payoutWinner (r : Room) (w : Option Int) (p1 p2 : Int) :
    NoNotice (r.payoutWinner w p1 p2) := by
  cases w <;> simp only [Room.payoutWinner, NoNotice] <;> split_ifs <;> rfl

theorem noNotice_refundBet (r : Room) (u : Int) : NoNotice (r.refundBet u) := by
  unfold Room.refundBet
  split_ifs <;> rfl

theorem noNotice_saveRecords (r : Room) (g1 : Game) (result : GameResult) :
    NoNotice (r.saveRecords g1 result) := by
  unfold Room.saveRecords
  split_ifs <;> rfl

theorem notice_broadcast (cl : GoMap Int Client) :
    (Room.broadcastToClients cl Room.setupNotice).filter Effect.isSetupNotice
      = Room.broadcastToClients cl Room.setupNotice := by
  rw [List.filter_eq_self]
  intro e he
  simp only [Room.broadcastToClients, List.mem_map] at he
  obtain ⟨x, -, rfl⟩ := he
  rfl

theorem Room.Quiet.refl (r : Room) : r.Quiet r [] := ⟨le_refl _, rfl, NoNotice.nil, id⟩

theorem Room.Quiet.andThen {r a b : Room} {e1 e2 : List Effect} (h1 : r.Quiet a e1)
    (h2 : a.Quiet b e2) : r.Quiet b (e1 ++ e2) :=
  ⟨le_trans h1.1 h2.1, h2.2.1.trans h1.2.1, NoNotice.append h1.2.2.1 h2.2.2.1,
    fun hn => h2.2.2.2 (h1.2.2.2 hn)⟩

theorem Room.Quiet.keeps {r out : Room} {eff : List Effect} (h : r.Quiet out eff) :
    r.Keeps out eff :=
  ⟨h.1, h.2.2.2, fun hs => ⟨h.2.1.trans hs, h.2.2.1⟩, Or.inl h.2.2.1⟩

theorem Room.Keeps.followedBy {r a b : Room} {e1 e2 : List Effect} (h1 : r.Keeps a e1)
    (h2 : a.Keeps b e2) : r.Keeps b (e1 ++ e2) := by
  refine ⟨le_trans h1.1 h2.1, fun hn => h2.2.1 (h1.2.1 hn), ?_, ?_⟩
  · intro hs
    obtain ⟨ha, hn1⟩ := h1.2.2.1 hs
    obtain ⟨hb, hn2⟩ := h2.2.2.1 ha
    exact ⟨hb, NoNotice.append hn1 hn2⟩
  · rcases h1.2.2.2 with hn1 | ⟨ha, cl, hnd, hcl⟩
    · rcases h2.2.2.2 with hn2 | ⟨hb, cl, hnd, hcl⟩
      · exact Or.inl (NoNotice.append hn1 hn2)
      · refine Or.inr ⟨hb, cl, fun hn => hnd (h1.2.1 hn), ?_⟩
        unfold NoNotice at hn1
        rw [List.filter_append, hn1, hcl]
        rfl
    · obtain ⟨hb, hn2⟩ := h2.2.2.1 ha
      refine Or.inr ⟨hb, cl, hnd, ?_⟩
      unfold NoNotice at hn2
      rw [List.filter_append, hn2, hcl, List.append_nil]

theorem startRound_quiet (r : Room) : r.Quiet (r.startRound).1 (r.startRound).2 := by
  unfold Room.startRound
  split_ifs
  · exact Room.Quiet.refl r
  · refine ⟨?_, rfl, noNotice_broadcast _ _ (by decide), id⟩
    show r.timerRound ≤ r.timerRound + 1
    omega

theorem noNotice_sendMinesRoundResult (r : Room) : NoNotice r.sendMinesRoundResult := by
  cases hg : r.game with
  | rps g =>
    simp only [Room.sendMinesRoundResult, hg]
    exact NoNotice.nil
  | mines g =>
    cases hl : g.lastRoundResult with
    | none =>
      simp only [Room.sendMinesRoundResult, hg, hl]
      exact NoNotice.nil
    | some rr =>
      simp only [Room.sendMinesRoundResult, hg, hl]
      apply NoNotice.append
      · split_ifs
        · exact noNotice_send _ _ _ (by show "round_result" ≠ "setup_complete"; decide)
        · exact NoNotice.nil
      · split_ifs
        · exact noNotice_send _ _ _ (by show "round_result" ≠ "setup_complete"; decide)
        · exact NoNotice.nil

theorem noNotice_broadcastResult (r : Room) (result : GameResult) :
    NoNotice (r.broadcastResult result) := by
  unfold Room.broadcastResult
  dsimp only
  apply NoNotice.append
  · cases r.Clients.get? r.game.Players.1 <;> rfl
  · cases r.Clients.get? r.game.Players.2 <;> rfl

theorem noNotice_roundDrawNotices (r : Room) (g : RPSGame) :
    NoNotice (Room.roundDrawNotices r g) := by
  apply noNotice_of_forall
  intro e he
  simp only [Room.roundDrawNotices, List.mem_map] at he
  obtain ⟨x, -, rfl⟩ := he
  rfl

theorem checkRound_quiet (r : Room) (out : Room × List Effect) (h : r.checkRound = some out) :
    r.Quiet out.1 out.2 := by
  unfold Room.checkRound at h
  by_cases h1 : r.roundChecking = true
  · rw [if_pos h1] at h
    cases h
    exact Room.Quiet.refl r
  · rw [if_neg h1] at h
    by_cases h2 : ¬ r.game.IsRoundComplete = true
    · rw [if_pos h2] at h
      cases h
      exact Room.Quiet.refl r
    · rw [if_neg h2] at h
      cases hc : r.game.CheckResult with
      | none => simp [hc] at h
      | some res =>
        obtain ⟨res1, g1⟩ := res
        have hq : ∀ e, NoNotice e → r.Quiet
            (({ r with game := g1, roundStarted := false } : Room).startRound).1
            (e ++ (({ r with game := g1, roundStarted := false } : Room).startRound).2) := by
          intro e he
          have h0 : r.Quiet ({ r with game := g1, roundStarted := false } : Room) e :=
            ⟨le_refl _, rfl, he, id⟩
          exact h0.andThen (startRound_quiet _)
        cases res1 with
        | none =>
          simp only [hc] at h
          by_cases h3 : ¬ g1.IsFinished = true
          · rw [if_pos h3] at h
            cases h
            cases g1 with
            | rps g =>
              have := hq _ (NoNotice.append (noNotice_sendMinesRoundResult { r with game := Game.rps g })
                (noNotice_roundDrawNotices { r with game := Game.rps g } g))
              simpa using this
            | mines g =>
              have := hq _ (NoNotice.append
                (noNotice_sendMinesRoundResult { r with game := Game.mines g }) NoNotice.nil)
              simpa using this
          · rw [if_neg h3] at h
            cases h
            exact ⟨le_refl _, rfl, NoNotice.nil, id⟩
        | some result =>
          simp only [hc] at h
          by_cases h3 : g1.IsFinished = true
          · rw [if_pos h3] at h
            cases h
            exact ⟨le_refl _, rfl,
              NoNotice.append (noNotice_sendMinesRoundResult _) (noNotice_broadcastResult _ _),
              id⟩
          · rw [if_neg h3] at h
            cases h
            have := hq _ (NoNotice.append
              (noNotice_sendMinesRoundResult { r with game := g1 })
              (noNotice_broadcastResult { r with game := g1 } result))
            simpa using this

theorem filter_notice_payoutWinner (r : Room) (w : Option Int) (p1 p2 : Int) :
    (r.payoutWinner w p1 p2).filter Effect.isSetupNotice = [] := noNotice_payoutWinner r w p1 p2

theorem filter_notice_refundBet (r : Room) (u : Int) :
    (r.refundBet u).filter Effect.isSetupNotice = [] := noNotice_refundBet r u

theorem cleanup_quiet (r : Room) (h : Hub) : r.Quiet (r.cleanup h).1 [] := by
  unfold Room.cleanup
  split_ifs <;> exact ⟨le_refl _, rfl, NoNotice.nil, id⟩

theorem saveResult_quiet (r : Room) (out : Room × List Effect) (h : r.saveResult = some out) :
    r.Quiet out.1 out.2 := by
  unfold Room.saveResult at h
  cases hc : r.game.CheckResult with
  | none => simp [hc] at h
  | some res =>
    obtain ⟨res1, g1⟩ := res
    cases res1 with
    | none =>
      simp only [hc, Option.some.injEq] at h
      subst h
      exact ⟨le_refl _, rfl, NoNotice.nil, id⟩
    | some result =>
      simp only [hc, Option.some.injEq] at h
      subst h
      dsimp only
      split_ifs
      · exact ⟨le_refl _, rfl,
          NoNotice.append (noNotice_payoutWinner _ _ _ _) (noNotice_saveRecords _ _ _), id⟩
      · exact ⟨le_refl _, rfl, NoNotice.append NoNotice.nil (noNotice_saveRecords _ _ _), id⟩

theorem GoMap.nodup_keys_del {K V : Type} [DecidableEq K] (m : GoMap K V) (k : K)
    (h : (GoMap.keys m).Nodup) : (GoMap.keys (m.del k)).Nodup := by
  unfold GoMap.keys GoMap.del at *
  exact (List.Nodup.sublist (List.Sublist.map _ (List.filter_sublist _)) h)

theorem GoMap.keys_set_subset {K V : Type} [DecidableEq K] (m : GoMap K V) (k : K) (v : V) :
    ∀ x ∈ GoMap.keys (m.set k v), x = k ∨ x ∈ GoMap.keys m := by
  induction m with
  | nil =>
    intro x hx
    simp [GoMap.set, GoMap.keys] at hx
    exact Or.inl hx
  | cons e t ih =>
    obtain ⟨k', v'⟩ := e
    intro x hx
    by_cases hk : k' = k
    · simp only [GoMap.set, hk, if_true, GoMap.keys, List.map_cons, List.mem_cons] at hx ⊢
      rcases hx with h1 | h1
      · exact Or.inl h1
      · exact Or.inr (Or.inr h1)
    · simp only [GoMap.set, hk, if_false, GoMap.keys, List.map_cons, List.mem_cons] at hx ⊢
      rcases hx with h1 | h1
      · exact Or.inr (Or.inl h1)
      · rcases ih x h1 with h2 | h2
        · exact Or.inl h2
        · exact Or.inr (Or.inr h2)

theorem GoMap.nodup_keys_set {K V : Type} [DecidableEq K] (m : GoMap K V) (k : K) (v : V)
    (h : (GoMap.keys m).Nodup) : (GoMap.keys (m.set k v)).Nodup := by
  induction m with
  | nil => simp [GoMap.set, GoMap.keys]
  | cons e t ih =>
    obtain ⟨k', v'⟩ := e
    simp only [GoMap.keys, List.map_cons, List.nodup_cons] at h
    by_cases hk : k' = k
    · subst hk
      simp only [GoMap.set, if_true, GoMap.keys, List.map_cons, List.nodup_cons]
      exact h
    · simp only [GoMap.set, hk, if_false, GoMap.keys, List.map_cons, List.nodup_cons]
      refine ⟨?_, ih h.2⟩
      intro hmem
      rcases GoMap.keys_set_subset t k v k' hmem with h1 | h1
      · exact hk h1
      · exact h.1 h1

theorem handleDisconnect_quiet (r : Room) (h : Hub) (c : Client) :
    r.Quiet (r.handleDisconnect h c).1 (r.handleDisconnect h c).2.2.1 := by
  have hc := fun (x : Room) => (cleanup_quiet x h)
  have aux : r.timerRound ≤ (r.handleDisconnect h c).1.timerRound ∧
      (r.handleDisconnect h c).1.setupCompleted = r.setupCompleted ∧
      (r.handleDisconnect h c).2.2.1.filter Effect.isSetupNotice = [] := by
    unfold Room.Quiet NoNotice at hc
    cases hrem : (r.Clients.del c.UserID).head? <;>
      by_cases hlen : (r.Clients.del c.UserID).len = 1 <;>
      by_cases hz : (r.Clients.del c.UserID).len = 0 <;>
      by_cases hpaid : r.betPaid = true <;>
      by_cases hb : (0 : Int) < r.BetAmount <;>
      by_cases htwo : r.game.Players.2 = 0 <;>
      simp [Room.handleDisconnect, hrem, hlen, hz, hpaid, hb, htwo, List.filter_append,
        filter_notice_payoutWinner, filter_notice_refundBet, Effect.isSetupNotice,
        Room.forfeitMessage] <;>
      exact ⟨(hc _).1, (hc _).2.1⟩
  refine ⟨aux.1, aux.2.1, aux.2.2, ?_⟩
  intro hn
  rw [handleDisconnect_Clients]
  exact GoMap.nodup_keys_del _ _ hn

theorem cancelGameNoOpponent_quiet (r : Room) (h : Hub) :
    r.Quiet (r.cancelGameNoOpponent h).1 (r.cancelGameNoOpponent h).2.2 := by
  have hc := fun (x : Room) => (cleanup_quiet x h)
  have hcl := fun (x : Room) => (cleanup_Clients x h)
  unfold Room.Quiet NoNotice at *
  cases hcl : r.Clients.get? r.game.Players.1 <;>
    by_cases hpaid : r.betPaid = true <;>
    by_cases hb : (0 : Int) < r.BetAmount <;>
    simp [Room.cancelGameNoOpponent, hcl, hpaid, hb, List.filter_append,
      filter_notice_refundBet, Effect.isSetupNotice, Room.cancelMessage, cleanup_Clients] <;>
    exact ⟨(hc _).1, (hc _).2.1⟩

theorem quiet_of_fields (r out : Room) (h1 : out.timerRound = r.timerRound)
    (h2 : out.setupCompleted = r.setupCompleted)
    (h3 : (GoMap.keys r.Clients).Nodup → (GoMap.keys out.Clients).Nodup) : r.Quiet out [] :=
  ⟨le_of_eq h1.symm, h2, NoNotice.nil, h3⟩

theorem handleRoundTimeout_quiet (fuel : Nat) (r : Room) (forRound : Int) (rng : Rand)
    (out : Room × List Effect × Rand) (h : r.handleRoundTimeout fuel forRound rng = some out) :
    r.Quiet out.1 out.2.1 := by
  unfold Room.handleRoundTimeout at h
  by_cases h1 : forRound ≠ r.timerRound
  · rw [if_pos h1] at h
    cases h
    exact Room.Quiet.refl r
  · rw [if_neg h1] at h
    cases hf : Room.fallbackMoves fuel r.game rng with
    | none => simp [hf] at h
    | some fm =>
      obtain ⟨g1, rng1⟩ := fm
      simp only [hf] at h
      by_cases h2 : g1.IsRoundComplete = true
      · rw [if_pos h2] at h
        cases hc : Room.checkRound { r with game := g1 } with
        | none => simp [hc] at h
        | some cr =>
          simp only [hc, Option.some.injEq] at h
          subst h
          have := (quiet_of_fields r { r with game := g1 } rfl rfl id).andThen
            (checkRound_quiet _ _ hc)
          simpa using this
      · rw [if_neg h2] at h
        cases h
        exact ⟨le_refl _, rfl, NoNotice.nil, id⟩

theorem checkRounds_quiet (n : Nat) (r : Room) (out : Room × List Effect)
    (h : Room.checkRounds n r = some out) : r.Quiet out.1 out.2 := by
  induction n generalizing r out with
  | zero =>
    simp only [Room.checkRounds, Option.some.injEq] at h
    subst h
    exact Room.Quiet.refl r
  | succ n ih =>
    simp only [Room.checkRounds] at h
    cases hc : r.checkRound with
    | none => simp [hc] at h
    | some a =>
      simp only [hc] at h
      have ha := checkRound_quiet r a hc
      by_cases hf : a.1.game.IsFinished = true
      · rw [if_pos hf] at h
        cases h
        exact ha
      · rw [if_neg hf] at h
        cases hn : Room.checkRounds n a.1 with
        | none => simp [hn] at h
        | some b =>
          simp only [hn, Option.some.injEq] at h
          subst h
          exact ha.andThen (ih a.1 b hn)

theorem completeSetup_keeps (fuel : Nat) (r : Room) (rng : Rand)
    (out : Room × List Effect × Rand) (h : r.completeSetup fuel rng = some out) :
    r.Keeps out.1 out.2.1 ∧ out.1.setupCompleted = true := by
  unfold Room.completeSetup at h
  by_cases hs : r.setupCompleted = true
  · rw [if_pos hs] at h
    cases h
    exact ⟨(Room.Quiet.refl r).keeps, hs⟩
  · rw [if_neg hs] at h
    cases ha : Room.setupFallback fuel r.game r.game.Players.1 rng with
    | none => simp [ha] at h
    | some a =>
      simp only [ha] at h
      cases hb : Room.setupFallback fuel a.1 r.game.Players.2 a.2 with
      | none => simp [hb] at h
      | some b =>
        simp only [hb, Option.some.injEq] at h
        subst h
        refine ⟨⟨le_refl _, id, fun hh => absurd hh hs, Or.inr ⟨rfl, r.Clients, id, ?_⟩⟩, rfl⟩
        exact notice_broadcast _

theorem HandleMessage_keeps (fuel : Nat) (r : Room) (c : Client) (msg : Option (String × JVal))
    (rng : Rand) (out : Room × List Effect × Rand)
    (h : r.HandleMessage fuel c msg rng = some out) : r.Keeps out.1 out.2.1 := by
  unfold Room.HandleMessage at h
  cases msg with
  | none =>
    simp only [Option.some.injEq] at h
    subst h
    exact (Room.Quiet.refl r).keeps
  | some m =>
    simp only at h
    cases hm : r.game.HandleMove fuel c.UserID (Room.moveValue r.game.GameType m.2) rng with
    | none => simp [hm] at h
    | some mv =>
      obtain ⟨err, g1, rng1⟩ := mv
      cases err with
      | some e =>
        simp only [hm, Option.some.injEq] at h
        subst h
        have hq : r.Quiet ({ r with game := g1 } : Room)
            (Room.send { r with game := g1 } c.UserID (Room.errorMessage e)) :=
          ⟨le_refl _, rfl, noNotice_send _ _ _ (by show "error" ≠ "setup_complete"; decide),
            id⟩
        exact hq.keeps
      | none =>
        simp only [hm] at h
        have h0 : r.Keeps ({ r with game := g1 } : Room) [] :=
          (quiet_of_fields r { r with game := g1 } rfl rfl id).keeps
        by_cases hsc : ({ r with game := g1 } : Room).setupCompleted = false ∧
            g1.IsSetupComplete = true
        · rw [if_pos hsc] at h
          cases hcs : Room.completeSetup fuel { r with game := g1 } rng1 with
          | none => simp [hcs] at h
          | some cs =>
            simp only [hcs, Option.some.injEq] at h
            subst h
            obtain ⟨hk, hflag⟩ := completeSetup_keeps fuel _ rng1 cs hcs
            have hk2 : cs.1.Keeps
                ({ cs.1 with setupDoneChan := cs.1.setupDoneChan.map (fun _ => true),
                             roundStarted := false } : Room) [] :=
              (quiet_of_fields cs.1 _ rfl rfl id).keeps
            have hk3 := (startRound_quiet
              ({ cs.1 with setupDoneChan := cs.1.setupDoneChan.map (fun _ => true),
                           roundStarted := false } : Room)).keeps
            have := (h0.followedBy hk).followedBy (hk2.followedBy hk3)
            simpa using this
        · rw [if_neg hsc] at h
          by_cases hrc : g1.IsRoundComplete = true
          · rw [if_pos hrc] at h
            cases hcr : Room.checkRound { r with game := g1, timer := none } with
            | none => simp [hcr] at h
            | some cr =>
              simp only [hcr, Option.some.injEq] at h
              subst h
              have h1 : r.Keeps ({ r with game := g1, timer := none } : Room) [] :=
                (quiet_of_fields r { r with game := g1, timer := none } rfl rfl id).keeps
              have := h1.followedBy (checkRound_quiet _ _ hcr).keeps
              simpa using this
          · rw [if_neg hrc] at h
            simp only [Option.some.injEq] at h
            subst h
            exact h0

theorem replay_keeps (fuel : Nat) (c : Client) (pending : List (Option (String × JVal)))
    (r : Room) (rng : Rand) (out : Room × List Effect × Rand)
    (h : Room.replay fuel c pending r rng = some out) : r.Keeps out.1 out.2.1 := by
  induction pending generalizing r rng out with
  | nil =>
    simp only [Room.replay, Option.some.injEq] at h
    subst h
    exact (Room.Quiet.refl r).keeps
  | cons m rest ih =>
    simp only [Room.replay] at h
    cases ha : r.HandleMessage fuel c m rng with
    | none => simp [ha] at h
    | some a =>
      simp only [ha] at h
      cases hb : Room.replay fuel c rest a.1 a.2.2 with
      | none => simp [hb] at h
      | some b =>
        simp only [hb, Option.some.injEq] at h
        subst h
        exact (HandleMessage_keeps fuel r c m rng a ha).followedBy (ih a.1 a.2.2 b hb)

theorem noNotice_matched (r : Room) (p : Int) (o : Option Client) :
    NoNotice (match o with
      | some c1 => [Effect.send c1 (r.matchedMessage p)]
      | none => []) := by
  cases o <;> rfl

theorem handleRegister_keeps (fuel : Nat) (r : Room) (c : Client)
    (pending : List (Option (String × JVal))) (rng : Rand) (out : Room × List Effect × Rand)
    (h : r.handleRegister fuel c pending rng = some out) : r.Keeps out.1 out.2.1 := by
  unfold Room.handleRegister at h
  dsimp only at h
  cases ha : Room.replay fuel c pending { r with Clients := r.Clients.set c.UserID c } rng with
  | none => simp [ha] at h
  | some a =>
    simp only [ha] at h
    cases hb : Room.checkRounds 5 a.1 with
    | none => simp [hb] at h
    | some b =>
      simp only [hb, Option.some.injEq] at h
      subst h
      have hmatched : NoNotice
          (if (r.Clients.set c.UserID c).len = 2 then
            (match (r.Clients.set c.UserID c).get? r.game.Players.1 with
             | some c1 => [Effect.send c1
                 (Room.matchedMessage { r with Clients := r.Clients.set c.UserID c }
                   r.game.Players.2)]
             | none => []) ++
            (match (r.Clients.set c.UserID c).get? r.game.Players.2 with
             | some c2 => [Effect.send c2
                 (Room.matchedMessage { r with Clients := r.Clients.set c.UserID c }
                   r.game.Players.1)]
             | none => [])
          else []) := by
        split_ifs
        · exact NoNotice.append (noNotice_matched _ _ _) (noNotice_matched _ _ _)
        · exact NoNotice.nil
      have h0 : r.Quiet ({ r with Clients := r.Clients.set c.UserID c } : Room)
          ((if (r.Clients.set c.UserID c).len = 2 then
            (match (r.Clients.set c.UserID c).get? r.game.Players.1 with
             | some c1 => [Effect.send c1
                 (Room.matchedMessage { r with Clients := r.Clients.set c.UserID c }
                   r.game.Players.2)]
             | none => []) ++
            (match (r.Clients.set c.UserID c).get? r.game.Players.2 with
             | some c2 => [Effect.send c2
                 (Room.matchedMessage { r with Clients := r.Clients.set c.UserID c }
                   r.game.Players.1)]
             | none => [])
          else []) ++
          Room.send { r with Clients := r.Clients.set c.UserID c } c.UserID
            (Room.stateMessage { r with Clients := r.Clients.set c.UserID c })) :=
        ⟨le_refl _, rfl,
          NoNotice.append hmatched
            (noNotice_send _ _ _ (by show "state" ≠ "setup_complete"; decide)),
          fun hn => GoMap.nodup_keys_set _ _ _ hn⟩
      have := (h0.keeps.followedBy (replay_keeps fuel c pending _ rng a ha)).followedBy
        (checkRounds_quiet 5 a.1 b hb).keeps
      simpa [List.append_assoc] using this

theorem onRegister_keeps (fuel : Nat) (r : Room) (c : Client)
    (pending : List (Option (String × JVal))) (rng : Rand) (out : Room × List Effect × Rand)
    (h : r.onRegister fuel c pending rng = some out) : r.Keeps out.1 out.2.1 := by
  unfold Room.onRegister at h
  cases ha : r.handleRegister fuel c pending rng with
  | none => simp [ha] at h
  | some a =>
    simp only [ha] at h
    have hk := handleRegister_keeps fuel r c pending rng a ha
    by_cases hc : a.1.game.IsSetupComplete = true ∧ a.1.Clients.len = 2
    · rw [if_pos hc] at h
      simp only [Option.some.injEq] at h
      subst h
      have h1 : a.1.Keeps ({ a.1 with setupCompleted := true } : Room) [] :=
        ⟨le_refl _, id, fun _ => ⟨rfl, NoNotice.nil⟩, Or.inl NoNotice.nil⟩
      have := (hk.followedBy h1).followedBy (startRound_quiet { a.1 with setupCompleted := true }).keeps
      simpa using this
    · rw [if_neg hc] at h
      cases h
      exact hk

theorem onSetupTimeout_keeps (fuel : Nat) (r : Room) (h : Hub) (rng : Rand)
    (out : Room × Hub × List Effect × Rand) (hrun : r.onSetupTimeout fuel h rng = some out) :
    r.Keeps out.1 out.2.2.1 := by
  unfold Room.onSetupTimeout at hrun
  by_cases h1 : r.game.Players.2 = 0
  · rw [if_pos h1] at hrun
    simp only [Option.some.injEq] at hrun
    subst hrun
    have := (cancelGameNoOpponent_quiet r h).andThen
      (quiet_of_fields (r.cancelGameNoOpponent h).1
        { (r.cancelGameNoOpponent h).1 with
          setupDoneChan := (r.cancelGameNoOpponent h).1.setupDoneChan.map (fun _ => true) }
        rfl rfl id)
    simpa using this.keeps
  · rw [if_neg h1] at hrun
    by_cases h2 : r.setupCompleted = true
    · rw [if_pos h2] at hrun
      simp only [Option.some.injEq] at hrun
      subst hrun
      exact (quiet_of_fields r _ rfl rfl id).keeps
    · rw [if_neg h2] at hrun
      cases hcs : r.completeSetup fuel rng with
      | none => simp [hcs] at hrun
      | some cs =>
        simp only [hcs, Option.some.injEq] at hrun
        subst hrun
        obtain ⟨hk, -⟩ := completeSetup_keeps fuel r rng cs hcs
        have hk2 : cs.1.Keeps ({ cs.1 with roundStarted := false } : Room) [] :=
          (quiet_of_fields cs.1 _ rfl rfl id).keeps
        have hk3 := (startRound_quiet ({ cs.1 with roundStarted := false } : Room)).keeps
        have hk4 : (({ cs.1 with roundStarted := false } : Room).startRound).1.Keeps
            ({ (({ cs.1 with roundStarted := false } : Room).startRound).1 with
               setupDoneChan :=
                 (({ cs.1 with roundStarted := false } : Room).startRound).1.setupDoneChan.map
                   (fun _ => true) } : Room) [] :=
          (quiet_of_fields _ _ rfl rfl id).keeps
        have := (hk.followedBy (hk2.followedBy hk3)).followedBy hk4
        simpa using this

theorem onFinished_quiet (r : Room) (h : Hub) (out : Room × Hub × List Effect)
    (hrun : r.onFinished h = some out) : r.Quiet out.1 out.2.2 := by
  unfold Room.onFinished at hrun
  by_cases h1 : r.game.IsFinished = true
  · rw [if_pos h1] at hrun
    cases hs : r.saveResult with
    | none => simp [hs] at hrun
    | some a =>
      simp only [hs, Option.some.injEq] at hrun
      subst hrun
      have := (saveResult_quiet r a hs).andThen (cleanup_quiet a.1 h)
      simpa using this
  · rw [if_neg h1] at hrun
    cases hrun
    exact Room.Quiet.refl r

theorem handle_keeps (fuel : Nat) (r : Room) (h : Hub) (ev : Room.Event) (rng : Rand)
    (out : Room × Hub × List Effect × Rand) (hrun : r.handle fuel h ev rng = some out) :
    r.Keeps out.1 out.2.2.1 := by
  cases ev with
  | start =>
    simp only [Room.handle, Option.some.injEq] at hrun
    subst hrun
    exact (quiet_of_fields r _ rfl rfl id).keeps
  | register c pending =>
    simp only [Room.handle, Option.map_eq_some'] at hrun
    obtain ⟨a, ha, rfl⟩ := hrun
    exact onRegister_keeps fuel r c pending rng a ha
  | disconnect c =>
    simp only [Room.handle, Option.some.injEq] at hrun
    subst hrun
    exact (handleDisconnect_quiet r h c).keeps
  | finished =>
    simp only [Room.handle, Option.map_eq_some'] at hrun
    obtain ⟨a, ha, rfl⟩ := hrun
    exact (onFinished_quiet r h a ha).keeps
  | setupTimeout =>
    simp only [Room.handle] at hrun
    exact onSetupTimeout_keeps fuel r h rng out hrun
  | roundTimeout forRound =>
    simp only [Room.handle, Option.map_eq_some'] at hrun
    obtain ⟨a, ha, rfl⟩ := hrun
    exact (handleRoundTimeout_quiet fuel r forRound rng a ha).keeps
  | message c msg =>
    simp only [Room.handle, Option.map_eq_some'] at hrun
    obtain ⟨a, ha, rfl⟩ := hrun
    exact HandleMessage_keeps fuel r c msg rng a ha

theorem handleAll_keeps (fuel : Nat) (evs : List Room.Event) (r : Room) (h : Hub) (rng : Rand)
    (out : Room × Hub × List Effect × Rand) (hrun : Room.handleAll fuel evs r h rng = some out) :
    r.Keeps out.1 out.2.2.1 := by
  induction evs generalizing r h rng out with
  | nil =>
    simp only [Room.handleAll, Option.some.injEq] at hrun
    subst hrun
    exact (Room.Quiet.refl r).keeps
  | cons ev rest ih =>
    simp only [Room.handleAll] at hrun
    cases ha : r.handle fuel h ev rng with
    | none => simp [ha] at hrun
    | some a =>
      simp only [ha] at hrun
      cases hb : Room.handleAll fuel rest a.1 a.2.1 a.2.2.2 with
      | none => simp [hb] at hrun
      | some b =>
        simp only [hb, Option.some.injEq] at hrun
        subst hrun
        exact (handle_keeps fuel r h ev rng a ha).followedBy (ih a.1 a.2.1 a.2.2.2 b hb)

/-- C23: `completeSetup` invoked with the setup flag set returns the session
as it was, draws nothing from the random source (no fallback placement) and
has no effect. Hence over any sequence of reactions of a session (setup
timeout, messages, registrations with their pending messages, round
timeouts, disconnects, the finished check), the `setup_complete` notices
pushed are none at all when the flag was set at the start, and otherwise
either none or one broadcast: one notice per entry of a participant map, which
has one entry per user when the participant map of the session has. -/
theorem setup_notice_at_most_once (fuel : Nat) (r : Room) (h : Hub) (rng : Rand) :
    (r.setupCompleted = true → r.completeSetup fuel rng = some (r, [], rng)) ∧
    (∀ evs out, Room.handleAll fuel evs r h rng = some out →
      (r.setupCompleted = true →
        out.1.setupCompleted = true ∧ out.2.2.1.filter Effect.isSetupNotice = []) ∧
      (out.2.2.1.filter Effect.isSetupNotice = [] ∨
        ∃ cl, ((GoMap.keys r.Clients).Nodup → (GoMap.keys cl).Nodup) ∧
          out.2.2.1.filter Effect.isSetupNotice
            = Room.broadcastToClients cl { MsgType := "setup_complete", Payload := [] })) := by
  refine ⟨?_, ?_⟩
  · intro hs
    unfold Room.completeSetup
    rw [if_pos hs]
  · intro evs out hrun
    obtain ⟨-, -, h3, h4⟩ := handleAll_keeps fuel evs r h rng out hrun
    refine ⟨h3, ?_⟩
    rcases h4 with hn | ⟨-, cl, hnd, hcl⟩
    · exact Or.inl hn
    · exact Or.inr ⟨cl, hnd, hcl⟩

/-- C24: `startRound` invoked with the round flag set returns the session as
it was and pushes nothing; with the flag clear it sets the flag, raises the
timer generation `timerRound` by exactly one, arms the timer tagged with the
new value and pushes the start message to every attached worker, leaving the
rest of the session alone; and no reaction of a session, nor any sequence of
them, lowers `timerRound`. -/
theorem round_start_guarded (fuel : Nat) (r : Room) (h : Hub) (rng : Rand) :
    (r.roundStarted = true → r.startRound = (r, [])) ∧
    (r.roundStarted = false →
      r.startRound =
        ({ r with roundStarted := true, timerRound := r.timerRound + 1,
                  timer := some (r.timerRound + 1) },
         Room.broadcastToClients r.Clients
           { MsgType := "start",
             Payload := [("type", PVal.str "start"), ("timestamp", PVal.now)] })) ∧
    (∀ ev out, r.handle fuel h ev rng = some out → r.timerRound ≤ out.1.timerRound) ∧
    (∀ evs out, Room.handleAll fuel evs r h rng = some out →
      r.timerRound ≤ out.1.timerRound) := by
  refine ⟨?_, ?_, ?_, ?_⟩
  · intro hs
    unfold Room.startRound
    rw [if_pos hs]
  · intro hs
    unfold Room.startRound
    rw [if_neg (by simp [hs])]
    rfl
  · intro ev out hrun
    exact (handle_keeps fuel r h ev rng out hrun).1
  · intro evs out hrun
    exact (handleAll_keeps fuel evs r h rng out hrun).1

/-- An instance of the two properties above: in the example mines session the
setup timeout fires twice and user 1 then sends a cell; the notice goes out
once to each of the two workers, and the timer generation ends at 1. -/
theorem setup_timeout_twice_example :
    (Room.handleAll 10
        [Room.Event.setupTimeout, Room.Event.setupTimeout,
         Room.Event.message (exampleClient 1 1 "mines") (some ("move", JVal.num 5))]
        exampleMinesRoom (Hub.new false false true) (fun i => i)).map
      (fun out => (out.2.2.1.filter Effect.isSetupNotice, out.1.timerRound))
      = some ([Effect.send (exampleClient 1 1 "mines") Room.setupNotice,
               Effect.send (exampleClient 2 2 "mines") Room.setupNotice], 1) := by
  decide

section SafeLemmas

variable {K V : Type} [DecidableEq K]

theorem GoMap.has_set (m : GoMap K V) (k k2 : K) (v : V) (h : m.has k2 = true) :
    (m.set k v).has k2 = true := by
  unfold GoMap.has at *
  by_cases hk : k = k2
  · subst hk
    rw [GoMap.get?_set_self]
    rfl
  · rw [GoMap.get?_set_other _ _ _ _ hk]
    exact h

theorem GoMap.has_of_mem_keys (m : GoMap K V) (k : K) (h : k ∈ GoMap.keys m) :
    m.has k = true := by
  unfold GoMap.has
  cases hg : m.get? k with
  | some v => rfl
  | none =>
    exfalso
    induction m with
    | nil => simp [GoMap.keys] at h
    | cons e t ih =>
      obtain ⟨k', v'⟩ := e
      by_cases hk : k' = k
      · simp [GoMap.get?, hk] at hg
      · simp only [GoMap.get?, hk, if_false] at hg
        simp only [GoMap.keys, List.map_cons, List.mem_cons] at h
        rcases h with h1 | h1
        · exact hk h1.symm
        · exact ih h1 hg

/-- A map with one entry per key, all keys among `a` and `b`, and at least
two entries holds both `a` and `b`. -/
theorem GoMap.has_both (m : GoMap K V) (a b : K) (hnd : (GoMap.keys m).Nodup)
    (hsub : ∀ k ∈ GoMap.keys m, k = a ∨ k = b) (hlen : 2 ≤ m.len) :
    m.has a = true ∧ m.has b = true := by
  match m, hnd, hsub, hlen with
  | [], _, _, hlen => simp [GoMap.len] at hlen
  | [_], _, _, hlen => simp [GoMap.len] at hlen
  | e1 :: e2 :: t, hnd, hsub, _ =>
    have h1 : e1.1 ∈ GoMap.keys (e1 :: e2 :: t) := by simp [GoMap.keys]
    have h2 : e2.1 ∈ GoMap.keys (e1 :: e2 :: t) := by simp [GoMap.keys]
    have hne : e1.1 ≠ e2.1 := by
      simp only [GoMap.keys, List.map_cons, List.nodup_cons, List.mem_cons, not_or] at hnd
      exact hnd.1.1
    have k1 := GoMap.has_of_mem_keys _ _ h1
    have k2 := GoMap.has_of_mem_keys _ _ h2
    rcases hsub _ h1 with ha | ha <;> rcases hsub _ h2 with hb | hb
    · exact absurd (ha.trans hb.symm) hne
    · rw [← ha, ← hb]
      exact ⟨k1, k2⟩
    · rw [← ha, ← hb]
      exact ⟨k2, k1⟩
    · exact absurd (ha.trans hb.symm) hne

end SafeLemmas

theorem MinesGame.safe_new (p1 p2 : Int) (id : String) :
    (MinesGame.new id (p1, p2)).Safe p1 p2 := by
  refine ⟨rfl, ?_, ?_, ?_, ?_, ?_⟩ <;> simp [MinesGame.new, GoMap.keys]

theorem MinesGame.safe_withBoard (p1 p2 : Int) (g : MinesGame) (p : Int) (b : Board)
    (hp : p = p1 ∨ p = p2) (hs : g.Safe p1 p2) :
    MinesGame.Safe p1 p2 { g with boards := g.boards.set p b } := by
  obtain ⟨h1, h2, h3, h4, h5, h6⟩ := hs
  refine ⟨h1, GoMap.nodup_keys_set _ _ _ h2, ?_, h4, h5, ?_⟩
  · intro k hk
    rcases GoMap.keys_set_subset _ _ _ k hk with hh | hh
    · rw [hh]
      exact hp
    · exact h3 k hh
  · intro hm
    obtain ⟨a, b2⟩ := h6 hm
    exact ⟨GoMap.has_set _ _ _ _ a, GoMap.has_set _ _ _ _ b2⟩

theorem MinesGame.safe_withMove (p1 p2 : Int) (g : MinesGame) (p : Int) (n : Int)
    (hp : p = p1 ∨ p = p2) (hn : 1 ≤ n ∧ n ≤ 12) (hsetup : g.isSetupCompleteUnlocked = true)
    (hs : g.Safe p1 p2) :
    MinesGame.Safe p1 p2 { g with moves := g.moves.set p n } := by
  obtain ⟨h1, h2, h3, h4, h5, -⟩ := hs
  refine ⟨h1, h2, h3, GoMap.nodup_keys_set _ _ _ h4, ?_, ?_⟩
  · intro e he
    rcases GoMap.mem_set _ _ _ e he with hh | hh
    · exact h5 e hh
    · rw [hh]
      exact ⟨hp, hn⟩
  · intro _
    have hlen : 2 ≤ g.boards.len := by
      unfold MinesGame.isSetupCompleteUnlocked at hsetup
      by_contra hc
      rw [if_pos (by omega)] at hsetup
      cases hsetup
    exact GoMap.has_both g.boards p1 p2 h2 h3 hlen

theorem MinesGame.setup_result (g g2 : MinesGame) (fuel : Nat) (p : Int) (data : Data)
    (rng rng2 : Rand) (err : Option String) (hsetup : ¬ g.isSetupCompleteUnlocked = true)
    (hskip : ¬ (g.boards.has p = true ∧ data = Data.nil))
    (h : g.HandleMove fuel p data rng = some (err, g2, rng2)) :
    ∃ board, g2 = { g with boards := g.boards.set p board } := by
  unfold MinesGame.HandleMove at h
  rw [if_pos (by simp [hsetup]), if_neg hskip] at h
  have bot : ∀ (o : Option (List Int × Rand)),
      (match o with
        | none => none
        | some (positions, rng1) =>
          some ((none : Option String),
            ({ g with boards := (g.boards.set p
                (positions.foldl (fun b pos => b.mark pos) Board.empty)) } : MinesGame),
            rng1)) = some (err, g2, rng2) →
      ∃ board, g2 = { g with boards := g.boards.set p board } := by
    intro o hh
    cases o with
    | none => cases hh
    | some pr =>
      obtain ⟨positions, rng1⟩ := pr
      simp only [Option.some.injEq, Prod.mk.injEq] at hh
      exact ⟨_, hh.2.1.symm⟩
  exact bot _ h

theorem MinesGame.safe_HandleMove (p1 p2 : Int) (g g2 : MinesGame) (fuel : Nat) (p : Int)
    (data : Data) (rng rng2 : Rand) (err : Option String) (hp : p = p1 ∨ p = p2)
    (hs : g.Safe p1 p2) (h : g.HandleMove fuel p data rng = some (err, g2, rng2)) :
    g2.Safe p1 p2 := by
  have h0 := h
  unfold MinesGame.HandleMove at h
  by_cases hsetup : g.isSetupCompleteUnlocked = true
  · rw [if_neg (by simp [hsetup])] at h
    by_cases hskip : g.moves.has p = true ∧ data = Data.nil
    · rw [if_pos hskip] at h
      simp only [Option.some.injEq, Prod.mk.injEq] at h
      rw [← h.2.1]
      exact hs
    · rw [if_neg hskip] at h
      simp only [Option.some.injEq, Prod.mk.injEq] at h
      rw [← h.2.1]
      apply MinesGame.safe_withMove p1 p2 g p _ hp _ hsetup hs
      have hr : rng 0 % 12 < 12 := Nat.mod_lt _ (by decide)
      cases data with
      | int n =>
        by_cases hn : n < 1 ∨ n > 12
        · simp only [hn, if_true, Intn]
          omega
        · simp only [hn, if_false]
          omega
      | nil => simp only [Intn]; omega
      | str x => simp only [Intn]; omega
      | ints xs => simp only [Intn]; omega
      | other => simp only [Intn]; omega
  · rw [if_pos (by simp [hsetup])] at h
    by_cases hskip : g.boards.has p = true ∧ data = Data.nil
    · rw [if_pos hskip] at h
      simp only [Option.some.injEq, Prod.mk.injEq] at h
      rw [← h.2.1]
      exact hs
    · obtain ⟨board, hb⟩ := MinesGame.setup_result g g2 fuel p data rng rng2 err hsetup hskip h0
      rw [hb]
      exact MinesGame.safe_withBoard p1 p2 g p _ hp hs

theorem MinesGame.safe_CheckResult (p1 p2 : Int) (g g2 : MinesGame) (res : Option GameResult)
    (hs : g.Safe p1 p2) (h : g.CheckResult = some (res, g2)) : g2.Safe p1 p2 := by
  have key : g2.players = g.players ∧ g2.boards = g.boards ∧
      (g2.moves = g.moves ∨ g2.moves = []) := by
    unfold MinesGame.CheckResult at h
    by_cases hlen : g.moves.len < 2
    · rw [if_pos hlen] at h
      cases h
      exact ⟨rfl, rfl, Or.inl rfl⟩
    · rw [if_neg hlen] at h
      dsimp only at h
      split at h
      · split_ifs at h <;> cases h <;> first
          | exact ⟨rfl, rfl, Or.inl rfl⟩
          | exact ⟨rfl, rfl, Or.inr rfl⟩
      · cases h
  obtain ⟨k1, k2, k3⟩ := key
  obtain ⟨h1, h2, h3, h4, h5, h6⟩ := hs
  unfold MinesGame.Safe
  rw [k1, k2]
  rcases k3 with k3 | k3
  · rw [k3]
    exact ⟨h1, h2, h3, h4, h5, h6⟩
  · rw [k3]
    exact ⟨h1, h2, h3, by simp [GoMap.keys], by simp, fun hh => absurd rfl hh⟩

theorem MinesGame.played_safe (p1 p2 : Int) (g : MinesGame) (h : g.Played p1 p2) :
    g.Safe p1 p2 := by
  induction h with
  | new id => exact MinesGame.safe_new p1 p2 id
  | move fuel p data rng rng2 err _ hp hm ih =>
    exact MinesGame.safe_HandleMove p1 p2 _ _ fuel p data rng rng2 err hp ih hm
  | setup fuel p data rng rng2 err _ hp hm ih =>
    exact MinesGame.safe_HandleMove p1 p2 _ _ fuel p data rng rng2 err hp ih hm
  | check res _ hc ih => exact MinesGame.safe_CheckResult p1 p2 _ _ res ih hc

theorem Board.at?_defined (b : Board) (c : Int) (h1 : 1 ≤ c) (h2 : c ≤ 12) :
    ∃ hit, b.at? (c - 1) = some hit := by
  unfold Board.at?
  rw [dif_pos (by omega)]
  exact ⟨_, rfl⟩

/-- C28: in a mines game of the players p1 and p2 on which only these two
have called `HandleSetup` and `HandleMove`, with any payloads, whenever two
moves are recorded both players have a board, every recorded cell lies in
1..12, both players have a move, the two lookups of `CheckResult` (the cell of
each on the board of the other) are defined, and `CheckResult` returns. -/
theorem mines_lookups_defined (p1 p2 : Int) (g : MinesGame) (hplayed : g.Played p1 p2)
    (htwo : 2 ≤ g.moves.len) :
    g.players = (p1, p2) ∧
    (∃ b1 b2, g.boards.get? p1 = some b1 ∧ g.boards.get? p2 = some b2) ∧
    (∀ e ∈ g.moves, 1 ≤ e.2 ∧ e.2 ≤ 12) ∧
    (∃ c1 c2 hit1 hit2, g.moves.get? p1 = some c1 ∧ g.moves.get? p2 = some c2 ∧
      g.hitAt p2 c1 = some hit1 ∧ g.hitAt p1 c2 = some hit2) ∧
    ∃ out, g.CheckResult = some out := by
  obtain ⟨h1, h2, h3, h4, h5, h6⟩ := MinesGame.played_safe p1 p2 g hplayed
  have hne : g.moves ≠ [] := by
    intro hh
    rw [hh] at htwo
    simp [GoMap.len] at htwo
  obtain ⟨hb1, hb2⟩ := h6 hne
  have hsub : ∀ k ∈ GoMap.keys g.moves, k = p1 ∨ k = p2 := by
    intro k hk
    simp only [GoMap.keys, List.mem_map] at hk
    obtain ⟨e, he, rfl⟩ := hk
    exact (h5 e he).1
  obtain ⟨hm1, hm2⟩ := GoMap.has_both g.moves p1 p2 h4 hsub htwo
  unfold GoMap.has at hb1 hb2 hm1 hm2
  obtain ⟨b1, e1⟩ := Option.isSome_iff_exists.mp hb1
  obtain ⟨b2, e2⟩ := Option.isSome_iff_exists.mp hb2
  obtain ⟨c1, f1⟩ := Option.isSome_iff_exists.mp hm1
  obtain ⟨c2, f2⟩ := Option.isSome_iff_exists.mp hm2
  have r1 := (h5 _ (GoMap.get?_mem _ _ _ f1)).2
  have r2 := (h5 _ (GoMap.get?_mem _ _ _ f2)).2
  obtain ⟨hit1, k1⟩ := Board.at?_defined b2 c1 r1.1 r1.2
  obtain ⟨hit2, k2⟩ := Board.at?_defined b1 c2 r2.1 r2.2
  have hh1 : g.hitAt p2 c1 = some hit1 := by simp only [MinesGame.hitAt, e2, k1]
  have hh2 : g.hitAt p1 c2 = some hit2 := by simp only [MinesGame.hitAt, e1, k2]
  refine ⟨h1, ⟨b1, b2, e1, e2⟩, fun e he => (h5 e he).2, ⟨c1, c2, hit1, hit2, f1, f2, hh1, hh2⟩, ?_⟩
  have g1 : g.hitAt g.players.2 (g.moves.getD g.players.1 0) = some hit1 := by
    rw [h1]
    simp only [GoMap.getD, f1, Option.getD_some]
    exact hh1
  have g2 : g.hitAt g.players.1 (g.moves.getD g.players.2 0) = some hit2 := by
    rw [h1]
    simp only [GoMap.getD, f2, Option.getD_some]
    exact hh2
  obtain ⟨res, g', e, -⟩ := mines_check_facts g hit1 hit2 (by omega) g1 g2
  exact ⟨_, e⟩

/-- Witness of C28: users 1 and 2 each place their mines on cell 3 (four
times), then user 1 chooses cell 3 and user 2 cell 5. -/
theorem mines_lookups_defined_witness :
    ∃ out, exampleMinesRound.CheckResult = some out := by
  have s0 : MinesGame.Played 1 2 (MinesGame.new "1" (1, 2)) := MinesGame.Played.new "1"
  have s1 : MinesGame.Played 1 2
      { MinesGame.new "1" (1, 2) with boards := [(1, Board.empty.mark 3)] } :=
    MinesGame.Played.setup 0 1 (Data.ints [3, 3, 3, 3]) (fun _ => 0) (fun _ => 0) none s0
      (Or.inl rfl) (by rfl)
  have s2 : MinesGame.Played 1 2
      { MinesGame.new "1" (1, 2) with
        boards := [(1, Board.empty.mark 3), (2, Board.empty.mark 3)] } :=
    MinesGame.Played.setup 0 2 (Data.ints [3, 3, 3, 3]) (fun _ => 0) (fun _ => 0) none s1
      (Or.inr rfl) (by rfl)
  have s3 : MinesGame.Played 1 2 exampleMines :=
    MinesGame.Played.move 0 1 (Data.int 5) (fun _ => 0) (fun _ => 0) none s2
      (Or.inl rfl) (by rfl)
  have s4 : MinesGame.Played 1 2
      { exampleMines with moves := [(1, 5), (2, 5)] } :=
    MinesGame.Played.move 0 2 (Data.int 5) (fun _ => 0) (fun _ => 0) none s3
      (Or.inr rfl) (by rfl)
  have s5 : MinesGame.Played 1 2 exampleMinesRound :=
    MinesGame.Played.move 0 1 (Data.int 3) (fun _ => 0) (fun _ => 0) none s4
      (Or.inl rfl) (by rfl)
  exact (mines_lookups_defined 1 2 exampleMinesRound s5 (by decide)).2.2.2.2

theorem clients_without_append (cl : GoMap Int Client) (gone : List Int) (u : Int) :
    cl.filter (fun e => decide (e.1 ∉ gone ++ [u]))
      = GoMap.del (cl.filter (fun e => decide (e.1 ∉ gone))) u := by
  unfold GoMap.del
  rw [List.filter_filter]
  apply List.filter_congr
  intro e _
  by_cases h1 : e.1 ∈ gone <;> by_cases h2 : e.1 = u <;> simp [h1, h2]

theorem sweptRoom_some (room r1 : Room) (gone : List Int) (h : sweptRoom room gone = some r1) :
    r1 = { room with Clients := room.Clients.filter (fun e => decide (e.1 ∉ gone)) } := by
  unfold sweptRoom at h
  by_cases hg : gone = []
  · rw [if_pos hg] at h
    cases h
    subst hg
    simp
  · rw [if_neg hg] at h
    split_ifs at h
    cases h
    rfl

theorem sweptRoom_append (room : Room) (gone : List Int) (u : Int) :
    sweptRoom room (gone ++ [u])
      = if GoMap.del (room.Clients.filter (fun e => decide (e.1 ∉ gone))) u = [] then none
        else some { room with
          Clients := GoMap.del (room.Clients.filter (fun e => decide (e.1 ∉ gone))) u } := by
  unfold sweptRoom
  rw [if_neg (by simp), clients_without_append]

theorem sweptRoom_none_append (room : Room) (gone : List Int) (u : Int)
    (h : sweptRoom room gone = none) : sweptRoom room (gone ++ [u]) = none := by
  rw [sweptRoom_append]
  unfold sweptRoom at h
  by_cases hg : gone = []
  · rw [if_pos hg] at h
    cases h
  · rw [if_neg hg] at h
    split_ifs at h with he
    rw [he]
    rfl

theorem sweptRoom_append_mem (room : Room) (gone : List Int) (u : Int) (hu : u ∈ gone) :
    sweptRoom room (gone ++ [u]) = sweptRoom room gone := by
  have hg : gone ≠ [] := by
    intro hh
    rw [hh] at hu
    simp at hu
  have hf : room.Clients.filter (fun e => decide (e.1 ∉ gone ++ [u]))
      = room.Clients.filter (fun e => decide (e.1 ∉ gone)) := by
    apply List.filter_congr
    intro e _
    by_cases h1 : e.1 ∈ gone
    · simp [h1]
    · have : e.1 ≠ u := fun hh => h1 (hh ▸ hu)
      simp [h1, this]
  unfold sweptRoom
  rw [if_neg (by simp), if_neg hg, hf]

theorem goneFrom_append_of (h : Hub) (done : List Int) (u : Int) (rid : String)
    (hm : h.UserRoom.get? u = some rid) :
    h.goneFrom (done ++ [u]) rid = h.goneFrom done rid ++ [u] := by
  simp [Hub.goneFrom, List.filter_append, hm]

theorem goneFrom_append_not (h : Hub) (done : List Int) (u : Int) (rid : String)
    (hm : ¬ h.UserRoom.get? u = some rid) :
    h.goneFrom (done ++ [u]) rid = h.goneFrom done rid := by
  simp [Hub.goneFrom, List.filter_append, hm]

theorem userRoom_after_drop (h acc : Hub) (done : List Int) (u : Int)
    (hU : ∀ v, acc.UserRoom.get? v = if v ∈ done then none else h.UserRoom.get? v) :
    ∀ v, (acc.UserRoom.del u).get? v
      = if v ∈ done ++ [u] then none else h.UserRoom.get? v := by
  intro v
  by_cases hv : v = u
  · subst hv
    rw [GoMap.get?_del_self]
    simp
  · rw [GoMap.get?_del_other _ _ _ (fun hh => hv hh.symm), hU v]
    simp [hv]

/-- One step of the second pass of the fast sweep keeps the bookkeeping. -/
theorem dropStaleUser_swept (h acc : Hub) (done : List Int) (u : Int)
    (hinv : h.SweptTo done acc) : h.SweptTo (done ++ [u]) (acc.dropStaleUser u) := by
  obtain ⟨hU, hR⟩ := hinv
  cases hu : acc.UserRoom.get? u with
  | none =>
    have hd : acc.dropStaleUser u = acc := by simp only [Hub.dropStaleUser, hu]
    rw [hd]
    have hu2 := hU u
    rw [hu] at hu2
    constructor
    · intro v
      rw [hU v]
      by_cases hv : v = u
      · subst hv
        rw [← hu2]
        simp
      · simp [hv]
    · intro rid
      rw [hR rid]
      by_cases hm : h.UserRoom.get? u = some rid
      · have hin : u ∈ done := by
          by_contra hc
          rw [if_neg hc, hm] at hu2
          cases hu2
        have hin2 : u ∈ h.goneFrom done rid := by
          simp [Hub.goneFrom, hin, hm]
        rw [goneFrom_append_of h done u rid hm]
        cases h.Rooms.get? rid with
        | none => rfl
        | some room =>
          simp only [Option.bind]
          exact (sweptRoom_append_mem room _ u hin2).symm
      · rw [goneFrom_append_not h done u rid hm]
  | some rid0 =>
    have hu2 := hU u
    rw [hu] at hu2
    have hnot : u ∉ done := by
      intro hc
      rw [if_pos hc] at hu2
      cases hu2
    rw [if_neg hnot] at hu2
    have hm0 : h.UserRoom.get? u = some rid0 := hu2.symm
    have hother : ∀ rid, rid ≠ rid0 → h.goneFrom (done ++ [u]) rid = h.goneFrom done rid := by
      intro rid hrid
      apply goneFrom_append_not
      rw [hm0]
      intro hh
      cases hh
      exact hrid rfl
    cases hr : acc.Rooms.get? rid0 with
    | none =>
      have hd : acc.dropStaleUser u = { acc with UserRoom := acc.UserRoom.del u } := by
        simp only [Hub.dropStaleUser, hu, hr]
      rw [hd]
      refine ⟨userRoom_after_drop h acc done u hU, ?_⟩
      intro rid
      show acc.Rooms.get? rid = _
      by_cases hrid : rid = rid0
      · subst hrid
        rw [hr, goneFrom_append_of h done u rid hm0]
        have h0 := hR rid
        rw [hr] at h0
        cases hroom : h.Rooms.get? rid with
        | none => rfl
        | some room =>
          rw [hroom] at h0
          simp only [Option.bind] at h0 ⊢
          exact (sweptRoom_none_append room _ u h0.symm).symm
      · rw [hR rid, hother rid hrid]
    | some r1 =>
      have h0 := hR rid0
      rw [hr] at h0
      cases hroom : h.Rooms.get? rid0 with
      | none =>
        rw [hroom] at h0
        cases h0
      | some room =>
        rw [hroom] at h0
        simp only [Option.bind] at h0
        have hr1 := sweptRoom_some room r1 _ h0.symm
        have happ := sweptRoom_append room (h.goneFrom done rid0) u
        by_cases hemp : (GoMap.del r1.Clients u).len = 0
        · have hd : acc.dropStaleUser u
              = { acc with Rooms := acc.Rooms.del rid0, UserRoom := acc.UserRoom.del u } := by
            simp only [Hub.dropStaleUser, hu, hr, hemp, if_true]
          rw [hd]
          refine ⟨userRoom_after_drop h acc done u hU, ?_⟩
          intro rid
          show (acc.Rooms.del rid0).get? rid = _
          by_cases hrid : rid = rid0
          · subst hrid
            rw [GoMap.get?_del_self, hroom, goneFrom_append_of h done u rid hm0]
            simp only [Option.bind]
            rw [happ]
            have he : GoMap.del (room.Clients.filter
                (fun e => decide (e.1 ∉ h.goneFrom done rid))) u = [] := by
              rw [hr1] at hemp
              exact List.length_eq_zero.mp hemp
            rw [if_pos he]
          · rw [GoMap.get?_del_other _ _ _ (fun hh => hrid hh.symm), hR rid, hother rid hrid]
        · have hd : acc.dropStaleUser u
              = { acc with
                  Rooms := acc.Rooms.set rid0 { r1 with Clients := GoMap.del r1.Clients u },
                  UserRoom := acc.UserRoom.del u } := by
            simp only [Hub.dropStaleUser, hu, hr, hemp, if_false]
          rw [hd]
          refine ⟨userRoom_after_drop h acc done u hU, ?_⟩
          intro rid
          show (acc.Rooms.set rid0 { r1 with Clients := GoMap.del r1.Clients u }).get? rid = _
          by_cases hrid : rid = rid0
          · subst hrid
            rw [GoMap.get?_set_self, hroom, goneFrom_append_of h done u rid hm0]
            simp only [Option.bind]
            rw [happ]
            have he : ¬ GoMap.del (room.Clients.filter
                (fun e => decide (e.1 ∉ h.goneFrom done rid))) u = [] := by
              intro hh
              apply hemp
              rw [hr1]
              exact List.length_eq_zero.mpr hh
            rw [if_neg he, hr1]
          · rw [GoMap.get?_set_other _ _ _ _ (fun hh => hrid hh.symm), hR rid, hother rid hrid]

theorem staleFold_swept (h : Hub) (stale : List (WaitingKey × Int)) (acc : Hub)
    (done : List Int) (hinv : h.SweptTo done acc) :
    h.SweptTo (done ++ stale.map (fun e => e.2))
      (stale.foldl
        (fun acc x => Hub.dropStaleUser { acc with WaitingByKey := acc.WaitingByKey.del x.1 } x.2)
        acc) ∧
    (stale.foldl
        (fun acc x => Hub.dropStaleUser { acc with WaitingByKey := acc.WaitingByKey.del x.1 } x.2)
        acc).WaitingByKey
      = (stale.map (fun e => e.1)).foldl (fun m k => GoMap.del m k) acc.WaitingByKey := by
  induction stale generalizing acc done with
  | nil =>
    simp only [List.map_nil, List.append_nil, List.foldl_nil]
    exact ⟨hinv, trivial⟩
  | cons x t ih =>
    simp only [List.foldl_cons, List.map_cons]
    have h1 : h.SweptTo done { acc with WaitingByKey := acc.WaitingByKey.del x.1 } := hinv
    have h2 := dropStaleUser_swept h _ done x.2 h1
    obtain ⟨k1, k2⟩ := ih _ (done ++ [x.2]) h2
    rw [List.append_assoc] at k1
    refine ⟨k1, ?_⟩
    rw [k2, dropStaleUser_waiting]

theorem getD_set_other {V : Type} (m : GoMap Nat V) (k k2 : Nat) (v d : V) (hne : k ≠ k2) :
    (m.set k v).getD k2 d = m.getD k2 d := by
  unfold GoMap.getD
  rw [GoMap.get?_set_other _ _ _ _ hne]

/-- The first pass of the fast sweep over entries of workers on distinct
connections: the entries collected are those whose worker cannot take a push
in the queues as they were at the start. -/
theorem probeAll_stale {K : Type} (entries : GoMap K Client) (sends : Sends)
    (acc : List (K × Int)) (hconn : (entries.map (fun e => e.2.Conn)).Nodup) :
    (entries.foldl
      (fun acc e =>
        match trySend acc.2 e.2 pingMsg with
        | some sends1 => (acc.1, sends1)
        | none => (acc.1 ++ [(e.1, e.2.UserID)], acc.2))
      (acc, sends)).1
      = acc ++ (entries.filter (fun e => !alive sends e.2)).map (fun e => (e.1, e.2.UserID)) := by
  induction entries generalizing sends acc with
  | nil => simp
  | cons e t ih =>
    simp only [List.map_cons, List.nodup_cons] at hconn
    simp only [List.foldl_cons]
    by_cases ha : (sends.getD e.2.Conn []).length < sendCap
    · have hs : trySend sends e.2 pingMsg
          = some (sends.set e.2.Conn (sends.getD e.2.Conn [] ++ [pingMsg])) := by
        simp [trySend, ha]
      simp only [hs]
      rw [ih _ _ hconn.2]
      have hal : alive sends e.2 = true := by simp [alive, ha]
      rw [List.filter_cons, hal]
      simp only [Bool.not_true, Bool.false_eq_true, if_false]
      congr 2
      apply List.filter_congr
      intro x hx
      have hne : e.2.Conn ≠ x.2.Conn := by
        intro hh
        apply hconn.1
        rw [hh]
        exact List.mem_map.mpr ⟨x, hx, rfl⟩
      simp only [alive, getD_set_other _ _ _ _ _ hne]
    · have hs : trySend sends e.2 pingMsg = none := by
        simp [trySend, ha]
      simp only [hs]
      rw [ih _ _ hconn.2]
      have hal : alive sends e.2 = false := by simp [alive, ha]
      rw [List.filter_cons, hal]
      simp

theorem dropStaleUser_legacy (h : Hub) (userID : Int) :
    (h.dropStaleUser userID).WaitingByGame = h.WaitingByGame := by
  simp only [Hub.dropStaleUser]
  split
  · rfl
  · split
    · rfl
    · dsimp only
      split_ifs <;> rfl

theorem staleFold_legacy (stale : List (WaitingKey × Int)) (h : Hub) :
    (stale.foldl
      (fun acc x => Hub.dropStaleUser { acc with WaitingByKey := acc.WaitingByKey.del x.1 } x.2)
      h).WaitingByGame = h.WaitingByGame := by
  induction stale generalizing h with
  | nil => rfl
  | cons x t ih =>
    simp only [List.foldl_cons]
    rw [ih, dropStaleUser_legacy]

/-- C21, amended: for a directory whose waiting map has one entry per key and
one worker per connection, and whose legacy map is empty, `cleanupStaleWaiting`
leaves exactly the waiting entries whose worker can take a push; deletes the
`UserRoom` entry of the user of every removed entry and leaves the entries of
the other users; and detaches, from each session, the users of removed entries
that `UserRoom` maps to it, dropping the session from Rooms when no worker is
left in it. A session to which `UserRoom` maps no such user is unchanged. -/
theorem stale_waiting_sweep (h : Hub) (sends : Sends)
    (hnd : (GoMap.keys h.WaitingByKey).Nodup)
    (hconn : (h.WaitingByKey.map (fun e => e.2.Conn)).Nodup)
    (hlegacy : h.WaitingByGame = []) :
    (h.cleanupStaleWaiting sends).1.WaitingByKey
      = h.WaitingByKey.filter (fun e => alive sends e.2) ∧
    (∀ u, (h.cleanupStaleWaiting sends).1.UserRoom.get? u
      = if u ∈ h.staleUsers sends then none else h.UserRoom.get? u) ∧
    (∀ rid, (h.cleanupStaleWaiting sends).1.Rooms.get? rid
      = (h.Rooms.get? rid).bind
          (fun room => sweptRoom room (h.goneFrom (h.staleUsers sends) rid))) ∧
    (∀ rid room, h.Rooms.get? rid = some room → h.goneFrom (h.staleUsers sends) rid = [] →
      (h.cleanupStaleWaiting sends).1.Rooms.get? rid = some room) := by
  have hp := probeAll_stale h.WaitingByKey sends [] hconn
  simp only [List.nil_append] at hp
  have h0 : h.SweptTo [] h := by
    refine ⟨fun u => by simp, fun rid => ?_⟩
    cases h.Rooms.get? rid with
    | none => rfl
    | some room => simp [Hub.goneFrom, sweptRoom]
  obtain ⟨k1, k2⟩ := staleFold_swept h (Hub.probeAll h.WaitingByKey sends).1 h [] h0
  have hleg := staleFold_legacy (Hub.probeAll h.WaitingByKey sends).1 h
  rw [hlegacy] at hleg
  have hout : (h.cleanupStaleWaiting sends).1
      = (Hub.probeAll h.WaitingByKey sends).1.foldl
          (fun acc x =>
            Hub.dropStaleUser { acc with WaitingByKey := acc.WaitingByKey.del x.1 } x.2) h := by
    simp only [Hub.cleanupStaleWaiting, hleg]
    simp [Hub.probeAll]
  rw [hout]
  have husers : (Hub.probeAll h.WaitingByKey sends).1.map (fun e => e.2) = h.staleUsers sends := by
    unfold Hub.probeAll
    rw [hp]
    simp [Hub.staleUsers, List.map_map, Function.comp]
  have hkeys : (Hub.probeAll h.WaitingByKey sends).1.map (fun e => e.1)
      = GoMap.keys (h.WaitingByKey.filter (fun e => !alive sends e.2)) := by
    unfold Hub.probeAll
    rw [hp]
    simp [GoMap.keys, List.map_map, Function.comp]
  rw [List.nil_append, husers] at k1
  rw [hkeys] at k2
  have hR := k1.2
  refine ⟨?_, k1.1, hR, ?_⟩
  · rw [k2, GoMap.foldl_del_eq_filter]
    apply List.filter_congr
    intro e he
    obtain ⟨k, w⟩ := e
    have hget := GoMap.get?_of_mem _ hnd k w he
    by_cases ha : alive sends w = true
    · have : k ∉ GoMap.keys (h.WaitingByKey.filter (fun e => !alive sends e.2)) := by
        intro hk
        simp only [GoMap.keys, List.mem_map, List.mem_filter] at hk
        obtain ⟨⟨k', w'⟩, ⟨hmem, hdead⟩, hk'⟩ := hk
        simp only at hk'
        subst hk'
        have := GoMap.get?_of_mem _ hnd k' w' hmem
        rw [hget] at this
        cases this
        simp [ha] at hdead
      simp [this, ha]
    · have : k ∈ GoMap.keys (h.WaitingByKey.filter (fun e => !alive sends e.2)) := by
        simp only [GoMap.keys, List.mem_map, List.mem_filter]
        exact ⟨(k, w), ⟨he, by simpa using ha⟩, rfl⟩
      simp [this, ha]
  · intro rid room hroom hgone
    rw [hR rid, hroom, hgone]
    simp [sweptRoom]

/-- C21, as worded, fails: user 1 has two waiting entries, an old one whose
worker (connection 1) has a full queue and the one of its present worker
(connection 3), which waits in session "2" and takes the push. The sweep
removes the old entry only, and with it the `UserRoom` entry of user 1 and
session "2": the entry that stays has lost its session and its mapping. -/
theorem sweep_drops_session_of_live_entry :
    alive fullSends (exampleClient 1 1 "rps") = false ∧
    alive fullSends exampleSecondWorker = true ∧
    hubTwoEntries.WaitingByKey
      = [(Hub.waitingKeyOf (exampleClient 1 1 "rps"), exampleClient 1 1 "rps"),
         (Hub.waitingKeyOf exampleSecondWorker, exampleSecondWorker)] ∧
    hubTwoEntries.UserRoom.get? 1 = some "2" ∧
    (hubTwoEntries.Rooms.get? "2").map (fun room => GoMap.keys room.Clients) = some [1] ∧
    (hubTwoEntries.cleanupStaleWaiting fullSends).1.WaitingByKey
      = [(Hub.waitingKeyOf exampleSecondWorker, exampleSecondWorker)] ∧
    (hubTwoEntries.cleanupStaleWaiting fullSends).1.UserRoom.get? 1 = none ∧
    (hubTwoEntries.cleanupStaleWaiting fullSends).1.Rooms.get? "2" = none := by
  decide!

/-- Witness of C21 amended: the sweep over the directory with the two waiting
entries of user 1, the queue of connection 1 full. -/
theorem stale_waiting_sweep_witness :
    (hubTwoEntries.cleanupStaleWaiting fullSends).1.WaitingByKey
      = hubTwoEntries.WaitingByKey.filter (fun e => alive fullSends e.2) :=
  (stale_waiting_sweep hubTwoEntries fullSends (by decide) (by decide) (by decide)).1

/-! ## Telegram init data -/

/-- The HMAC written out in the test is the HMAC of `crypto/hmac`. -/
theorem hmacNew_eq_hmac (key data : Bytes) : hmacNew key data = Sha256.hmac key data := by
  unfold hmacNew Sha256.hmac Sha256.blockSize
  by_cases h : (if key.length > 64 then Sha256.sum256 key else key).length < 64
  · simp only [if_pos h]
  · have h0 : 64 - (if key.length > 64 then Sha256.sum256 key else key).length = 0 := by omega
    simp only [if_neg h, h0, List.replicate_zero, List.append_nil]

/-- C25 at a failing input: with the token and the fields of the test and the
clock at 1700000000, `buildInitData` keys the hash with the SHA-256 digest of
the token (1943...) and sends the hash 5746..., while
`ValidateTelegramInitData` computes the hash under the key
HMAC-SHA256("WebAppData", token) (7a69...) and gets c22a...: the init data of
the test is rejected, where the test asserts that it is accepted. With "&x=1"
appended it is rejected as well. The same fields with the hash c22a... are
accepted, `auth_date` and `user` returned. -/
theorem test_signed_init_data_rejected :
    buildInitData testToken testFields
      = bytesOf "auth_date=1700000000&hash=5746edb359fa7dc0405c2f56ee0db582796e3ca9dcdec5794589265e1b0c10a1&user=%7B%22id%22%3A1%2C%22username%22%3A%22u%22%2C%22first_name%22%3A%22F%22%7D" ∧
    hexEncode (Sha256.sum256 testToken)
      = bytesOf "19434281d9f1460bdb2be9f1328d697dbd491dd969489efed06afaeadb6ed861" ∧
    hexEncode (Sha256.hmac (bytesOf "WebAppData") testToken)
      = bytesOf "7a69e9a9411a3dc1ade412bec400c377857ceb38c4c85d7d74385ac0fbc54f7f" ∧
    (ParseQuery (buildInitData testToken testFields)).map
        (fun values => dataCheckString (Values.Del values (bytesOf "hash")))
      = some (bytesOf "auth_date=1700000000\nuser=\x7b\"id\":1,\"username\":\"u\",\"first_name\":\"F\"\x7d") ∧
    hexEncode (Sha256.hmac (Sha256.hmac (bytesOf "WebAppData") testToken)
        (bytesOf "auth_date=1700000000\nuser=\x7b\"id\":1,\"username\":\"u\",\"first_name\":\"F\"\x7d"))
      = bytesOf "c22a8818f779399799f79bd4835caf62ca287f327e23924613e3a359af845e41" ∧
    ValidateTelegramInitData 1700000000 (buildInitData testToken testFields) testToken = none ∧
    ValidateTelegramInitData 1700000000 (buildInitData testToken testFields ++ bytesOf "&x=1")
      testToken = none ∧
    ValidateTelegramInitData 1700000000 webAppInitData testToken
      = some [(bytesOf "auth_date", [bytesOf "1700000000"]),
          (bytesOf "user",
            [bytesOf "\x7b\"id\":1,\"username\":\"u\",\"first_name\":\"F\"\x7d"])] := by
  decide!

/-- The guards of `ValidateTelegramInitData` in one equation: init data that
parses, carries a non-empty `hash` that is hexadecimal, and has an
`auth_date` that is a number at most 3600 seconds before and at most 300
seconds after the clock, is accepted exactly when the hash decodes to the
HMAC-SHA256 of the data-check string under the key
HMAC-SHA256("WebAppData", bot token); the fields without `hash` are then
returned. -/
theorem validate_of_parsed (now : Int) (initData botToken : Bytes)
    (values : Values) (provided : Bytes) (authDate : Int)
    (hparse : ParseQuery initData = some values)
    (hhash : Values.Get values (bytesOf "hash") ≠ [])
    (hhex : hexDecode (Values.Get values (bytesOf "hash")) = some provided)
    (hdate : Values.Get (Values.Del values (bytesOf "hash")) (bytesOf "auth_date") ≠ [])
    (hint : ParseInt (Values.Get (Values.Del values (bytesOf "hash")) (bytesOf "auth_date"))
      = some authDate)
    (hrecent : now - authDate ≤ 3600 ∧ authDate - now ≤ 300) :
    ValidateTelegramInitData now initData botToken =
      if Sha256.hmac (Sha256.hmac (bytesOf "WebAppData") botToken)
          (dataCheckString (Values.Del values (bytesOf "hash"))) = provided
      then some (Values.Del values (bytesOf "hash")) else none := by
  have h1 : wrap64 (now - authDate) = now - authDate :=
    wrap64_of_fits _ (by omega) (by omega)
  have h2 : wrap64 (authDate - now) = authDate - now :=
    wrap64_of_fits _ (by omega) (by omega)
  unfold ValidateTelegramInitData
  simp only [hparse, if_neg hhash, hhex, if_neg hdate, hint, h1, h2]
  by_cases hc : Sha256.hmac (Sha256.hmac (bytesOf "WebAppData") botToken)
      (dataCheckString (Values.Del values (bytesOf "hash"))) = provided
  · have hr : ¬ (now - authDate > 3600 ∨ authDate - now > 300) := by omega
    simp [hc, hr]
  · simp [hc]

/-- An instance of the guards: the fields of the test with the hash c22a...,
keyed by HMAC-SHA256("WebAppData", token), are accepted at clock 1700000000;
with "&x=1" appended the hash no longer matches and the init data is
rejected. -/
theorem validate_of_parsed_example :
    ValidateTelegramInitData 1700000000 webAppInitData testToken
      = some [(bytesOf "auth_date", [bytesOf "1700000000"]),
          (bytesOf "user",
            [bytesOf "\x7b\"id\":1,\"username\":\"u\",\"first_name\":\"F\"\x7d"])] ∧
    ValidateTelegramInitData 1700000000 (webAppInitData ++ bytesOf "&x=1") testToken = none :=
  ⟨(validate_of_parsed 1700000000 webAppInitData testToken
    [(bytesOf "auth_date", [bytesOf "1700000000"]),
     (bytesOf "hash",
       [bytesOf "c22a8818f779399799f79bd4835caf62ca287f327e23924613e3a359af845e41"]),
     (bytesOf "user", [bytesOf "\x7b\"id\":1,\"username\":\"u\",\"first_name\":\"F\"\x7d"])]
    (Sha256.hmac (Sha256.hmac (bytesOf "WebAppData") testToken)
      (bytesOf "auth_date=1700000000\nuser=\x7b\"id\":1,\"username\":\"u\",\"first_name\":\"F\"\x7d"))
    1700000000 (by decide!) (by decide!) (by decide!) (by decide!) (by decide!)
    (by decide)).trans (by decide!),
   (validate_of_parsed 1700000000 (webAppInitData ++ bytesOf "&x=1") testToken
    [(bytesOf "auth_date", [bytesOf "1700000000"]),
     (bytesOf "hash",
       [bytesOf "c22a8818f779399799f79bd4835caf62ca287f327e23924613e3a359af845e41"]),
     (bytesOf "user", [bytesOf "\x7b\"id\":1,\"username\":\"u\",\"first_name\":\"F\"\x7d"]),
     (bytesOf "x", [bytesOf "1"])]
    (Sha256.hmac (Sha256.hmac (bytesOf "WebAppData") testToken)
      (bytesOf "auth_date=1700000000\nuser=\x7b\"id\":1,\"username\":\"u\",\"first_name\":\"F\"\x7d"))
    1700000000 (by decide!) (by decide!) (by decide!) (by decide!) (by decide!)
    (by decide)).trans (by decide!)⟩

/-! ## A stale waiting entry at work: pairing across keys, a player without a board -/

/-- The directory after the no-opponent cancel is reached from the empty one. -/
theorem hubAfterCancel_reachable : Hub.Reachable hubAfterCancel := by
  have r0 : Hub.Reachable hubOneWaiting :=
    Hub.Reachable.step (Hub.Reachable.init false false true)
      (Hub.Step.assign _ [] 0 (exampleClient 1 1 "rps"))
  have e : hubAfterCancel = (cancelledRoom.cleanup hubOneWaiting).2 := by decide
  rw [e]
  exact Hub.Reachable.step r0 (Hub.Step.roomCleanup _ _)

/-- C7 at a failing input, a directory reached from the empty one: the worker
of user 1 on connection 1 is still the waiting entry for rock-paper-scissors
at 100 coins after its session was cancelled, and user 1 waits alone in
session "2", mines at 500 coins, with the worker on connection 3. User 2 asks
for rock-paper-scissors at 100 coins: the call matches the stale entry,
follows `UserRoom` of user 1 to session "2" and attaches user 2 as its second
participant. The worker that waits in that session has the key
(mines, 500, coins), the one attached (rps, 100, coins). -/
theorem stale_entry_pairs_across_keys :
    Hub.Reachable hubStaleAndMines.1 ∧
    hubStaleAndMines.1.WaitingByKey
      = [(Hub.waitingKeyOf (exampleClient 1 1 "rps"), exampleClient 1 1 "rps"),
         (Hub.waitingKeyOf exampleSecondWorker, exampleSecondWorker)] ∧
    (hubStaleAndMines.1.Rooms.get? "2").map
        (fun room => (room.Clients, room.game.Players, room.game.GameType, room.BetAmount))
      = some ([(1, exampleSecondWorker)], (1, 0), "mines", 500) ∧
    hubCrossPaired.2.2 = { room := some "2", joined := some (exampleClient 1 1 "rps") } ∧
    (hubCrossPaired.1.Rooms.get? "2").map
        (fun room => (room.Clients, room.game.Players, room.game.GameType, room.BetAmount))
      = some ([(1, exampleSecondWorker), (2, exampleClient 2 2 "rps")], (1, 2), "mines", 500) ∧
    Hub.waitingKeyOf exampleSecondWorker
      = { GameType := "mines", BetAmount := 500, Currency := "coins" } ∧
    Hub.waitingKeyOf (exampleClient 2 2 "rps")
      = { GameType := "rps", BetAmount := 100, Currency := "coins" } := by
  refine ⟨Hub.Reachable.step hubAfterCancel_reachable (Hub.Step.assign _ _ _ _),
    by decide, by decide, by decide, by decide, by decide, by decide⟩

/-- Once the game says the round is complete and `CheckResult` returns, the
result check of the session returns too, with the game as `CheckResult` left it. -/
theorem checkRound_game (r : Room) (res : Option GameResult) (g1 : Game)
    (hflag : r.roundChecking = false) (hc : r.game.IsRoundComplete = true)
    (hcr : r.game.CheckResult = some (res, g1)) :
    ∃ out, r.checkRound = some out ∧ out.1.game = g1 := by
  unfold Room.checkRound
  simp only [hflag, hc, hcr, Bool.false_eq_true, if_false, not_true_eq_false]
  cases res with
  | none =>
    dsimp only
    split_ifs <;> exact ⟨_, rfl, rfl⟩
  | some result =>
    dsimp only
    split_ifs <;> exact ⟨_, rfl, rfl⟩

/-- A result check of rock-paper-scissors on two recorded moves counts the round. -/
theorem rps_check_counts (g : RPSGame) (hlen : ¬ g.moves.len < 2) :
    g.CheckResult.2.round = g.round + 1 ∧ g.CheckResult.2.players = g.players := by
  unfold RPSGame.CheckResult
  rw [if_neg hlen]
  dsimp only
  split_ifs <;> exact ⟨rfl, rfl⟩

/-- The round-timeout callback where the result check has what it reads: in
a game of two distinct players with setup complete, no move recorded, the
guard of the result check clear and, for mines, a board for each player, the
callback for the current generation returns whatever the random source
yields, and the round counter of the game is one higher than before: the
round has been checked. -/
theorem timeout_checks_round (fuel : Nat) (r : Room) (rng : Rand)
    (hne : r.game.Players.1 ≠ r.game.Players.2)
    (hsetup : r.game.IsSetupComplete = true)
    (hall : ∀ p, r.game.recordedMove p = none)
    (hflag : r.roundChecking = false)
    (hboards : ∀ g, r.game = Game.mines g →
      g.boards.has g.players.1 = true ∧ g.boards.has g.players.2 = true) :
    ∃ out, Room.handleRoundTimeout fuel r r.timerRound rng = some out ∧
      out.1.game.GetRound = r.game.GetRound + 1 ∧
      out.1.game.Players = r.game.Players := by
  have key : ∃ g1 rng1 res g2, Room.fallbackMoves fuel r.game rng = some (g1, rng1) ∧
      g1.IsRoundComplete = true ∧ g1.CheckResult = some (res, g2) ∧
      g2.GetRound = r.game.GetRound + 1 ∧ g2.Players = r.game.Players := by
    cases hg : r.game with
    | rps g =>
      rw [hg] at hall hne
      have hm : g.moves = [] := by
        apply GoMap.eq_nil_of_get?_none
        intro k
        have := hall k
        simpa [Game.recordedMove] using this
      simp only [Game.Players] at hne
      obtain ⟨mv1, -, e1⟩ := rps_fallback_move g g.players.1 rng
        (by simp [hm, GoMap.has, GoMap.get?])
      obtain ⟨mv2, -, e2⟩ := rps_fallback_move
        { g with moves := g.moves.set g.players.1 mv1 } g.players.2 (fun i => rng (i + 1))
        (by simp [hm, GoMap.has, GoMap.get?, GoMap.set, hne])
      have hlen : ¬ GoMap.len
          ({ g with moves := (g.moves.set g.players.1 mv1).set g.players.2 mv2 } : RPSGame).moves
          < 2 := by
        simp [GoMap.len, GoMap.set, hm, hne]
      obtain ⟨c1, c2⟩ := rps_check_counts _ hlen
      refine ⟨Game.rps { g with moves := (g.moves.set g.players.1 mv1).set g.players.2 mv2 },
        fun i => rng (i + 1 + 1), _, _, ?_, ?_, rfl, ?_, ?_⟩
      · simp only [Room.fallbackMoves, Game.HandleMove, Game.Players, e1, e2]
      · simp [Game.IsRoundComplete, RPSGame.IsRoundComplete, GoMap.len, GoMap.set, hm, hne]
      · simpa [Game.GetRound, RPSGame.GetRound] using c1
      · simpa [Game.Players] using c2
    | mines g =>
      rw [hg] at hall hne hsetup
      have hm : g.moves = [] := by
        apply GoMap.eq_nil_of_get?_none
        intro k
        have := hall k
        simpa [Game.recordedMove] using this
      have hs : g.isSetupCompleteUnlocked = true := hsetup
      simp only [Game.Players] at hne
      obtain ⟨hb1, hb2⟩ := hboards g hg
      obtain ⟨n1, hl1, hu1, e1⟩ := mines_fallback_move fuel g g.players.1 rng hs
        (by simp [hm, GoMap.has, GoMap.get?])
      obtain ⟨n2, hl2, hu2, e2⟩ := mines_fallback_move fuel
        { g with moves := g.moves.set g.players.1 n1 } g.players.2 (fun i => rng (i + 1)) hs
        (by simp [hm, GoMap.has, GoMap.get?, GoMap.set, hne])
      have hne' : ¬ g.players.2 = g.players.1 := fun hh => hne hh.symm
      obtain ⟨b1, hb1'⟩ : ∃ b, g.boards.get? g.players.1 = some b := by
        simp only [GoMap.has] at hb1
        exact Option.isSome_iff_exists.mp hb1
      obtain ⟨b2, hb2'⟩ : ∃ b, g.boards.get? g.players.2 = some b := by
        simp only [GoMap.has] at hb2
        exact Option.isSome_iff_exists.mp hb2
      obtain ⟨hit1, hh1⟩ := Board.at?_defined b2 n1 hl1 hu1
      obtain ⟨hit2, hh2⟩ := Board.at?_defined b1 n2 hl2 hu2
      obtain ⟨res, g', e, hround, -, hplayers, -⟩ := mines_check_facts
        { g with moves := (g.moves.set g.players.1 n1).set g.players.2 n2 } hit1 hit2
        (by simp [GoMap.len, GoMap.set, hm, hne])
        (by simpa [MinesGame.hitAt, hb2', GoMap.getD, GoMap.get?, GoMap.set, hm, hne] using hh1)
        (by simpa [MinesGame.hitAt, hb1', GoMap.getD, GoMap.get?, GoMap.set, hm, hne, hne']
          using hh2)
      refine ⟨Game.mines { g with moves := (g.moves.set g.players.1 n1).set g.players.2 n2 },
        fun i => rng (i + 1 + 1), res, Game.mines g', ?_, ?_, ?_, ?_, ?_⟩
      · simp only [Room.fallbackMoves, Game.HandleMove, Game.Players, e1, e2]
      · simp [Game.IsRoundComplete, MinesGame.IsRoundComplete, GoMap.len, GoMap.set, hm, hne]
      · simp only [Game.CheckResult, e]
      · simpa [Game.GetRound, MinesGame.GetRound] using hround
      · simpa [Game.Players] using hplayers
  obtain ⟨g1, rng1, res, g2, hfb, hc, hcr, hround, hplayers⟩ := key
  obtain ⟨out, hout, hgame⟩ := checkRound_game { r with game := g1 } res g2 hflag hc hcr
  refine ⟨(out.1, out.2, rng1), ?_, ?_, ?_⟩
  · simp only [Room.handleRoundTimeout, ne_eq, not_true_eq_false, if_false, hfb, hc, if_true,
      hout]
  · rw [hgame]
    exact hround
  · rw [hgame]
    exact hplayers

/-- In a mines game with setup complete, no move recorded and no board for
players[1], the round-timeout callback for the current generation records
both fallback moves and then fails in `CheckResult`, whatever the random
source yields: the lookup on the board of players[1] has no board to read. -/
theorem timeout_panics_without_board (fuel : Nat) (r : Room) (g : MinesGame) (rng : Rand)
    (hg : r.game = Game.mines g) (hne : g.players.1 ≠ g.players.2)
    (hs : g.isSetupCompleteUnlocked = true) (hm : g.moves = [])
    (hb : g.boards.get? g.players.2 = none) (hflag : r.roundChecking = false) :
    Room.handleRoundTimeout fuel r r.timerRound rng = none := by
  obtain ⟨n1, -, -, e1⟩ := mines_fallback_move fuel g g.players.1 rng hs
    (by simp [hm, GoMap.has, GoMap.get?])
  obtain ⟨n2, -, -, e2⟩ := mines_fallback_move fuel
    { g with moves := g.moves.set g.players.1 n1 } g.players.2 (fun i => rng (i + 1)) hs
    (by simp [hm, GoMap.has, GoMap.get?, GoMap.set, hne])
  have hfb : Room.fallbackMoves fuel r.game rng
      = some (Game.mines { g with moves := (g.moves.set g.players.1 n1).set g.players.2 n2 },
          fun i => rng (i + 1 + 1)) := by
    rw [hg]
    simp only [Room.fallbackMoves, Game.HandleMove, Game.Players, e1, e2]
  have hc : (Game.mines
      { g with moves := (g.moves.set g.players.1 n1).set g.players.2 n2 }).IsRoundComplete
      = true := by
    simp [Game.IsRoundComplete, MinesGame.IsRoundComplete, GoMap.len, GoMap.set, hm, hne]
  have hcr : (Game.mines
      { g with moves := (g.moves.set g.players.1 n1).set g.players.2 n2 }).CheckResult
      = none := by
    simp [Game.CheckResult, MinesGame.CheckResult, MinesGame.hitAt, GoMap.len, GoMap.set, hm,
      hne, hb]
  simp only [Room.handleRoundTimeout, ne_eq, not_true_eq_false, if_false, hfb, hc, if_true,
    Room.checkRound, hflag, hcr, Bool.false_eq_true, Bool.not_eq_true]

/-- C4 at a failing input, a directory reached from the empty one: users 1
and 2 play mines in session "2", both have placed their mines and round 1 is
running with no move made, while the worker of user 1 from a cancelled
session is still the waiting entry for rock-paper-scissors at 100 coins.
User 3 asks for rock-paper-scissors at 100 coins, is matched with that entry
and made the second player of session "2": the players are 1 and 3, the
boards those of 1 and 2, setup counts as complete. The round-timeout callback
for the current generation records a fallback move for 1 and for 3, the round
is complete, and the result check fails on the missing board of user 3 for
every random source: the callback does not return. -/
theorem timeout_panics_after_stale_pairing :
    Hub.Reachable hubMinesPlayed ∧
    hubMinesPlayed.WaitingByKey
      = [(Hub.waitingKeyOf (exampleClient 1 1 "rps"), exampleClient 1 1 "rps")] ∧
    (hubMinesPlayed.Rooms.get? "2").map
        (fun room => (GoMap.keys room.Clients, room.game.Players, room.game.IsSetupComplete,
          room.roundStarted, room.timerRound))
      = some ([1, 2], (1, 2), true, true, 1) ∧
    hubThirdJoined.2.2 = { room := some "2", joined := some (exampleClient 1 1 "rps") } ∧
    minesSessionThird.map
        (fun room => (GoMap.keys room.Clients, room.game.Players, room.game.IsSetupComplete,
          (room.game.recordedMove 1).isSome, (room.game.recordedMove 3).isSome))
      = some ([1, 2, 3], (1, 3), true, false, false) ∧
    minesSessionThird.map
        (fun room =>
          match room.game with
          | Game.mines g => (GoMap.keys g.boards, g.moves)
          | Game.rps _ => ([], []))
      = some ([1, 2], []) ∧
    minesSessionThird.map
        (fun room => (Room.fallbackMoves 0 room.game (fun i => i)).map
          (fun a => (a.1.IsRoundComplete,
            match a.1 with
            | Game.mines g => g.moves
            | Game.rps _ => [])))
      = some (some (true, [(1, 1), (3, 2)])) ∧
    ∃ room, minesSessionThird = some room ∧
      ∀ fuel rng, Room.handleRoundTimeout fuel room room.timerRound rng = none := by
  refine ⟨?_, by decide, by decide, by decide, by decide, by decide, by decide, ?_⟩
  · have e : hubMinesPlayed
        = { hubMinesPaired.1 with Rooms := hubMinesPlayed.Rooms } := by decide
    rw [e]
    exact Hub.Reachable.step
      (Hub.Reachable.step
        (Hub.Reachable.step hubAfterCancel_reachable (Hub.Step.assign _ _ _ _))
        (Hub.Step.assign _ _ _ _))
      (Hub.Step.roomRun _ _)
  · have hsome : minesSessionThird.isSome = true := by decide
    obtain ⟨room, hroom⟩ := Option.isSome_iff_exists.mp hsome
    refine ⟨room, hroom, ?_⟩
    have hfacts : minesSessionThird.map (fun room =>
        match room.game with
        | Game.mines g => decide (g.players.1 ≠ g.players.2) && g.isSetupCompleteUnlocked
            && decide (g.moves = []) && decide (g.boards.get? g.players.2 = none)
            && !room.roundChecking
        | Game.rps _ => false) = some true := by decide
    rw [hroom] at hfacts
    simp only [Option.map_some', Option.some.injEq] at hfacts
    intro fuel rng
    cases hg : room.game with
    | rps g0 => simp [hg] at hfacts
    | mines g =>
      simp only [hg, Bool.and_eq_true, decide_eq_true_eq, Bool.not_eq_true'] at hfacts
      obtain ⟨⟨⟨⟨h1, h2⟩, h3⟩, h4⟩, h5⟩ := hfacts
      exact timeout_panics_without_board fuel room g rng hg h1 h2 h3 h4 h5

end Coordinator
